import Mathlib

/-!
# Watermark embedding and detection: `WatermarkFunctions.cpp`

A shallow embedding of the masking / prediction engine of the CPU watermarking
program, and the properties of its specification settled against it.

Conventions of the embedding

* Samples are elements of a linearly ordered field `F` (exact arithmetic); the
  structural functions are computable and can be run on rationals.
* An operation whose C++ counterpart has no value that is a number returns
  `none`: a block or an index outside an array (Eigen assertion / out-of-bounds
  access), operands of different dimensions, reading a `float` that was never
  written, and a floating-point division by zero (the quotient is an infinity
  or a NaN).
* `int` members and loop variables are integers; array dimensions are naturals.
* What the program takes from libraries (`std::sqrt`, `std::pow`, Eigen's
  `fullPivLu().solve`, the OpenMP schedule) is a parameter, `Runtime`; so is the
  file system `load_W` reads, and the value the storage of `pad` holds when the
  constructor copies the member from itself.
-/

open Finset

namespace Watermark

/-! ## Arrays -/

/-- Dense dynamically sized two-dimensional array (Eigen `ArrayXXf`, `MatrixXf`):
`coeff i j` is the entry of row `i`, column `j`. -/
structure ArrayXX (α : Type) where
  rows : Nat
  cols : Nat
  coeff : Nat → Nat → α

/-- Dense dynamically sized vector (Eigen `VectorXf`), also used for a raw buffer. -/
structure VectorX (α : Type) where
  size : Nat
  coeff : Nat → α

/-- Floating-point division; a zero divisor gives no number. -/
def fdiv {F : Type} [LinearOrderedField F] (x y : F) : Option F :=
  if y = 0 then none else some (x / y)

/-- Eigen `Constant(rows, cols, value)`; the dimensions must not be negative. -/
def ArrayXX.Constant {α : Type} (rows cols : Int) (value : α) : Option (ArrayXX α) :=
  if 0 ≤ rows ∧ 0 ≤ cols then some ⟨rows.toNat, cols.toNat, fun _ _ => value⟩ else none

/-- Checked coefficient access `A(i, j)`. -/
def ArrayXX.entry {α : Type} (A : ArrayXX α) (i j : Nat) : Option α :=
  if i < A.rows ∧ j < A.cols then some (A.coeff i j) else none

/-- The storage of an array as `data()` exposes it: column-major (the default of Eigen,
on which `load_W` relies when it maps the row-major file and transposes), entry `k` is
row `k % rows` of column `k / rows`. -/
def ArrayXX.data {α : Type} (A : ArrayXX α) (k : Nat) : α :=
  A.coeff (k % A.rows) (k / A.rows)

/-- The storage of an array as a raw buffer of `rows * cols` written cells. -/
def ArrayXX.dataBuf {α : Type} (A : ArrayXX α) : VectorX (Option α) :=
  ⟨A.rows * A.cols, fun k => some (A.data k)⟩

/-- The range condition Eigen asserts for `block(startRow, startCol, blockRows, blockCols)`. -/
@[reducible]
def ArrayXX.blockInRange {α : Type} (A : ArrayXX α) (startRow startCol blockRows blockCols : Int) :
    Prop :=
  0 ≤ startRow ∧ 0 ≤ blockRows ∧ startRow ≤ (A.rows : Int) - blockRows ∧
    0 ≤ startCol ∧ 0 ≤ blockCols ∧ startCol ≤ (A.cols : Int) - blockCols

/-- Reading `A.block(startRow, startCol, blockRows, blockCols)` into a new array. -/
def ArrayXX.block {α : Type} (A : ArrayXX α) (startRow startCol blockRows blockCols : Int) :
    Option (ArrayXX α) :=
  if A.blockInRange startRow startCol blockRows blockCols then
    some ⟨blockRows.toNat, blockCols.toNat,
      fun r c => A.coeff (startRow.toNat + r) (startCol.toNat + c)⟩
  else none

/-- Assignment `A.block(startRow, startCol, blockRows, blockCols) = B`: the block must be
in range and have the dimensions of `B`. -/
def ArrayXX.setBlock {α : Type} (A : ArrayXX α) (startRow startCol blockRows blockCols : Int)
    (B : ArrayXX α) : Option (ArrayXX α) :=
  if A.blockInRange startRow startCol blockRows blockCols ∧
      (B.rows : Int) = blockRows ∧ (B.cols : Int) = blockCols then
    some ⟨A.rows, A.cols, fun i j =>
      if startRow.toNat ≤ i ∧ i < startRow.toNat + B.rows ∧
          startCol.toNat ≤ j ∧ j < startCol.toNat + B.cols then
        B.coeff (i - startRow.toNat) (j - startCol.toNat)
      else A.coeff i j⟩
  else none

/-- Coefficient-wise binary operation of two arrays of the same dimensions. -/
def ArrayXX.zipWith {α β γ : Type} (f : α → β → γ) (A : ArrayXX α) (B : ArrayXX β) :
    Option (ArrayXX γ) :=
  if A.rows = B.rows ∧ A.cols = B.cols then
    some ⟨A.rows, A.cols, fun i j => f (A.coeff i j) (B.coeff i j)⟩
  else none

/-- Coefficient-wise unary operation. -/
def ArrayXX.map {α β : Type} (f : α → β) (A : ArrayXX α) : ArrayXX β :=
  ⟨A.rows, A.cols, fun i j => f (A.coeff i j)⟩

/-- Eigen `sum()`: the sum of all coefficients. -/
def ArrayXX.sum {α : Type} [AddCommMonoid α] (A : ArrayXX α) : α :=
  ∑ j in range A.cols, ∑ i in range A.rows, A.coeff i j

/-- Eigen `mean()`: the sum of all coefficients divided by their number. -/
def ArrayXX.mean {F : Type} [LinearOrderedField F] (A : ArrayXX F) : Option F :=
  fdiv A.sum ((A.rows * A.cols : Nat) : F)

/-- The largest of `f 0, ..., f n`, scanning from the first entry. -/
def maxUpTo {F : Type} [LinearOrder F] (f : Nat → F) : Nat → F
  | 0 => f 0
  | n + 1 => max (maxUpTo f n) (f (n + 1))

/-- Eigen `maxCoeff()`: the largest coefficient of a non-empty array. -/
def ArrayXX.maxCoeff {F : Type} [LinearOrder F] (A : ArrayXX F) : Option F :=
  if A.rows * A.cols = 0 then none else some (maxUpTo A.data (A.rows * A.cols - 1))

/-- An array filled by a loop nest over all `(i, j)`: it has a value when every
iteration has one. -/
def ArrayXX.tabulate {α : Type} (d : α) (rows cols : Nat) (f : Nat → Nat → Option α) :
    Option (ArrayXX α) :=
  if ∀ i < rows, ∀ j < cols, (f i j).isSome = true then
    some ⟨rows, cols, fun i j => (f i j).getD d⟩
  else none

/-- The contents of a buffer all of whose cells have been written. -/
def VectorX.values {α : Type} (d : α) (x : VectorX (Option α)) : Option (VectorX α) :=
  if ∀ k < x.size, (x.coeff k).isSome = true then
    some ⟨x.size, fun k => (x.coeff k).getD d⟩
  else none

/-- `std::memcpy(dst + dstOff, src + srcOff, n * sizeof(float))` on two distinct
buffers; both ranges must lie inside their buffers. -/
def memcpy {α : Type} (dst : VectorX (Option α)) (dstOff : Nat) (src : VectorX (Option α))
    (srcOff : Nat) (n : Int) : Option (VectorX (Option α)) :=
  if 0 ≤ n ∧ (dstOff : Int) + n ≤ dst.size ∧ (srcOff : Int) + n ≤ src.size then
    some ⟨dst.size, fun k =>
      if dstOff ≤ k ∧ k < dstOff + n.toNat then src.coeff (srcOff + (k - dstOff))
      else dst.coeff k⟩
  else none

/-- Matrix product `(M * x)` of a matrix and a column vector. -/
def ArrayXX.mulVec {F : Type} [LinearOrderedField F] (M : ArrayXX F) (x : VectorX F) :
    Option (VectorX F) :=
  if M.cols = x.size then
    some ⟨M.rows, fun r => ∑ k in range M.cols, M.coeff r k * x.coeff k⟩
  else none

/-- The cells of a vector, first to last. -/
def VectorX.toList {α : Type} (v : VectorX α) : List α :=
  (List.range v.size).map v.coeff

/-- Checked vector access `v(k)`. -/
def VectorX.entry {α : Type} (v : VectorX α) (k : Nat) : Option α :=
  if k < v.size then some (v.coeff k) else none

/-! ## The object and its environment -/

/-- Library functions and scheduling the program relies on. -/
structure Runtime (F : Type) where
  /-- Function `std::sqrt`. -/
  sqrt : F → F
  /-- Function `std::pow`. -/
  pow : F → F → F
  /-- Eigen `A.fullPivLu().solve(b)`: entry `(i, j)` of the result, which has
  `A.cols` rows and `b.cols` columns. -/
  solve : ArrayXX F → ArrayXX F → Nat → Nat → F
  /-- Value of `omp_get_thread_num()` inside iteration `i` of the row loop of the fit. -/
  omp_get_thread_num : Int → Nat

/-- The members of class `WatermarkFunctions`. -/
structure WatermarkFunctions (F : Type) where
  image : ArrayXX F
  p : Int
  pad : Int
  rows : Nat
  cols : Nat
  padded_rows : Int
  padded_cols : Int
  elems : Nat
  w : ArrayXX F
  p_squared : Int
  p_squared_minus_one_div_2 : Int
  psnr : F
  num_threads : Int

/-- The relations between the members that the constructor's initialiser list
(lines 14-16) sets up, `pad` apart: `rows(image.rows())`, `cols(image.cols())`,
`padded_rows(rows + 2 * pad)`, `padded_cols(cols + 2 * pad)`, `w(load_W(...))` of the
image's dimensions, `p_squared(pow(p, 2))` and
`p_squared_minus_one_div_2((p_squared - 1) / 2)`. -/
structure WatermarkFunctions.Initialised {F : Type} (obj : WatermarkFunctions F) : Prop where
  rows_eq : obj.rows = obj.image.rows
  cols_eq : obj.cols = obj.image.cols
  w_rows : obj.w.rows = obj.rows
  w_cols : obj.w.cols = obj.cols
  p_squared_eq : obj.p_squared = obj.p * obj.p
  half_eq : obj.p_squared_minus_one_div_2 = (obj.p_squared - 1).tdiv 2
  padded_rows_eq : obj.padded_rows = obj.rows + 2 * obj.pad
  padded_cols_eq : obj.padded_cols = obj.cols + 2 * obj.pad

/-- The data model of the specification: the relations of the initialiser list and
the border width `pad = (p - 1) / 2`. -/
def WatermarkFunctions.DataModel {F : Type} (obj : WatermarkFunctions F) : Prop :=
  obj.Initialised ∧ obj.pad = (obj.p - 1).tdiv 2

/-! ## Neighbourhood extractor -/

/-- Method `create_neighbors` (lines 39-53). The vector `x_` is allocated with
`p_squared - 1` cells, none of them written; the window is read with `block`; two
`memcpy` calls of `p_squared_minus_one_div_2` floats each fill `x_` from the
window's storage, the second one from source offset 5 to destination offset 4. -/
def create_neighbors {F : Type} (obj : WatermarkFunctions F) (padded_image : ArrayXX F)
    (i j p p_squared : Int) : Option (VectorX (Option F)) :=
  let neighbor_size := (p - 1).tdiv 2
  if p_squared - 1 < 0 then none else
  let x_ : VectorX (Option F) := ⟨(p_squared - 1).toNat, fun _ => none⟩
  let i0 := i - neighbor_size
  let j0 := j - neighbor_size
  let i1 := i + neighbor_size
  let j1 := j + neighbor_size
  (padded_image.block i0 j0 (i1 - i0 + 1) (j1 - j0 + 1)).bind fun x_temp =>
  (memcpy x_ 0 x_temp.dataBuf 0 obj.p_squared_minus_one_div_2).bind fun x_ =>
  memcpy x_ 4 x_temp.dataBuf 5 obj.p_squared_minus_one_div_2

/-! ## Variance mask engine -/

/-- Method `compute_NVF_mask` (lines 54-78). For the pixel of row `r`, column `c` the
loop variables are `i = pad + r`, `j = pad + c`. The pointer `neighb_d` is taken from
the `p x p` array `neighb` before the window is assigned to it, so it addresses the
window only when the assignment does not resize `neighb`; `neighb_d[jj * p + ii]` is
cell `jj * p + ii` of the storage. -/
def compute_NVF_mask {F : Type} [LinearOrderedField F] (obj : WatermarkFunctions F)
    (_image padded : ArrayXX F) : Option (ArrayXX F) :=
  let neighbor_size := (obj.p - 1).tdiv 2
  (ArrayXX.Constant obj.rows obj.cols (0 : F)).bind fun _m_nvf =>
  ArrayXX.tabulate 0 obj.rows obj.cols fun r c =>
    let i : Int := obj.pad + r
    let j : Int := obj.pad + c
    (ArrayXX.Constant obj.p obj.p (0 : F)).bind fun neighb0 =>
    let i0 := i - neighbor_size
    let j0 := j - neighbor_size
    let i1 := i + neighbor_size
    let j1 := j + neighbor_size
    (padded.block i0 j0 (i1 - i0 + 1) (j1 - j0 + 1)).bind fun neighb =>
    if neighb.rows = neighb0.rows ∧ neighb.cols = neighb0.cols then
      neighb.mean.bind fun mean =>
      let variance : F :=
        ∑ ii in range obj.p.toNat, ∑ jj in range obj.p.toNat,
          (neighb.data (jj * obj.p.toNat + ii) - mean) ^ 2
      (fdiv variance (((obj.p_squared - 1 : Int)) : F)).bind fun variance =>
      (fdiv 1 (1 + variance)).bind fun q =>
      some (1 - q)
    else none

/-! ## Predictor engine -/

/-- Method `compute_error_sequence` (lines 150-161): the residual of every pixel under
the row vector `coefficients`. -/
def compute_error_sequence {F : Type} [LinearOrderedField F] (obj : WatermarkFunctions F)
    (image padded : ArrayXX F) (coefficients : ArrayXX F) : Option (ArrayXX F) :=
  (ArrayXX.Constant obj.rows obj.cols (0 : F)).bind fun _error_sequence =>
  ArrayXX.tabulate 0 obj.rows obj.cols fun i j =>
    (create_neighbors obj padded ((i : Int) + obj.pad) ((j : Int) + obj.pad) obj.p
      obj.p_squared).bind fun x_ =>
    (x_.values 0).bind fun x_ =>
    (image.entry i j).bind fun v =>
    (coefficients.mulVec x_).bind fun cx =>
    (cx.entry 0).bind fun y =>
    some (v - y)

/-- Lines 144-145 of `compute_prediction_error_mask`: the absolute values of the error
sequence divided by the largest of them. -/
def abs_over_max {F : Type} [LinearOrderedField F] (error_sequence : ArrayXX F) :
    Option (ArrayXX F) :=
  let error_sequence_abs := error_sequence.map fun e => |e|
  error_sequence_abs.maxCoeff.bind fun mx =>
  if mx = 0 then none else some (error_sequence_abs.map fun e => e / mx)

/-- Lines 114-132 of `compute_prediction_error_mask`: the zero accumulators `Rx`, `rx`,
one copy of them per thread, and the parallel loop over the rows. Row `r` of the image
is handled by iteration `i = pad + r`, on thread `omp_get_thread_num`, which adds the
products of the pixels of that row to its own pair `Rx_all[t]`, `rx_all[t]`. The result
is `(Rx, rx, Rx_all, rx_all)`. -/
def fit_threads {F : Type} [LinearOrderedField F] (rt : Runtime F)
    (obj : WatermarkFunctions F) (image padded_image : ArrayXX F) :
    Option (ArrayXX F × ArrayXX F × (Nat → ArrayXX F) × (Nat → ArrayXX F)) :=
  (ArrayXX.Constant (obj.p_squared - 1) (obj.p_squared - 1) (0 : F)).bind fun Rx =>
  (ArrayXX.Constant (obj.p_squared - 1) 1 (0 : F)).bind fun rx =>
  if obj.num_threads < 0 then none else
  (ArrayXX.tabulate ((⟨0, fun _ => 0⟩ : VectorX F), (0 : F)) obj.rows obj.cols fun r c =>
    (create_neighbors obj padded_image ((obj.pad : Int) + r) ((obj.pad : Int) + c) obj.p
      obj.p_squared).bind fun x_ =>
    (x_.values 0).bind fun x_ =>
    (image.entry r c).bind fun v =>
    if rt.omp_get_thread_num ((obj.pad : Int) + r) < obj.num_threads.toNat ∧
        x_.size = Rx.rows then some (x_, v)
    else none).bind fun xs =>
  let mine : Nat → Finset Nat := fun t =>
    (range obj.rows).filter fun r => rt.omp_get_thread_num ((obj.pad : Int) + r) = t
  let Rx_all : Nat → ArrayXX F := fun t =>
    ⟨Rx.rows, Rx.cols, fun a b => Rx.coeff a b +
      ∑ r in mine t, ∑ c in range obj.cols,
        (xs.coeff r c).1.coeff a * (xs.coeff r c).1.coeff b⟩
  let rx_all : Nat → ArrayXX F := fun t =>
    ⟨rx.rows, rx.cols, fun a b => rx.coeff a b +
      ∑ r in mine t, ∑ c in range obj.cols, (xs.coeff r c).1.coeff a * (xs.coeff r c).2⟩
  some (Rx, rx, Rx_all, rx_all)

/-- Lines 133-137 of `compute_prediction_error_mask`: the per-thread accumulators are
added to `Rx` and `rx`. -/
def fit_reduce {F : Type} [LinearOrderedField F] (obj : WatermarkFunctions F)
    (Rx rx : ArrayXX F) (Rx_all rx_all : Nat → ArrayXX F) : ArrayXX F × ArrayXX F :=
  (⟨Rx.rows, Rx.cols, fun a b => Rx.coeff a b +
      ∑ t in range obj.num_threads.toNat, (Rx_all t).coeff a b⟩,
   ⟨rx.rows, rx.cols, fun a b => rx.coeff a b +
      ∑ t in range obj.num_threads.toNat, (rx_all t).coeff a b⟩)

/-- Method `compute_prediction_error_mask` (lines 111-147); the result is
`(m_e, error_sequence, coefficients)`. After the accumulation and the reduction the
system is solved and the solution transposed into a row vector; the error sequence is
computed with it and, when `mask_needed`, divided by its largest absolute value. -/
def compute_prediction_error_mask {F : Type} [LinearOrderedField F] (rt : Runtime F)
    (obj : WatermarkFunctions F) (image padded_image : ArrayXX F) (mask_needed : Bool) :
    Option (ArrayXX F × ArrayXX F × ArrayXX F) :=
  (ArrayXX.Constant obj.rows obj.cols (0 : F)).bind fun m_e =>
  (fit_threads rt obj image padded_image).bind fun acc =>
  let Rx := (fit_reduce obj acc.1 acc.2.1 acc.2.2.1 acc.2.2.2).1
  let rx := (fit_reduce obj acc.1 acc.2.1 acc.2.2.1 acc.2.2.2).2
  let coefficients : ArrayXX F := ⟨rx.cols, Rx.cols, fun a b => rt.solve Rx rx b a⟩
  (compute_error_sequence obj image padded_image coefficients).bind fun error_sequence =>
  if mask_needed then
    (abs_over_max error_sequence).bind fun m_e => some (m_e, error_sequence, coefficients)
  else some (m_e, error_sequence, coefficients)

/-! ## Embedder -/

/-- The border-padded copy of an image (lines 81-82 and 166-167): a zero array of
`padded_rows x padded_cols` whose inner block is assigned the image. -/
def padded_of {F : Type} [LinearOrderedField F] (obj : WatermarkFunctions F)
    (image : ArrayXX F) : Option (ArrayXX F) :=
  (ArrayXX.Constant obj.padded_rows obj.padded_cols (0 : F)).bind fun padded =>
  padded.setBlock obj.pad obj.pad ((obj.padded_rows - obj.pad) - obj.pad)
    ((obj.padded_cols - obj.pad) - obj.pad) image

/-- First part of `make_and_add_watermark` (lines 81-92): the padded image, the mask
of the selected model and the product `u = m * w`. -/
def watermark_pattern {F : Type} [LinearOrderedField F] (rt : Runtime F)
    (obj : WatermarkFunctions F) (is_custom_mask : Bool) : Option (ArrayXX F) :=
  (padded_of obj obj.image).bind fun padded =>
  (if is_custom_mask then compute_NVF_mask obj obj.image padded
   else (compute_prediction_error_mask rt obj obj.image padded true).map fun r => r.1).bind
    fun m =>
  m.zipWith (fun a b => a * b) obj.w

/-- Method `make_and_add_watermark` (lines 80-96): the pattern `u`, its root mean
square `divisor`, the scale `a` and the sum `image + a * u`. -/
def make_and_add_watermark {F : Type} [LinearOrderedField F] (rt : Runtime F)
    (obj : WatermarkFunctions F) (is_custom_mask : Bool) : Option (ArrayXX F) :=
  (watermark_pattern rt obj is_custom_mask).bind fun u =>
  (fdiv (u.map fun x => x ^ 2).sum ((obj.rows * obj.cols : Nat) : F)).bind fun q =>
  let divisor := rt.sqrt q
  (fdiv 255 (rt.sqrt (rt.pow 10 (obj.psnr / 10)))).bind fun num =>
  (fdiv num divisor).bind fun a =>
  obj.image.zipWith (fun x y => x + y) (u.map fun x => a * x)

/-! ## Detector -/

/-- First part of `mask_detector` (lines 165-179): the residual field `e_z` of the
received image and the residual field `e_u` of the pattern `u = m * w`, both under the
coefficients `a_z` fitted on the received image. -/
def detector_error_sequences {F : Type} [LinearOrderedField F] (rt : Runtime F)
    (obj : WatermarkFunctions F) (watermarked_image : ArrayXX F) (is_custom_mask : Bool) :
    Option (ArrayXX F × ArrayXX F) :=
  (padded_of obj watermarked_image).bind fun padded =>
  (if is_custom_mask then
    (compute_prediction_error_mask rt obj watermarked_image padded false).bind fun r =>
    (compute_NVF_mask obj watermarked_image padded).bind fun m =>
    some (m, r.2.1, r.2.2)
   else compute_prediction_error_mask rt obj watermarked_image padded true).bind fun r =>
  let m := r.1
  let e_z := r.2.1
  let a_z := r.2.2
  (m.zipWith (fun a b => a * b) obj.w).bind fun u =>
  (padded.setBlock obj.pad obj.pad ((obj.padded_rows - obj.pad) - obj.pad)
    ((obj.padded_cols - obj.pad) - obj.pad) u).bind fun padded =>
  (compute_error_sequence obj u padded a_z).bind fun e_u =>
  some (e_z, e_u)

/-- Last part of `mask_detector` (lines 180-190): the three reductions and the quotient. -/
def correlation {F : Type} [LinearOrderedField F] (rt : Runtime F) (e_z e_u : ArrayXX F) :
    Option F :=
  (e_z.zipWith (fun a b => a * b) e_u).bind fun prod =>
  let dot_ez_eu := prod.sum
  let d_ez := rt.sqrt (e_z.map fun x => x ^ 2).sum
  let d_eu := rt.sqrt (e_u.map fun x => x ^ 2).sum
  fdiv dot_ez_eu (d_ez * d_eu)

/-- Method `mask_detector` (lines 163-191). -/
def mask_detector {F : Type} [LinearOrderedField F] (rt : Runtime F)
    (obj : WatermarkFunctions F) (watermarked_image : ArrayXX F) (is_custom_mask : Bool) :
    Option F :=
  (detector_error_sequences rt obj watermarked_image is_custom_mask).bind fun e =>
  correlation rt e.1 e.2

/-! ## Quantities named by the specification -/

/-- Specification, variance mask: the arithmetic mean of the `p * p` cells of the
window of the padded array `P` centred at the cell `(ci, cj)`. -/
def Spec.window_mean {F : Type} [LinearOrderedField F] (P : ArrayXX F) (p ci cj : Nat) : F :=
  (∑ a in range p, ∑ b in range p, P.coeff (ci - (p - 1) / 2 + a) (cj - (p - 1) / 2 + b)) /
    ((p : F) ^ 2)

/-- Specification, variance mask: the sum of the squared deviations of the `p * p`
cells of the window centred at `(ci, cj)` from their mean, divided by `p ^ 2 - 1`. -/
def Spec.window_variance {F : Type} [LinearOrderedField F] (P : ArrayXX F) (p ci cj : Nat) :
    F :=
  (∑ a in range p, ∑ b in range p,
    (P.coeff (ci - (p - 1) / 2 + a) (cj - (p - 1) / 2 + b) - Spec.window_mean P p ci cj) ^ 2) /
    ((p : F) ^ 2 - 1)

/-- Specification, neighbourhood vector: the cells of the `p x p` window centred at
`(i, j)` in row-major window order (row by row, left to right within a row), the
centre cell removed. -/
def Spec.neighborhood_row_major {α : Type} (P : ArrayXX α) (p i j : Nat) : List α :=
  ((List.range (p * p)).filter fun m => m ≠ (p * p - 1) / 2).map fun m =>
    P.coeff (i - (p - 1) / 2 + m / p) (j - (p - 1) / 2 + m % p)

/-- The cells of the `p x p` window centred at `(i, j)` in column-major window order
(column by column, top to bottom within a column), the centre cell removed. -/
def Spec.neighborhood_column_major {α : Type} (P : ArrayXX α) (p i j : Nat) : List α :=
  ((List.range (p * p)).filter fun m => m ≠ (p * p - 1) / 2).map fun m =>
    P.coeff (i - (p - 1) / 2 + m % p) (j - (p - 1) / 2 + m / p)

/-- Specification, data model: the image surrounded by a zero border of width `n`. -/
def Spec.zero_padded {F : Type} [LinearOrderedField F] (n : Nat) (image : ArrayXX F) :
    ArrayXX F :=
  ⟨image.rows + 2 * n, image.cols + 2 * n, fun x y =>
    if n ≤ x ∧ x < n + image.rows ∧ n ≤ y ∧ y < n + image.cols then image.coeff (x - n) (y - n)
    else 0⟩

/-- The neighbourhood vector of pixel `(i, j)` as the loops of the predictor engine
obtain it: the vector `create_neighbors` returns for the padded cell
`(i + pad, j + pad)`, every cell of which is read. -/
def neighborhood {F : Type} [LinearOrderedField F] (obj : WatermarkFunctions F)
    (padded : ArrayXX F) (i j : Nat) : Option (VectorX F) :=
  (create_neighbors obj padded ((i : Int) + obj.pad) ((j : Int) + obj.pad) obj.p
    obj.p_squared).bind (VectorX.values 0)

/-- The neighbourhood vector for `p = 3` in closed form: the cells of the `3 x 3` window
whose top-left cell is `(i, j)`, read column by column, the centre cell skipped. -/
def neighborhood_three {F : Type} [LinearOrderedField F] (P : ArrayXX F) (i j : Nat) :
    VectorX F :=
  ⟨8, fun k =>
    if k < 4 then P.coeff (i + k % 3) (j + k / 3)
    else if k < 8 then P.coeff (i + (k + 1) % 3) (j + (k + 1) / 3)
    else 0⟩

/-- Specification, predictor fit: the accumulator `Rx`, the sum over all pixels of the
outer product `x x^T` of the neighbourhood vector `x = X i j` of the pixel. -/
def Spec.Rx {F : Type} [LinearOrderedField F] (obj : WatermarkFunctions F)
    (X : Nat → Nat → VectorX F) : ArrayXX F :=
  ⟨(obj.p_squared - 1).toNat, (obj.p_squared - 1).toNat, fun a b =>
    ∑ i in range obj.rows, ∑ j in range obj.cols, (X i j).coeff a * (X i j).coeff b⟩

/-- Specification, predictor fit: the accumulator `rx`, the sum over all pixels of the
neighbourhood vector times the value of the pixel. -/
def Spec.rx {F : Type} [LinearOrderedField F] (obj : WatermarkFunctions F)
    (image : ArrayXX F) (X : Nat → Nat → VectorX F) : ArrayXX F :=
  ⟨(obj.p_squared - 1).toNat, 1, fun a _ =>
    ∑ i in range obj.rows, ∑ j in range obj.cols, (X i j).coeff a * image.coeff i j⟩

/-- Specification, predictor fit: the row vector of coefficients the solver returns
for the system `Rx c = rx`. -/
def Spec.fit {F : Type} [LinearOrderedField F] (rt : Runtime F) (obj : WatermarkFunctions F)
    (image : ArrayXX F) (X : Nat → Nat → VectorX F) : ArrayXX F :=
  ⟨1, (obj.p_squared - 1).toNat, fun a b => rt.solve (Spec.Rx obj X) (Spec.rx obj image X) b a⟩

/-- Specification, error sequence: the residual of pixel `(i, j)` is its value minus
the product of the coefficients and its neighbourhood vector. -/
def Spec.residual {F : Type} [LinearOrderedField F] (c : ArrayXX F) (image : ArrayXX F)
    (X : Nat → Nat → VectorX F) (i j : Nat) : F :=
  image.coeff i j - ∑ k in range c.cols, c.coeff 0 k * (X i j).coeff k

/-- Two arrays of the same dimensions with the same entries in range. -/
def ArrayXX.Same {α : Type} (A B : ArrayXX α) : Prop :=
  A.rows = B.rows ∧ A.cols = B.cols ∧ ∀ i < A.rows, ∀ j < A.cols, A.coeff i j = B.coeff i j

/-- Specification, detector: the neighbourhood vectors of all pixels of an array, taken
on its zero-padded copy. -/
def Spec.neighborhoods {F : Type} [LinearOrderedField F] (obj : WatermarkFunctions F)
    (A : ArrayXX F) : Option (ArrayXX (VectorX F)) :=
  ArrayXX.tabulate ⟨0, fun _ => 0⟩ obj.rows obj.cols
    (neighborhood obj (Spec.zero_padded obj.pad.toNat A))

/-- Specification, variance mask of an image: `1 - 1 / (1 + v(i, j))` with `v` the
variance of the window centred at pixel `(i, j)` of the zero-padded image. -/
def Spec.variance_mask {F : Type} [LinearOrderedField F] (obj : WatermarkFunctions F)
    (Z : ArrayXX F) : ArrayXX F :=
  ⟨obj.rows, obj.cols, fun i j =>
    1 - 1 / (1 + Spec.window_variance (Spec.zero_padded obj.pad.toNat Z) obj.p.toNat
      (i + obj.pad.toNat) (j + obj.pad.toNat))⟩

/-- Specification, detector: the residual fields `(e_z, e_u)`. With `c` the
coefficients fit on the received image `Z`, `e_z(i, j) = Z(i, j) - c . neighborhood_Z(i, j)`;
`u = mask * W` with `mask` the variance mask of `Z` (variance model) or
`|e_z| / max |e_z|` (prediction-error model); and
`e_u(i, j) = u(i, j) - c . neighborhood_u(i, j)` on the zero-padded `u`, with the same
`c`. -/
def Spec.detector_fields {F : Type} [LinearOrderedField F] (rt : Runtime F)
    (obj : WatermarkFunctions F) (Z : ArrayXX F) (variance_model : Bool) :
    Option (ArrayXX F × ArrayXX F) :=
  (Spec.neighborhoods obj Z).bind fun XZ =>
  let c := Spec.fit rt obj Z XZ.coeff
  let e_z : ArrayXX F := ⟨obj.rows, obj.cols, Spec.residual c Z XZ.coeff⟩
  (if variance_model then some (Spec.variance_mask obj Z) else abs_over_max e_z).bind
    fun mask =>
  let u : ArrayXX F := ⟨obj.rows, obj.cols, fun i j => mask.coeff i j * obj.w.coeff i j⟩
  (Spec.neighborhoods obj u).bind fun XU =>
  some (e_z, ⟨obj.rows, obj.cols, Spec.residual c u XU.coeff⟩)

/-- Specification, detector: the score `dot(e_z, e_u) / (norm(e_z) * norm(e_u))`. -/
def Spec.detector_score {F : Type} [LinearOrderedField F] (rt : Runtime F)
    (obj : WatermarkFunctions F) (Z : ArrayXX F) (variance_model : Bool) : Option F :=
  (Spec.detector_fields rt obj Z variance_model).bind fun e =>
  fdiv (∑ i in range obj.rows, ∑ j in range obj.cols, e.1.coeff i j * e.2.coeff i j)
    (rt.sqrt (∑ i in range obj.rows, ∑ j in range obj.cols, e.1.coeff i j ^ 2) *
      rt.sqrt (∑ i in range obj.rows, ∑ j in range obj.cols, e.2.coeff i j ^ 2))

/-! ## Concrete inputs -/

/-- A `3 x 3` array of distinct entries: entry `(i, j)` is `10 i + j`. -/
def Example.window3 : ArrayXX Int :=
  ⟨3, 3, fun i j => 10 * i + j⟩

/-- A `5 x 5` array of distinct entries: entry `(i, j)` is `10 i + j`. -/
def Example.window5 : ArrayXX Int :=
  ⟨5, 5, fun i j => 10 * i + j⟩

/-- A reference pattern of alternating signs: `1` where `i + j` is even, `-1` elsewhere. -/
def Example.checkerboard {F : Type} [One F] [Neg F] (i j : Nat) : F :=
  if (i + j) % 2 = 0 then 1 else -1

/-- A runtime for the examples: the given square root and power, thread 0 for every
row, and a solver that returns the zero vector. -/
def Example.runtime {F : Type} [Zero F] (sqrt : F → F) (pow : F → F → F) : Runtime F :=
  ⟨sqrt, pow, fun _ _ _ _ => 0, fun _ => 0⟩

/-- An object for a `rows x cols` image and window side `p`, its members as the data
model relates them. -/
def Example.object {F : Type} (rows cols : Nat) (p : Int) (image w : Nat → Nat → F) (psnr : F) :
    WatermarkFunctions F where
  image := ⟨rows, cols, image⟩
  p := p
  pad := (p - 1).tdiv 2
  rows := rows
  cols := cols
  padded_rows := rows + 2 * (p - 1).tdiv 2
  padded_cols := cols + 2 * (p - 1).tdiv 2
  elems := rows * cols
  w := ⟨rows, cols, w⟩
  p_squared := p * p
  p_squared_minus_one_div_2 := (p * p - 1).tdiv 2
  psnr := psnr
  num_threads := 1

/-! ## Construction and parameter checks -/

/-- A file as `load_W` reads it: its length in bytes and its contents taken as
consecutive 32-bit floats, `floats k` being bytes `4 k .. 4 k + 3`. -/
structure File (F : Type) where
  total_bytes : Nat
  floats : Nat → F

/-- The two `throw` statements of `load_W`. -/
inductive LoadError where
  | cannot_open
  | size_mismatch

/-- Method `load_W` (lines 20-36). `fs` gives the file a path opens, if any. The size
test compares `rows * cols * sizeof(float)`, an unsigned 64-bit product, with the
length of the file; the floats are then mapped as a column-major `cols x rows` array
and transposed, so that entry `(r, c)` is float `r * cols + c` of the file. -/
def load_W {F : Type} (fs : String → Option (File F)) (w_file : String) (rows cols : Nat) :
    Except LoadError (ArrayXX F) :=
  match fs w_file with
  | none => Except.error LoadError.cannot_open
  | some w_stream =>
    let total_bytes := w_stream.total_bytes
    if (rows * cols * 4) % 2 ^ 64 ≠ total_bytes then Except.error LoadError.size_mismatch
    else Except.ok ⟨rows, cols, fun r c => w_stream.floats (r * cols + c)⟩

/-- The constructor (lines 14-17), member by member in the order of its initialiser
list. The initialiser `pad(pad)` copies the member from itself: `pad_storage` is the
value its storage holds when the constructor runs. -/
def WatermarkFunctions.construct {F : Type} (fs : String → Option (File F))
    (image : ArrayXX F) (w_file_path : String) (p : Int) (psnr : F) (num_threads : Int)
    (pad_storage : Int) : Except LoadError (WatermarkFunctions F) :=
  let pad := pad_storage
  let rows := image.rows
  let cols := image.cols
  let padded_rows : Int := rows + 2 * pad
  let padded_cols : Int := cols + 2 * pad
  let elems := rows * cols
  match load_W fs w_file_path image.rows image.cols with
  | Except.error e => Except.error e
  | Except.ok w =>
    let p_squared := p * p
    let p_squared_minus_one_div_2 := (p_squared - 1).tdiv 2
    Except.ok
      { image := image, p := p, pad := pad, rows := rows, cols := cols,
        padded_rows := padded_rows, padded_cols := padded_cols, elems := elems, w := w,
        p_squared := p_squared, p_squared_minus_one_div_2 := p_squared_minus_one_div_2,
        psnr := psnr, num_threads := num_threads }

/-- The checks of `main` (lines 60-71) on the dimensions of the image, on `p` and on
`psnr`, each of which ends the program with `EXIT_FAILURE`; `true` when the program
goes on to construct the watermark object. `p % 2` is the remainder of C++. -/
def main_checks {F : Type} [LinearOrderedField F] (rows cols p : Int) (psnr : F) : Bool :=
  if cols ≤ 16 ∨ rows ≤ 16 ∨ rows ≥ 16384 ∨ cols ≥ 16384 then false
  else if p ≤ 0 ∨ p.tmod 2 ≠ 1 ∨ p > 9 then false
  else if psnr ≤ 0 then false
  else true

/-! ## The embedder on arrays in memory -/

/-- The arrays `make_and_add_watermark` can name: the array members `image` and `w` of
the object, the locals of the method, and the array it returns. -/
inductive Loc where
  | member_image
  | member_w
  | local_padded
  | local_m
  | local_u
  | local_error_sequence
  | local_coefficients
  | returned

/-- A number for each array, by which two of them are told apart. -/
def Loc.index : Loc → Nat
  | Loc.member_image => 0
  | Loc.member_w => 1
  | Loc.local_padded => 2
  | Loc.local_m => 3
  | Loc.local_u => 4
  | Loc.local_error_sequence => 5
  | Loc.local_coefficients => 6
  | Loc.returned => 7

/-- The contents of the arrays in memory. -/
def Store (F : Type) : Type :=
  Loc → ArrayXX F

/-- The contents of array `x`. -/
def Store.read {F : Type} (s : Store F) (x : Loc) : ArrayXX F :=
  s x

/-- Assignment `x = v` of a whole array: `x` holds `v`, every other array is untouched. -/
def Store.assign {F : Type} (s : Store F) (x : Loc) (v : ArrayXX F) : Store F :=
  fun y => if y.index = x.index then v else s y

/-- Method `compute_NVF_mask` (lines 54-78) on arrays passed by reference: it reads
`image` and `padded` and assigns `m_nvf`, first the zero array (line 56), then, entry
by entry in the loop nest, the mask. -/
def compute_NVF_mask_at {F : Type} [LinearOrderedField F] (obj : WatermarkFunctions F)
    (image padded m_nvf : Loc) (s : Store F) : Option (Store F) :=
  (ArrayXX.Constant obj.rows obj.cols (0 : F)).bind fun zero =>
  let s := s.assign m_nvf zero
  (compute_NVF_mask obj (s.read image) (s.read padded)).bind fun mask =>
  some (s.assign m_nvf mask)

/-- Method `compute_error_sequence` (lines 150-161) on arrays passed by reference: it
reads `image`, `padded` and `coefficients` and assigns `error_sequence`, first the zero
array (line 152), then, entry by entry, the residuals. -/
def compute_error_sequence_at {F : Type} [LinearOrderedField F] (obj : WatermarkFunctions F)
    (image padded coefficients error_sequence : Loc) (s : Store F) : Option (Store F) :=
  (ArrayXX.Constant obj.rows obj.cols (0 : F)).bind fun zero =>
  let s := s.assign error_sequence zero
  (compute_error_sequence obj (s.read image) (s.read padded) (s.read coefficients)).bind
    fun e =>
  some (s.assign error_sequence e)

/-- Method `compute_prediction_error_mask` (lines 111-147) on arrays passed by
reference: it reads `image` and `padded_image` and assigns `m_e` (line 113),
`coefficients` (the solution, line 138, then its transpose, line 139), `error_sequence`
(through `compute_error_sequence`, line 142) and, when `mask_needed`, `m_e` again
(line 145). `Rx`, `rx` and the per-thread accumulators are locals of the method. -/
def compute_prediction_error_mask_at {F : Type} [LinearOrderedField F] (rt : Runtime F)
    (obj : WatermarkFunctions F) (image padded_image m_e error_sequence coefficients : Loc)
    (mask_needed : Bool) (s : Store F) : Option (Store F) :=
  (ArrayXX.Constant obj.rows obj.cols (0 : F)).bind fun zero =>
  let s := s.assign m_e zero
  (fit_threads rt obj (s.read image) (s.read padded_image)).bind fun acc =>
  let Rx := (fit_reduce obj acc.1 acc.2.1 acc.2.2.1 acc.2.2.2).1
  let rx := (fit_reduce obj acc.1 acc.2.1 acc.2.2.1 acc.2.2.2).2
  let s := s.assign coefficients ⟨Rx.cols, rx.cols, fun a b => rt.solve Rx rx a b⟩
  let s := s.assign coefficients
    ⟨(s.read coefficients).cols, (s.read coefficients).rows,
      fun a b => (s.read coefficients).coeff b a⟩
  (compute_error_sequence_at obj image padded_image coefficients error_sequence s).bind
    fun s =>
  if mask_needed then
    (abs_over_max (s.read error_sequence)).bind fun mask => some (s.assign m_e mask)
  else some s

/-- Method `make_and_add_watermark` (lines 80-96) on arrays in memory. The members
`image` and `w` are the arrays `Loc.member_image` and `Loc.member_w` of the store; the
scalar members are those of `obj`. Line 81 assigns `padded`, line 82 its inner block,
line 83 declares the empty `m` and `u`, lines 84-91 pass `image`, `padded` and the
locals by reference to the mask engine of the model, line 92 assigns `u`, and the sum
of line 95 is returned as the array `Loc.returned`. -/
def make_and_add_watermark_at {F : Type} [LinearOrderedField F] (rt : Runtime F)
    (obj : WatermarkFunctions F) (is_custom_mask : Bool) (s : Store F) : Option (Store F) :=
  (ArrayXX.Constant obj.padded_rows obj.padded_cols (0 : F)).bind fun zero =>
  let s := s.assign Loc.local_padded zero
  ((s.read Loc.local_padded).setBlock obj.pad obj.pad ((obj.padded_rows - obj.pad) - obj.pad)
    ((obj.padded_cols - obj.pad) - obj.pad) (s.read Loc.member_image)).bind fun padded =>
  let s := s.assign Loc.local_padded padded
  let s := (s.assign Loc.local_m ⟨0, 0, fun _ _ => 0⟩).assign Loc.local_u ⟨0, 0, fun _ _ => 0⟩
  (if is_custom_mask then
    compute_NVF_mask_at obj Loc.member_image Loc.local_padded Loc.local_m s
   else
    let s := (s.assign Loc.local_error_sequence ⟨0, 0, fun _ _ => 0⟩).assign
      Loc.local_coefficients ⟨0, 0, fun _ _ => 0⟩
    compute_prediction_error_mask_at rt obj Loc.member_image Loc.local_padded Loc.local_m
      Loc.local_error_sequence Loc.local_coefficients true s).bind fun s =>
  ((s.read Loc.local_m).zipWith (fun a b => a * b) (s.read Loc.member_w)).bind fun u =>
  let s := s.assign Loc.local_u u
  (fdiv ((s.read Loc.local_u).map fun x => x ^ 2).sum ((obj.rows * obj.cols : Nat) : F)).bind
    fun q =>
  let divisor := rt.sqrt q
  (fdiv 255 (rt.sqrt (rt.pow 10 (obj.psnr / 10)))).bind fun num =>
  (fdiv num divisor).bind fun a =>
  ((s.read Loc.member_image).zipWith (fun x y => x + y)
    ((s.read Loc.local_u).map fun x => a * x)).bind fun sum =>
  some (s.assign Loc.returned sum)

/-- The object `obj` with the array members `image` and `w`. -/
def WatermarkFunctions.with_arrays {F : Type} (obj : WatermarkFunctions F)
    (image w : ArrayXX F) : WatermarkFunctions F :=
  { obj with image := image, w := w }

/-! ## The stages of the detector -/

/-- The cells of a buffer, each written cell mapped by `f`. -/
def VectorX.mapCells {α β : Type} (f : α → β) (x : VectorX (Option α)) : VectorX (Option β) :=
  ⟨x.size, fun k => (x.coeff k).map f⟩

/-- A vector mapped by `f`. -/
def VectorX.map {α β : Type} (f : α → β) (x : VectorX α) : VectorX β :=
  ⟨x.size, fun k => f (x.coeff k)⟩

/-- The runtime `rt` under another assignment of the rows of the fit to threads. -/
def Runtime.with_schedule {F : Type} (rt : Runtime F) (t : Int → Nat) : Runtime F :=
  ⟨rt.sqrt, rt.pow, rt.solve, t⟩

/-- The object `obj` with `n` worker threads. -/
def WatermarkFunctions.with_threads {F : Type} (obj : WatermarkFunctions F) (n : Int) :
    WatermarkFunctions F :=
  { obj with num_threads := n }

/-- The object `obj` with the reference pattern `w`. -/
def WatermarkFunctions.with_pattern {F : Type} (obj : WatermarkFunctions F) (w : ArrayXX F) :
    WatermarkFunctions F :=
  { obj with w := w }

/-! ## Further concrete inputs -/

/-- An image of one row and two columns, with the values 1 and 2. -/
def Example.pair : ArrayXX ℚ :=
  ⟨1, 2, fun _ j => if j = 0 then 1 else 2⟩

/-- An object for the image `Example.pair`, window side 3 and a pattern of ones. -/
def Example.pair_object : WatermarkFunctions ℚ :=
  Example.object 1 2 3 (fun _ j => if j = 0 then 1 else 2) (fun _ _ => 1) 30

/-- A row vector of eight coefficients: 2 in cell 1, 1/2 in cell 6, zero elsewhere. -/
def Example.pair_fit : ArrayXX ℚ :=
  ⟨1, 8, fun _ k => if k = 1 then 2 else if k = 6 then 1 / 2 else 0⟩

/-- A runtime on the rationals with the identity for square root and a constant power. -/
def Example.rational_runtime : Runtime ℚ :=
  Example.runtime (fun x => x) (fun _ _ => 1)

/-- A file system in which every path opens a file of `4 * 17 * 17` bytes whose floats
are all 1. -/
def Example.files : String → Option (File ℚ) :=
  fun _ => some ⟨4 * 17 * 17, fun _ => 1⟩

/-- An image of `17 x 17` pixels: entry `(i, j)` is `i + j`. -/
def Example.image17 : ArrayXX ℚ :=
  ⟨17, 17, fun i j => i + j⟩

theorem fdiv_of_ne {F : Type} [LinearOrderedField F] (x : F) {y : F} (h : y ≠ 0) :
    fdiv x y = some (x / y) := by
  simp [fdiv, h]

theorem fdiv_zero_right {F : Type} [LinearOrderedField F] (x : F) : fdiv x 0 = none := by
  simp [fdiv]

theorem fdiv_eq_some_iff {F : Type} [LinearOrderedField F] (x y z : F) :
    fdiv x y = some z ↔ y ≠ 0 ∧ x / y = z := by
  unfold fdiv
  by_cases h : y = 0 <;> simp [h]

theorem Constant_natCast {α : Type} (r c : Nat) (v : α) :
    ArrayXX.Constant (r : Int) (c : Int) v = some ⟨r, c, fun _ _ => v⟩ := by
  simp [ArrayXX.Constant]

theorem tabulate_of_forall {α : Type} (d : α) (rows cols : Nat) (f : Nat → Nat → Option α)
    (g : Nat → Nat → α) (h : ∀ i < rows, ∀ j < cols, f i j = some (g i j)) :
    ∃ A, ArrayXX.tabulate d rows cols f = some A ∧ A.rows = rows ∧ A.cols = cols ∧
      ∀ i < rows, ∀ j < cols, A.coeff i j = g i j := by
  have hall : ∀ i < rows, ∀ j < cols, (f i j).isSome = true := by
    intro i hi j hj
    rw [h i hi j hj]
    rfl
  refine ⟨⟨rows, cols, fun i j => (f i j).getD d⟩, ?_, rfl, rfl, ?_⟩
  · unfold ArrayXX.tabulate
    rw [if_pos hall]
  · intro i hi j hj
    show (f i j).getD d = g i j
    rw [h i hi j hj]
    rfl

theorem tabulate_eq_some {α : Type} {d : α} {rows cols : Nat} {f : Nat → Nat → Option α}
    {A : ArrayXX α} (h : ArrayXX.tabulate d rows cols f = some A) :
    A.rows = rows ∧ A.cols = cols ∧ ∀ i < rows, ∀ j < cols, f i j = some (A.coeff i j) := by
  unfold ArrayXX.tabulate at h
  split at h
  · rename_i hall
    cases h
    refine ⟨rfl, rfl, ?_⟩
    intro i hi j hj
    have := hall i hi j hj
    obtain ⟨a, ha⟩ := Option.isSome_iff_exists.mp this
    simp [ha]
  · cases h

theorem tabulate_eq_none_of {α : Type} (d : α) (rows cols : Nat) (f : Nat → Nat → Option α)
    (i j : Nat) (hi : i < rows) (hj : j < cols) (h : f i j = none) :
    ArrayXX.tabulate d rows cols f = none := by
  unfold ArrayXX.tabulate
  rw [if_neg]
  intro hall
  have := hall i hi j hj
  rw [h] at this
  cases this

/-- The padded copy built by the embedder and the detector. -/
theorem padded_of_eq {F : Type} [LinearOrderedField F] (obj : WatermarkFunctions F)
    (image : ArrayXX F) (n : Nat) (hpad : obj.pad = n)
    (hr : image.rows = obj.rows) (hc : image.cols = obj.cols)
    (hpr : obj.padded_rows = obj.rows + 2 * obj.pad)
    (hpc : obj.padded_cols = obj.cols + 2 * obj.pad) :
    padded_of obj image = some ⟨obj.rows + 2 * n, obj.cols + 2 * n, fun x y =>
      if n ≤ x ∧ x < n + obj.rows ∧ n ≤ y ∧ y < n + obj.cols then image.coeff (x - n) (y - n)
      else 0⟩ := by
  unfold padded_of
  have h1 : obj.padded_rows = ((obj.rows + 2 * n : Nat) : Int) := by
    rw [hpr, hpad]; push_cast; ring
  have h2 : obj.padded_cols = ((obj.cols + 2 * n : Nat) : Int) := by
    rw [hpc, hpad]; push_cast; ring
  rw [h1, h2, Constant_natCast, Option.some_bind]
  unfold ArrayXX.setBlock
  rw [if_pos]
  · simp only [hpad, Int.toNat_ofNat, hr, hc]
  · simp only [ArrayXX.blockInRange, hpad, hr, hc]
    push_cast
    omega

/-- The window read by `block` around a centre that is `n` cells away from the borders. -/
theorem block_window {α : Type} (P : ArrayXX α) (n : Nat) (p : Int) (hp : p = 2 * n + 1)
    (r c : Nat) (hr : r + 2 * n < P.rows) (hc : c + 2 * n < P.cols) :
    P.block (((n : Int) + r) - (p - 1).tdiv 2) (((n : Int) + c) - (p - 1).tdiv 2)
        ((((n : Int) + r) + (p - 1).tdiv 2) - (((n : Int) + r) - (p - 1).tdiv 2) + 1)
        ((((n : Int) + c) + (p - 1).tdiv 2) - (((n : Int) + c) - (p - 1).tdiv 2) + 1) =
      some ⟨2 * n + 1, 2 * n + 1, fun a b => P.coeff (r + a) (c + b)⟩ := by
  have hns : (p - 1).tdiv 2 = n := by
    rw [Int.tdiv_eq_ediv (by omega) (by norm_num)]; omega
  rw [hns]
  unfold ArrayXX.block
  rw [if_pos]
  · have e1 : ((n : Int) + r - n).toNat = r := by omega
    have e2 : ((n : Int) + c - n).toNat = c := by omega
    have e3 : ((n : Int) + r + n - (n + r - n) + 1).toNat = 2 * n + 1 := by omega
    have e4 : ((n : Int) + c + n - (n + c - n) + 1).toNat = 2 * n + 1 := by omega
    rw [e1, e2, e3, e4]
  · simp only [ArrayXX.blockInRange]
    omega

/-! ## The neighbourhood extractor -/

/-- What `create_neighbors` returns for an odd window side `p = 2 n + 1 >= 3` around a
centre whose window is inside the padded array: cells `0..3` of the window's storage,
then cells `5 .. 4 + (p^2 - 1)/2`; the remaining cells of `x_` are never written. -/
theorem create_neighbors_eq {F : Type} (obj : WatermarkFunctions F) (P : ArrayXX F)
    (n : Nat) (hn : 1 ≤ n) (p : Int) (hp : p = 2 * n + 1)
    (hhalf : obj.p_squared_minus_one_div_2 = ((2 * (n * n + n) : Nat) : Int))
    (r c : Nat) (hr : r + 2 * n < P.rows) (hc : c + 2 * n < P.cols) :
    ∃ x, create_neighbors obj P ((n : Int) + r) ((n : Int) + c) p (p * p) = some x ∧
      x.size = 4 * (n * n + n) ∧
      ∀ k, x.coeff k =
        if k < 4 then some (P.coeff (r + k % (2 * n + 1)) (c + k / (2 * n + 1)))
        else if k < 4 + 2 * (n * n + n) then
          some (P.coeff (r + (k + 1) % (2 * n + 1)) (c + (k + 1) / (2 * n + 1)))
        else none := by
  have hsq : p * p - 1 = ((4 * (n * n + n) : Nat) : Int) := by
    rw [hp]; push_cast; ring
  have hbig : 2 ≤ n * n + n := by nlinarith
  have hsz : ((2 * n + 1) * (2 * n + 1) : Nat) = 4 * (n * n + n) + 1 := by ring
  unfold create_neighbors
  simp only []
  rw [if_neg (by rw [hsq]; omega), block_window P n p hp r c hr hc, Option.some_bind, hhalf]
  unfold memcpy
  simp only [ArrayXX.dataBuf, hsq, Int.toNat_ofNat, hsz]
  generalize n * n + n = q at *
  rw [if_pos (by push_cast; omega), Option.some_bind, if_pos (by push_cast; omega)]
  refine ⟨_, rfl, rfl, ?_⟩
  intro k
  simp only [ArrayXX.data]
  by_cases hk4 : k < 4
  · have hk : k < 2 * q := by omega
    have hk' : ¬ 4 ≤ k := by omega
    simp [hk4, hk, hk']
  · by_cases hk : k < 4 + 2 * q
    · have e : 5 + (k - 4) = k + 1 := by omega
      have hk' : 4 ≤ k := by omega
      simp [hk4, hk, hk', e]
    · have hk0 : ¬ k < 0 + 2 * q := by omega
      have hk' : 4 ≤ k := by omega
      have hk'' : 2 * q ≤ k := by omega
      simp [hk4, hk, hk', hk0, hk'']

/-! ## The variance mask -/

theorem centre_sub (n i : Nat) : i + n - (2 * n + 1 - 1) / 2 = i := by
  omega

theorem window_variance_nonneg {F : Type} [LinearOrderedField F] (P : ArrayXX F) (n i j : Nat) :
    0 ≤ Spec.window_variance P (2 * n + 1) i j := by
  unfold Spec.window_variance
  apply div_nonneg
  · exact Finset.sum_nonneg fun a _ => Finset.sum_nonneg fun b _ => sq_nonneg _
  · have : (1 : F) ≤ ((2 * n + 1 : Nat) : F) := by exact_mod_cast Nat.le_add_left 1 (2 * n)
    nlinarith

/-- The variance mask, pixel by pixel, for an odd window side `p = 2 n + 1 >= 3`, a
border of width `n` and a padded array of `(rows + 2 n) x (cols + 2 n)`. -/
theorem compute_NVF_mask_eq {F : Type} [LinearOrderedField F] (obj : WatermarkFunctions F)
    (image padded : ArrayXX F) (n : Nat) (hn : 1 ≤ n) (hp : obj.p = 2 * n + 1)
    (hpad : obj.pad = n) (hsq : obj.p_squared = obj.p * obj.p)
    (hr : padded.rows = obj.rows + 2 * n) (hc : padded.cols = obj.cols + 2 * n) :
    ∃ m, compute_NVF_mask obj image padded = some m ∧ m.rows = obj.rows ∧ m.cols = obj.cols ∧
      ∀ i < obj.rows, ∀ j < obj.cols,
        m.coeff i j = 1 - 1 / (1 + Spec.window_variance padded (2 * n + 1) (i + n) (j + n)) := by
  unfold compute_NVF_mask
  simp only []
  rw [Constant_natCast, Option.some_bind]
  apply tabulate_of_forall
  intro i hi j hj
  have hpn : obj.p = ((2 * n + 1 : Nat) : Int) := by rw [hp]; push_cast; ring
  have hblock := block_window padded n obj.p hp i j (by omega) (by omega)
  rw [hpad, hblock]
  rw [hpn, Constant_natCast]
  simp only [Option.some_bind, and_self, if_true, Int.toNat_ofNat]
  have hcard : (((2 * n + 1) * (2 * n + 1) : Nat) : F) ≠ 0 := by positivity
  have hmean : (⟨2 * n + 1, 2 * n + 1, fun a b => padded.coeff (i + a) (j + b)⟩ : ArrayXX F).mean
      = some (Spec.window_mean padded (2 * n + 1) (i + n) (j + n)) := by
    unfold ArrayXX.mean
    rw [fdiv_of_ne _ hcard]
    unfold Spec.window_mean ArrayXX.sum
    simp only [centre_sub]
    rw [Finset.sum_comm]
    congr 2
    push_cast
    ring
  rw [hmean, Option.some_bind]
  have hden : (((obj.p_squared - 1 : Int)) : F) = ((2 * n + 1 : Nat) : F) ^ 2 - 1 := by
    rw [hsq, hp]; push_cast; ring
  have hden0 : ((2 * n + 1 : Nat) : F) ^ 2 - 1 ≠ 0 := by
    have : (1 : F) ≤ (n : F) := by exact_mod_cast hn
    push_cast
    nlinarith
  have hvar : (∑ ii in range (2 * n + 1), ∑ jj in range (2 * n + 1),
      ((⟨2 * n + 1, 2 * n + 1, fun a b => padded.coeff (i + a) (j + b)⟩ : ArrayXX F).data
        (jj * (2 * n + 1) + ii) - Spec.window_mean padded (2 * n + 1) (i + n) (j + n)) ^ 2) /
        (((2 * n + 1 : Nat) : F) ^ 2 - 1) =
        Spec.window_variance padded (2 * n + 1) (i + n) (j + n) := by
    unfold Spec.window_variance
    simp only [centre_sub]
    congr 1
    apply Finset.sum_congr rfl
    intro a ha
    apply Finset.sum_congr rfl
    intro b hb
    have ha' : a < 2 * n + 1 := Finset.mem_range.mp ha
    simp only [ArrayXX.data]
    rw [Nat.mul_add_mod_of_lt ha', Nat.add_div_of_dvd_right (Nat.dvd_mul_left _ _),
      Nat.mul_div_cancel _ (by omega), Nat.div_eq_of_lt ha', Nat.add_zero]
  rw [hden, fdiv_of_ne _ hden0, Option.some_bind, hvar]
  have hv := window_variance_nonneg padded n (i + n) (j + n)
  have h1 : (1 : F) + Spec.window_variance padded (2 * n + 1) (i + n) (j + n) ≠ 0 := by
    positivity
  rw [fdiv_of_ne _ h1, Option.some_bind]

/-! ## The predictor engine -/

theorem memcpy_size {α : Type} {dst src y : VectorX (Option α)} {a b : Nat} {n : Int}
    (h : memcpy dst a src b n = some y) : y.size = dst.size := by
  unfold memcpy at h
  split at h
  · cases h; rfl
  · cases h

theorem create_neighbors_size {F : Type} {obj : WatermarkFunctions F} {P : ArrayXX F}
    {i j p psq : Int} {x : VectorX (Option F)} (h : create_neighbors obj P i j p psq = some x) :
    x.size = (psq - 1).toNat := by
  unfold create_neighbors at h
  simp only [] at h
  split at h
  · cases h
  · obtain ⟨t, -, h⟩ := Option.bind_eq_some.mp h
    obtain ⟨y, hy, h⟩ := Option.bind_eq_some.mp h
    rw [memcpy_size h, memcpy_size hy]

theorem values_size {α : Type} {d : α} {x : VectorX (Option α)} {y : VectorX α}
    (h : x.values d = some y) : y.size = x.size := by
  unfold VectorX.values at h
  split at h
  · cases h; rfl
  · cases h

theorem neighborhood_size {F : Type} [LinearOrderedField F] {obj : WatermarkFunctions F}
    {P : ArrayXX F} {i j : Nat} {x : VectorX F} (h : neighborhood obj P i j = some x) :
    x.size = (obj.p_squared - 1).toNat := by
  unfold neighborhood at h
  obtain ⟨y, hy, h⟩ := Option.bind_eq_some.mp h
  rw [values_size h, create_neighbors_size hy]

/-- The error sequence, pixel by pixel, when every neighbourhood vector is defined. -/
theorem compute_error_sequence_of {F : Type} [LinearOrderedField F]
    (obj : WatermarkFunctions F) (image padded c : ArrayXX F) (X : Nat → Nat → VectorX F)
    (hX : ∀ i < obj.rows, ∀ j < obj.cols, neighborhood obj padded i j = some (X i j))
    (hcols : c.cols = (obj.p_squared - 1).toNat) (hrows : 0 < c.rows)
    (hr : obj.rows ≤ image.rows) (hc : obj.cols ≤ image.cols) :
    ∃ E, compute_error_sequence obj image padded c = some E ∧ E.rows = obj.rows ∧
      E.cols = obj.cols ∧
      ∀ i < obj.rows, ∀ j < obj.cols, E.coeff i j = Spec.residual c image X i j := by
  unfold compute_error_sequence
  rw [Constant_natCast, Option.some_bind]
  apply tabulate_of_forall
  intro i hi j hj
  have hn := hX i hi j hj
  have hsz := neighborhood_size hn
  unfold neighborhood at hn
  obtain ⟨x, hx, hv⟩ := Option.bind_eq_some.mp hn
  rw [hx, Option.some_bind, hv, Option.some_bind]
  have he : image.entry i j = some (image.coeff i j) := by
    unfold ArrayXX.entry
    rw [if_pos ⟨by omega, by omega⟩]
  rw [he, Option.some_bind]
  unfold ArrayXX.mulVec
  rw [if_pos (by rw [hcols, hsz]), Option.some_bind]
  unfold VectorX.entry
  rw [if_pos hrows, Option.some_bind]
  rfl

/-- When some neighbourhood vector has an unwritten cell the error sequence has no value. -/
theorem compute_error_sequence_none {F : Type} [LinearOrderedField F]
    (obj : WatermarkFunctions F) (image padded c : ArrayXX F) (i j : Nat) (hi : i < obj.rows)
    (hj : j < obj.cols) (h : neighborhood obj padded i j = none) :
    compute_error_sequence obj image padded c = none := by
  unfold compute_error_sequence
  rw [Constant_natCast, Option.some_bind]
  apply tabulate_eq_none_of _ _ _ _ i j hi hj
  unfold neighborhood at h
  rw [← Option.bind_assoc, h]
  rfl

/-- The two-phase accumulation of the fit gives the sums over all pixels. -/
theorem fit_threads_of {F : Type} [LinearOrderedField F] (rt : Runtime F)
    (obj : WatermarkFunctions F) (image padded : ArrayXX F) (X : Nat → Nat → VectorX F)
    (hN : 0 ≤ obj.p_squared - 1)
    (hX : ∀ i < obj.rows, ∀ j < obj.cols, neighborhood obj padded i j = some (X i j))
    (hthr : 0 ≤ obj.num_threads)
    (hsched : ∀ r < obj.rows, rt.omp_get_thread_num ((obj.pad : Int) + r) < obj.num_threads.toNat)
    (hr : obj.rows ≤ image.rows) (hc : obj.cols ≤ image.cols) :
    ∃ acc, fit_threads rt obj image padded = some acc ∧
      fit_reduce obj acc.1 acc.2.1 acc.2.2.1 acc.2.2.2 = (Spec.Rx obj X, Spec.rx obj image X) := by
  obtain ⟨N, hN'⟩ : ∃ N : Nat, obj.p_squared - 1 = N := ⟨(obj.p_squared - 1).toNat, by omega⟩
  unfold fit_threads
  have h1 : ArrayXX.Constant (obj.p_squared - 1) 1 (0 : F) = some ⟨N, 1, fun _ _ => 0⟩ := by
    rw [hN']; exact Constant_natCast N 1 0
  rw [h1, hN', Constant_natCast]
  simp only [Option.some_bind]
  rw [if_neg (by omega)]
  obtain ⟨xs, hxs, -, -, hcoeff⟩ := tabulate_of_forall ((⟨0, fun _ => 0⟩ : VectorX F), (0 : F))
    obj.rows obj.cols (fun r c =>
      (create_neighbors obj padded ((obj.pad : Int) + r) ((obj.pad : Int) + c) obj.p
        obj.p_squared).bind fun x_ =>
      (x_.values 0).bind fun x_ =>
      (image.entry r c).bind fun v =>
      if rt.omp_get_thread_num ((obj.pad : Int) + r) < obj.num_threads.toNat ∧
          x_.size = N then some (x_, v)
      else none) (fun r c => (X r c, image.coeff r c)) (by
        intro i hi j hj
        have hn := hX i hi j hj
        have hsz := neighborhood_size hn
        unfold neighborhood at hn
        obtain ⟨x, hx, hv⟩ := Option.bind_eq_some.mp hn
        beta_reduce
        rw [add_comm (obj.pad : Int) i, add_comm (obj.pad : Int) j]
        rw [hx, Option.some_bind, hv, Option.some_bind]
        have he : image.entry i j = some (image.coeff i j) := by
          unfold ArrayXX.entry
          rw [if_pos ⟨by omega, by omega⟩]
        rw [he, Option.some_bind, if_pos]
        refine ⟨?_, ?_⟩
        · have := hsched i hi
          rwa [add_comm] at this
        · rw [hsz, hN', Int.toNat_ofNat])
  rw [hxs]
  simp only [Option.some_bind]
  refine ⟨_, rfl, ?_⟩
  unfold fit_reduce Spec.Rx Spec.rx
  simp only [hN', Int.toNat_ofNat, zero_add]
  have hmaps : ∀ r ∈ range obj.rows,
      rt.omp_get_thread_num ((obj.pad : Int) + r) ∈ range obj.num_threads.toNat := by
    intro r hr'
    exact Finset.mem_range.mpr (hsched r (Finset.mem_range.mp hr'))
  congr 1
  · congr 1
    funext a b
    rw [Finset.sum_fiberwise_of_maps_to hmaps]
    apply Finset.sum_congr rfl
    intro r hr'
    apply Finset.sum_congr rfl
    intro c hc'
    rw [hcoeff r (Finset.mem_range.mp hr') c (Finset.mem_range.mp hc')]
  · congr 1
    funext a b
    rw [Finset.sum_fiberwise_of_maps_to hmaps]
    apply Finset.sum_congr rfl
    intro r hr'
    apply Finset.sum_congr rfl
    intro c hc'
    rw [hcoeff r (Finset.mem_range.mp hr') c (Finset.mem_range.mp hc')]

/-! ## Maxima, sums of squares and the correlation -/

/-- The prediction-error engine in terms of the fit over all pixels. -/
theorem compute_prediction_error_mask_of {F : Type} [LinearOrderedField F] (rt : Runtime F)
    (obj : WatermarkFunctions F) (image padded : ArrayXX F) (X : Nat → Nat → VectorX F)
    (hN : 0 ≤ obj.p_squared - 1)
    (hX : ∀ i < obj.rows, ∀ j < obj.cols, neighborhood obj padded i j = some (X i j))
    (hthr : 0 ≤ obj.num_threads)
    (hsched : ∀ r < obj.rows, rt.omp_get_thread_num ((obj.pad : Int) + r) < obj.num_threads.toNat)
    (hr : obj.rows ≤ image.rows) (hc : obj.cols ≤ image.cols) (mask_needed : Bool) :
    compute_prediction_error_mask rt obj image padded mask_needed =
      (compute_error_sequence obj image padded (Spec.fit rt obj image X)).bind fun e =>
        if mask_needed then
          (abs_over_max e).bind fun m_e => some (m_e, e, Spec.fit rt obj image X)
        else some (⟨obj.rows, obj.cols, fun _ _ => 0⟩, e, Spec.fit rt obj image X) := by
  obtain ⟨acc, hacc, hred⟩ := fit_threads_of rt obj image padded X hN hX hthr hsched hr hc
  unfold compute_prediction_error_mask
  rw [Constant_natCast, hacc]
  simp only [Option.some_bind, hred]
  rfl

theorem le_maxUpTo {F : Type} [LinearOrder F] (f : Nat → F) (n k : Nat) (h : k ≤ n) :
    f k ≤ maxUpTo f n := by
  induction n with
  | zero =>
    have : k = 0 := by omega
    subst this
    exact le_refl _
  | succ n ih =>
    unfold maxUpTo
    rcases Nat.lt_or_ge k (n + 1) with hk | hk
    · exact le_trans (ih (by omega)) (le_max_left _ _)
    · have : k = n + 1 := by omega
      subst this
      exact le_max_right _ _

theorem maxUpTo_attained {F : Type} [LinearOrder F] (f : Nat → F) (n : Nat) :
    ∃ k, k ≤ n ∧ maxUpTo f n = f k := by
  induction n with
  | zero => exact ⟨0, le_refl _, rfl⟩
  | succ n ih =>
    obtain ⟨k, hk, hmax⟩ := ih
    unfold maxUpTo
    rcases max_choice (maxUpTo f n) (f (n + 1)) with h | h
    · exact ⟨k, by omega, by rw [h, hmax]⟩
    · exact ⟨n + 1, le_refl _, h⟩

/-- The largest coefficient bounds every coefficient and is one of them. -/
theorem maxCoeff_spec {F : Type} [LinearOrder F] (A : ArrayXX F) (mx : F)
    (h : A.maxCoeff = some mx) :
    (∀ i < A.rows, ∀ j < A.cols, A.coeff i j ≤ mx) ∧
      ∃ i < A.rows, ∃ j < A.cols, mx = A.coeff i j := by
  unfold ArrayXX.maxCoeff at h
  split at h
  · cases h
  · rename_i hne
    cases h
    have hpos : 0 < A.rows * A.cols := Nat.pos_of_ne_zero hne
    have hrows : 0 < A.rows := Nat.pos_of_mul_pos_right hpos
    constructor
    · intro i hi j hj
      have hk : j * A.rows + i ≤ A.rows * A.cols - 1 := by
        have : j * A.rows + i < A.rows * A.cols := by
          calc j * A.rows + i < j * A.rows + A.rows := by omega
            _ = (j + 1) * A.rows := by ring
            _ ≤ A.cols * A.rows := Nat.mul_le_mul_right _ hj
            _ = A.rows * A.cols := Nat.mul_comm _ _
        omega
      have := le_maxUpTo A.data _ _ hk
      unfold ArrayXX.data at this
      rwa [Nat.mul_add_mod_of_lt hi, Nat.add_div_of_dvd_right (Nat.dvd_mul_left _ _),
        Nat.mul_div_cancel _ hrows, Nat.div_eq_of_lt hi, Nat.add_zero] at this
    · obtain ⟨k, hk, hmax⟩ := maxUpTo_attained A.data (A.rows * A.cols - 1)
      refine ⟨k % A.rows, Nat.mod_lt _ hrows, k / A.rows, ?_, hmax⟩
      apply Nat.div_lt_of_lt_mul
      omega

theorem maxCoeff_isSome {F : Type} [LinearOrder F] (A : ArrayXX F) (hr : 0 < A.rows)
    (hc : 0 < A.cols) : ∃ mx, A.maxCoeff = some mx := by
  unfold ArrayXX.maxCoeff
  rw [if_neg (Nat.mul_ne_zero (by omega) (by omega))]
  exact ⟨_, rfl⟩

/-- The sum of an array as a sum over the pairs of indices. -/
theorem sum_eq_sum_product {F : Type} [AddCommMonoid F] (A : ArrayXX F) :
    A.sum = ∑ x in range A.cols ×ˢ range A.rows, A.coeff x.2 x.1 := by
  unfold ArrayXX.sum
  rw [Finset.sum_product]

/-- The sum of the squares of an array is zero exactly when all its entries are zero. -/
theorem sum_sq_eq_zero_iff {F : Type} [LinearOrderedField F] (A : ArrayXX F) :
    (A.map fun x => x ^ 2).sum = 0 ↔ ∀ i < A.rows, ∀ j < A.cols, A.coeff i j = 0 := by
  unfold ArrayXX.sum ArrayXX.map
  simp only []
  rw [Finset.sum_eq_zero_iff_of_nonneg
    (fun j _ => Finset.sum_nonneg fun i _ => sq_nonneg (A.coeff i j))]
  constructor
  · intro h i hi j hj
    have := (Finset.sum_eq_zero_iff_of_nonneg (fun i _ => sq_nonneg (A.coeff i j))).mp
      (h j (Finset.mem_range.mpr hj)) i (Finset.mem_range.mpr hi)
    exact pow_eq_zero_iff (by norm_num) |>.mp this
  · intro h j hj
    apply Finset.sum_eq_zero
    intro i hi
    rw [h i (Finset.mem_range.mp hi) j (Finset.mem_range.mp hj)]
    ring

theorem sum_sq_nonneg {F : Type} [LinearOrderedField F] (A : ArrayXX F) :
    0 ≤ (A.map fun x => x ^ 2).sum := by
  unfold ArrayXX.sum ArrayXX.map
  exact Finset.sum_nonneg fun j _ => Finset.sum_nonneg fun i _ => sq_nonneg _

/-- Cauchy-Schwarz for the three reductions of the detector. -/
theorem dot_sq_le {F : Type} [LinearOrderedField F] (A B : ArrayXX F) (hr : A.rows = B.rows)
    (hc : A.cols = B.cols) :
    (∑ j in range A.cols, ∑ i in range A.rows, A.coeff i j * B.coeff i j) ^ 2 ≤
      (A.map fun x => x ^ 2).sum * (B.map fun x => x ^ 2).sum := by
  have key := Finset.sum_mul_sq_le_sq_mul_sq (range A.cols ×ˢ range A.rows)
    (fun x => A.coeff x.2 x.1) (fun x => B.coeff x.2 x.1)
  rw [Finset.sum_product, Finset.sum_product, Finset.sum_product] at key
  unfold ArrayXX.sum ArrayXX.map
  simp only [← hr, ← hc]
  exact key

/-- The quotient of the detector: it has a value exactly when neither norm is zero, and
the value lies between -1 and 1. -/
theorem correlation_spec {F : Type} [LinearOrderedField F] (rt : Runtime F)
    (hsqrt : ∀ x : F, 0 ≤ x → 0 ≤ rt.sqrt x ∧ rt.sqrt x * rt.sqrt x = x)
    (e_z e_u : ArrayXX F) (hr : e_z.rows = e_u.rows) (hc : e_z.cols = e_u.cols) :
    ((∃ i < e_z.rows, ∃ j < e_z.cols, e_z.coeff i j ≠ 0) →
      (∃ i < e_u.rows, ∃ j < e_u.cols, e_u.coeff i j ≠ 0) →
        ∃ s, correlation rt e_z e_u = some s ∧ -1 ≤ s ∧ s ≤ 1) ∧
    (((∀ i < e_z.rows, ∀ j < e_z.cols, e_z.coeff i j = 0) ∨
      (∀ i < e_u.rows, ∀ j < e_u.cols, e_u.coeff i j = 0)) →
        correlation rt e_z e_u = none) := by
  have hzip : e_z.zipWith (fun a b => a * b) e_u =
      some ⟨e_z.rows, e_z.cols, fun i j => e_z.coeff i j * e_u.coeff i j⟩ := by
    unfold ArrayXX.zipWith
    rw [if_pos ⟨hr, hc⟩]
  obtain ⟨hz0, hzz⟩ := hsqrt _ (sum_sq_nonneg e_z)
  obtain ⟨hu0, huu⟩ := hsqrt _ (sum_sq_nonneg e_u)
  constructor
  · intro hz hu
    have hz' : (e_z.map fun x => x ^ 2).sum ≠ 0 := by
      intro h
      obtain ⟨i, hi, j, hj, hne⟩ := hz
      exact hne ((sum_sq_eq_zero_iff e_z).mp h i hi j hj)
    have hu' : (e_u.map fun x => x ^ 2).sum ≠ 0 := by
      intro h
      obtain ⟨i, hi, j, hj, hne⟩ := hu
      exact hne ((sum_sq_eq_zero_iff e_u).mp h i hi j hj)
    have hsz : rt.sqrt (e_z.map fun x => x ^ 2).sum ≠ 0 := by
      intro h; rw [h] at hzz; exact hz' (by rw [← hzz]; ring)
    have hsu : rt.sqrt (e_u.map fun x => x ^ 2).sum ≠ 0 := by
      intro h; rw [h] at huu; exact hu' (by rw [← huu]; ring)
    have hpos : 0 < rt.sqrt (e_z.map fun x => x ^ 2).sum * rt.sqrt (e_u.map fun x => x ^ 2).sum :=
      mul_pos (lt_of_le_of_ne hz0 (Ne.symm hsz)) (lt_of_le_of_ne hu0 (Ne.symm hsu))
    unfold correlation
    rw [hzip, Option.some_bind]
    simp only []
    rw [fdiv_of_ne _ (ne_of_gt hpos)]
    refine ⟨_, rfl, ?_⟩
    have hcs := dot_sq_le e_z e_u hr hc
    have hsq : (∑ j in range e_z.cols, ∑ i in range e_z.rows, e_z.coeff i j * e_u.coeff i j) ^ 2 ≤
        (rt.sqrt (e_z.map fun x => x ^ 2).sum * rt.sqrt (e_u.map fun x => x ^ 2).sum) ^ 2 := by
      calc _ ≤ (e_z.map fun x => x ^ 2).sum * (e_u.map fun x => x ^ 2).sum := hcs
        _ = _ := by rw [mul_pow, sq, sq, hzz, huu]
    have habs := abs_le_of_sq_le_sq' hsq (le_of_lt hpos)
    have hdot : (⟨e_z.rows, e_z.cols, fun i j => e_z.coeff i j * e_u.coeff i j⟩ : ArrayXX F).sum =
        ∑ j in range e_z.cols, ∑ i in range e_z.rows, e_z.coeff i j * e_u.coeff i j := rfl
    rw [hdot]
    constructor
    · rw [le_div_iff₀ hpos]
      linarith [habs.1]
    · rw [div_le_one hpos]
      exact habs.2
  · intro h
    have hzero : rt.sqrt (e_z.map fun x => x ^ 2).sum * rt.sqrt (e_u.map fun x => x ^ 2).sum = 0 := by
      rcases h with h | h
      · have h0 := (sum_sq_eq_zero_iff e_z).mpr h
        rw [h0] at hzz ⊢
        have : rt.sqrt 0 = 0 := mul_self_eq_zero.mp hzz
        rw [this, zero_mul]
      · have h0 := (sum_sq_eq_zero_iff e_u).mpr h
        rw [h0] at huu ⊢
        have : rt.sqrt 0 = 0 := mul_self_eq_zero.mp huu
        rw [this, mul_zero]
    unfold correlation
    rw [hzip, Option.some_bind]
    simp only []
    rw [hzero, fdiv_zero_right]

/-! ## The embedder -/

theorem zipWith_eq_some {α β γ : Type} {f : α → β → γ} {A : ArrayXX α} {B : ArrayXX β}
    {C : ArrayXX γ} (h : A.zipWith f B = some C) :
    A.rows = B.rows ∧ A.cols = B.cols ∧
      C = ⟨A.rows, A.cols, fun i j => f (A.coeff i j) (B.coeff i j)⟩ := by
  unfold ArrayXX.zipWith at h
  split at h
  · rename_i hd
    cases h
    exact ⟨hd.1, hd.2, rfl⟩
  · cases h

/-- The pattern `u = m * w` has the dimensions of the reference pattern. -/
theorem watermark_pattern_dims {F : Type} [LinearOrderedField F] {rt : Runtime F}
    {obj : WatermarkFunctions F} {b : Bool} {u : ArrayXX F}
    (h : watermark_pattern rt obj b = some u) : u.rows = obj.w.rows ∧ u.cols = obj.w.cols := by
  unfold watermark_pattern at h
  obtain ⟨P, -, h⟩ := Option.bind_eq_some.mp h
  obtain ⟨m, -, h⟩ := Option.bind_eq_some.mp h
  obtain ⟨hr, hc, hu⟩ := zipWith_eq_some h
  subst hu
  exact ⟨hr, hc⟩

/-- The embedder on a pattern that is not identically zero: the result is
`image + a * u` for a scale `a` whose square times the energy of `u` is the target
energy. -/
theorem make_and_add_watermark_of {F : Type} [LinearOrderedField F] (rt : Runtime F)
    (hsqrt : ∀ x : F, 0 ≤ x → 0 ≤ rt.sqrt x ∧ rt.sqrt x * rt.sqrt x = x)
    (obj : WatermarkFunctions F) (hinit : obj.Initialised)
    (hpow : 0 < rt.pow 10 (obj.psnr / 10)) (b : Bool) (u : ArrayXX F)
    (hu : watermark_pattern rt obj b = some u)
    (hnz : ∃ i < obj.rows, ∃ j < obj.cols, u.coeff i j ≠ 0) :
    ∃ a : F, 0 < a ∧
      a ^ 2 * (u.map fun x => x ^ 2).sum =
        255 ^ 2 * ((obj.rows * obj.cols : Nat) : F) / rt.pow 10 (obj.psnr / 10) ∧
      make_and_add_watermark rt obj b =
        some ⟨obj.image.rows, obj.image.cols, fun i j => obj.image.coeff i j + a * u.coeff i j⟩ := by
  obtain ⟨hur, huc⟩ := watermark_pattern_dims hu
  rw [hinit.w_rows] at hur
  rw [hinit.w_cols] at huc
  obtain ⟨i, hi, j, hj, hne⟩ := hnz
  have hS0 : (u.map fun x => x ^ 2).sum ≠ 0 := by
    intro h
    exact hne ((sum_sq_eq_zero_iff u).mp h i (by omega) j (by omega))
  have hSpos : 0 < (u.map fun x => x ^ 2).sum := lt_of_le_of_ne (sum_sq_nonneg u) (Ne.symm hS0)
  have hNpos : (0 : F) < ((obj.rows * obj.cols : Nat) : F) := by
    have : 0 < obj.rows * obj.cols := Nat.mul_pos (by omega) (by omega)
    exact_mod_cast this
  have hq : 0 < (u.map fun x => x ^ 2).sum / ((obj.rows * obj.cols : Nat) : F) :=
    div_pos hSpos hNpos
  obtain ⟨hd0, hdd⟩ := hsqrt _ (le_of_lt hq)
  obtain ⟨hp0, hpp⟩ := hsqrt _ (le_of_lt hpow)
  have hdne : rt.sqrt ((u.map fun x => x ^ 2).sum / ((obj.rows * obj.cols : Nat) : F)) ≠ 0 := by
    intro h
    rw [h] at hdd
    rw [← hdd] at hq
    simp at hq
  have hpne : rt.sqrt (rt.pow 10 (obj.psnr / 10)) ≠ 0 := by
    intro h
    rw [h] at hpp
    rw [← hpp] at hpow
    simp at hpow
  refine ⟨255 / rt.sqrt (rt.pow 10 (obj.psnr / 10)) /
    rt.sqrt ((u.map fun x => x ^ 2).sum / ((obj.rows * obj.cols : Nat) : F)), ?_, ?_, ?_⟩
  · exact div_pos (div_pos (by norm_num) (lt_of_le_of_ne hp0 (Ne.symm hpne)))
      (lt_of_le_of_ne hd0 (Ne.symm hdne))
  · rw [div_pow, div_pow, sq (rt.sqrt (rt.pow 10 (obj.psnr / 10))), hpp,
      sq (rt.sqrt ((u.map fun x => x ^ 2).sum / ((obj.rows * obj.cols : Nat) : F))), hdd]
    field_simp
    ring
  · unfold make_and_add_watermark
    rw [hu, Option.some_bind, fdiv_of_ne _ (ne_of_gt hNpos), Option.some_bind]
    simp only []
    rw [fdiv_of_ne _ hpne, Option.some_bind, fdiv_of_ne _ hdne, Option.some_bind]
    unfold ArrayXX.zipWith ArrayXX.map
    rw [if_pos]
    simp only []
    rw [← hinit.rows_eq, ← hinit.cols_eq]
    exact ⟨hur.symm, huc.symm⟩

/-- The embedder on a pattern that is identically zero: the divisor is zero. -/
theorem make_and_add_watermark_zero {F : Type} [LinearOrderedField F] (rt : Runtime F)
    (hsqrt : ∀ x : F, 0 ≤ x → 0 ≤ rt.sqrt x ∧ rt.sqrt x * rt.sqrt x = x)
    (obj : WatermarkFunctions F) (b : Bool) (u : ArrayXX F)
    (hu : watermark_pattern rt obj b = some u)
    (hz : ∀ i < u.rows, ∀ j < u.cols, u.coeff i j = 0) :
    make_and_add_watermark rt obj b = none := by
  have hS0 : (u.map fun x => x ^ 2).sum = 0 := (sum_sq_eq_zero_iff u).mpr hz
  have hs0 : rt.sqrt 0 = 0 := mul_self_eq_zero.mp (hsqrt 0 (le_refl _)).2
  unfold make_and_add_watermark
  rw [hu, Option.some_bind, hS0]
  unfold fdiv
  by_cases hN : ((obj.rows * obj.cols : Nat) : F) = 0
  · rw [if_pos hN]; rfl
  · rw [if_neg hN, Option.some_bind]
    simp only [zero_div, hs0]
    by_cases hp : rt.sqrt (rt.pow 10 (obj.psnr / 10)) = 0
    · rw [if_pos hp]; rfl
    · rw [if_neg hp, Option.some_bind]
      simp

/-! ## The variance model on the zero-padded image -/

/-- The padded copy built by the embedder and the detector is the zero-padded image. -/
theorem padded_of_zero_padded {F : Type} [LinearOrderedField F] (obj : WatermarkFunctions F)
    (image : ArrayXX F) (n : Nat) (hpad : obj.pad = n)
    (hr : image.rows = obj.rows) (hc : image.cols = obj.cols)
    (hpr : obj.padded_rows = obj.rows + 2 * obj.pad)
    (hpc : obj.padded_cols = obj.cols + 2 * obj.pad) :
    padded_of obj image = some (Spec.zero_padded n image) := by
  rw [padded_of_eq obj image n hpad hr hc hpr hpc]
  unfold Spec.zero_padded
  rw [hr, hc]

/-- A window all of whose cells hold the same value has variance zero. -/
theorem window_variance_const {F : Type} [LinearOrderedField F] (P : ArrayXX F)
    (p ci cj : Nat) (hp : 0 < p) (c : F)
    (h : ∀ a < p, ∀ b < p, P.coeff (ci - (p - 1) / 2 + a) (cj - (p - 1) / 2 + b) = c) :
    Spec.window_variance P p ci cj = 0 := by
  have hmean : Spec.window_mean P p ci cj = c := by
    unfold Spec.window_mean
    have : (∑ a in range p, ∑ b in range p,
        P.coeff (ci - (p - 1) / 2 + a) (cj - (p - 1) / 2 + b)) = (p : F) ^ 2 * c := by
      rw [Finset.sum_congr rfl fun a ha => Finset.sum_congr rfl fun b hb =>
        h a (Finset.mem_range.mp ha) b (Finset.mem_range.mp hb)]
      simp only [Finset.sum_const, Finset.card_range, nsmul_eq_mul]
      ring
    rw [this]
    have hp' : (p : F) ≠ 0 := by exact_mod_cast (Nat.pos_iff_ne_zero.mp hp)
    field_simp
  unfold Spec.window_variance
  rw [hmean]
  have : (∑ a in range p, ∑ b in range p,
      (P.coeff (ci - (p - 1) / 2 + a) (cj - (p - 1) / 2 + b) - c) ^ 2) = 0 := by
    apply Finset.sum_eq_zero
    intro a ha
    apply Finset.sum_eq_zero
    intro b hb
    rw [h a (Finset.mem_range.mp ha) b (Finset.mem_range.mp hb)]
    ring
  rw [this, zero_div]

/-- The variance mask of the image of the object on its zero-padded copy, pixel by
pixel. -/
theorem compute_NVF_mask_zero_padded {F : Type} [LinearOrderedField F]
    (obj : WatermarkFunctions F) (hinit : obj.Initialised) (n : Nat) (hn : 1 ≤ n)
    (hp : obj.p = 2 * n + 1) (hpad : obj.pad = n) :
    ∃ m, padded_of obj obj.image = some (Spec.zero_padded n obj.image) ∧
      compute_NVF_mask obj obj.image (Spec.zero_padded n obj.image) = some m ∧
      m.rows = obj.rows ∧ m.cols = obj.cols ∧
      ∀ i < obj.rows, ∀ j < obj.cols, m.coeff i j =
        1 - 1 / (1 + Spec.window_variance (Spec.zero_padded n obj.image) (2 * n + 1)
          (i + n) (j + n)) := by
  have hP := padded_of_zero_padded obj obj.image n hpad hinit.rows_eq.symm hinit.cols_eq.symm
    hinit.padded_rows_eq hinit.padded_cols_eq
  obtain ⟨m, hm, hmr, hmc, hmcoeff⟩ := compute_NVF_mask_eq obj obj.image
    (Spec.zero_padded n obj.image) n hn hp hpad hinit.p_squared_eq
    (by unfold Spec.zero_padded; rw [hinit.rows_eq])
    (by unfold Spec.zero_padded; rw [hinit.cols_eq])
  exact ⟨m, hP, hm, hmr, hmc, hmcoeff⟩

/-- The pattern of the variance model, pixel by pixel. -/
theorem watermark_pattern_NVF {F : Type} [LinearOrderedField F] (rt : Runtime F)
    (obj : WatermarkFunctions F) (hinit : obj.Initialised) (n : Nat) (hn : 1 ≤ n)
    (hp : obj.p = 2 * n + 1) (hpad : obj.pad = n) :
    ∃ m u, padded_of obj obj.image = some (Spec.zero_padded n obj.image) ∧
      compute_NVF_mask obj obj.image (Spec.zero_padded n obj.image) = some m ∧
      watermark_pattern rt obj true = some u ∧ u.rows = obj.rows ∧ u.cols = obj.cols ∧
      (∀ i < obj.rows, ∀ j < obj.cols, m.coeff i j =
        1 - 1 / (1 + Spec.window_variance (Spec.zero_padded n obj.image) (2 * n + 1)
          (i + n) (j + n))) ∧
      ∀ i j, u.coeff i j = m.coeff i j * obj.w.coeff i j := by
  obtain ⟨m, hP, hm, hmr, hmc, hmcoeff⟩ := compute_NVF_mask_zero_padded obj hinit n hn hp hpad
  refine ⟨m, ⟨m.rows, m.cols, fun i j => m.coeff i j * obj.w.coeff i j⟩, hP, hm, ?_, hmr, hmc,
    hmcoeff, fun _ _ => rfl⟩
  unfold watermark_pattern
  rw [hP, Option.some_bind]
  simp only [if_true]
  rw [hm, Option.some_bind]
  unfold ArrayXX.zipWith
  rw [if_pos ⟨by rw [hmr, hinit.w_rows], by rw [hmc, hinit.w_cols]⟩]

/-- Cells of the zero-padded copy of a flat image that lie inside the image. -/
theorem zero_padded_flat_interior {F : Type} [LinearOrderedField F] (image : ArrayXX F)
    (n : Nat) (c : F) (hflat : ∀ i < image.rows, ∀ j < image.cols, image.coeff i j = c)
    (i j : Nat) (hi : n ≤ i) (hi' : i + n < image.rows) (hj : n ≤ j) (hj' : j + n < image.cols)
    (a b : Nat) (ha : a < 2 * n + 1) (hb : b < 2 * n + 1) :
    (Spec.zero_padded n image).coeff (i + n - (2 * n + 1 - 1) / 2 + a)
      (j + n - (2 * n + 1 - 1) / 2 + b) = c := by
  rw [centre_sub, centre_sub]
  unfold Spec.zero_padded
  simp only []
  rw [if_pos ⟨by omega, by omega, by omega, by omega⟩]
  exact hflat _ (by omega) _ (by omega)

/-- The zero-padded copy of an image that is zero is zero. -/
theorem zero_padded_zero {F : Type} [LinearOrderedField F] (image : ArrayXX F)
    (n : Nat) (hflat : ∀ i < image.rows, ∀ j < image.cols, image.coeff i j = 0) (x y : Nat) :
    (Spec.zero_padded n image).coeff x y = 0 := by
  unfold Spec.zero_padded
  simp only []
  split
  · rename_i h
    exact hflat _ (by omega) _ (by omega)
  · rfl

/-! ## Images of zeros and the prediction-error mask -/

/-- Every cell of the vector `create_neighbors` returns is unwritten or a cell of the
padded array. -/
theorem create_neighbors_cells {F : Type} {obj : WatermarkFunctions F} {P : ArrayXX F}
    {i j p psq : Int} {x : VectorX (Option F)} (h : create_neighbors obj P i j p psq = some x)
    (k : Nat) : x.coeff k = none ∨ ∃ a b, x.coeff k = some (P.coeff a b) := by
  unfold create_neighbors at h
  simp only [] at h
  split at h
  · cases h
  · obtain ⟨t, ht, h⟩ := Option.bind_eq_some.mp h
    obtain ⟨y, hy, h⟩ := Option.bind_eq_some.mp h
    unfold ArrayXX.block at ht
    split at ht
    · cases ht
      unfold memcpy at hy h
      split at hy
      · cases hy
        split at h
        · cases h
          simp only [ArrayXX.dataBuf, ArrayXX.data]
          split
          · exact Or.inr ⟨_, _, rfl⟩
          · split
            · exact Or.inr ⟨_, _, rfl⟩
            · exact Or.inl rfl
        · cases h
      · cases hy
    · cases ht

/-- The neighbourhood vectors of an array of zeros are zero. -/
theorem neighborhood_zero {F : Type} [LinearOrderedField F] {obj : WatermarkFunctions F}
    {P : ArrayXX F} {i j : Nat} {x : VectorX F} (h : neighborhood obj P i j = some x)
    (hP : ∀ a b, P.coeff a b = 0) (k : Nat) : x.coeff k = 0 := by
  unfold neighborhood at h
  obtain ⟨y, hy, h⟩ := Option.bind_eq_some.mp h
  unfold VectorX.values at h
  split at h
  · cases h
    show (y.coeff k).getD 0 = 0
    rcases create_neighbors_cells hy k with hk | ⟨a, b, hk⟩
    · rw [hk]; rfl
    · rw [hk, hP]; rfl
  · cases h

theorem compute_error_sequence_eq_some {F : Type} [LinearOrderedField F]
    {obj : WatermarkFunctions F} {image padded c E : ArrayXX F}
    (h : compute_error_sequence obj image padded c = some E) :
    E.rows = obj.rows ∧ E.cols = obj.cols ∧
      ∀ i < obj.rows, ∀ j < obj.cols, ∃ x, neighborhood obj padded i j = some x ∧
        i < image.rows ∧ j < image.cols ∧ c.cols = x.size ∧ 0 < c.rows ∧
        E.coeff i j = image.coeff i j - ∑ k in range c.cols, c.coeff 0 k * x.coeff k := by
  unfold compute_error_sequence at h
  rw [Constant_natCast, Option.some_bind] at h
  obtain ⟨hr, hc, hcoeff⟩ := tabulate_eq_some h
  refine ⟨hr, hc, ?_⟩
  intro i hi j hj
  have := hcoeff i hi j hj
  obtain ⟨y, hy, this⟩ := Option.bind_eq_some.mp this
  obtain ⟨x, hx, this⟩ := Option.bind_eq_some.mp this
  obtain ⟨v, hv, this⟩ := Option.bind_eq_some.mp this
  obtain ⟨cx, hcx, this⟩ := Option.bind_eq_some.mp this
  obtain ⟨y0, hy0, this⟩ := Option.bind_eq_some.mp this
  refine ⟨x, ?_, ?_⟩
  · unfold neighborhood
    rw [hy, Option.some_bind, hx]
  · unfold ArrayXX.entry at hv
    split at hv
    · rename_i hin
      cases hv
      unfold ArrayXX.mulVec at hcx
      split at hcx
      · rename_i hsz
        cases hcx
        unfold VectorX.entry at hy0
        split at hy0
        · rename_i hpos
          cases hy0
          exact ⟨hin.1, hin.2, hsz, hpos, (Option.some.inj this).symm⟩
        · cases hy0
      · cases hcx
    · cases hv

/-- The error sequence of an image of zeros over a padded array of zeros is zero. -/
theorem compute_error_sequence_zero {F : Type} [LinearOrderedField F]
    {obj : WatermarkFunctions F} {image padded c E : ArrayXX F}
    (h : compute_error_sequence obj image padded c = some E)
    (himage : ∀ i < obj.rows, ∀ j < obj.cols, image.coeff i j = 0)
    (hP : ∀ a b, padded.coeff a b = 0) :
    ∀ i < obj.rows, ∀ j < obj.cols, E.coeff i j = 0 := by
  obtain ⟨-, -, hcoeff⟩ := compute_error_sequence_eq_some h
  intro i hi j hj
  obtain ⟨x, hx, -, -, -, -, hE⟩ := hcoeff i hi j hj
  rw [hE, himage i hi j hj]
  have : ∑ k in range c.cols, c.coeff 0 k * x.coeff k = 0 := by
    apply Finset.sum_eq_zero
    intro k _
    rw [neighborhood_zero hx hP k, mul_zero]
  rw [this, sub_zero]

/-- The run with `mask_needed` in terms of the run without. -/
theorem compute_prediction_error_mask_true {F : Type} [LinearOrderedField F] (rt : Runtime F)
    (obj : WatermarkFunctions F) (image padded : ArrayXX F) :
    compute_prediction_error_mask rt obj image padded true =
      (compute_prediction_error_mask rt obj image padded false).bind fun r =>
        (abs_over_max r.2.1).bind fun m_e => some (m_e, r.2.1, r.2.2) := by
  unfold compute_prediction_error_mask
  rw [Constant_natCast]
  simp only [Option.some_bind, if_true, Bool.false_eq_true, if_false]
  cases fit_threads rt obj image padded with
  | none => rfl
  | some acc =>
    simp only [Option.some_bind]
    cases compute_error_sequence obj image padded _ with
    | none => rfl
    | some e => rfl

/-- The error sequence returned by the prediction-error engine has the dimensions of
the image. -/
theorem compute_prediction_error_mask_false {F : Type} [LinearOrderedField F] {rt : Runtime F}
    {obj : WatermarkFunctions F} {image padded : ArrayXX F}
    {r : ArrayXX F × ArrayXX F × ArrayXX F}
    (h : compute_prediction_error_mask rt obj image padded false = some r) :
    compute_error_sequence obj image padded r.2.2 = some r.2.1 := by
  unfold compute_prediction_error_mask at h
  rw [Constant_natCast] at h
  simp only [Option.some_bind, Bool.false_eq_true, if_false] at h
  obtain ⟨acc, -, h⟩ := Option.bind_eq_some.mp h
  obtain ⟨e, he, h⟩ := Option.bind_eq_some.mp h
  cases h
  exact he

/-- The quotient of the absolute error sequence by its maximum: defined with values
between 0 and 1 when some entry is not zero, undefined when all entries are zero. -/
theorem abs_over_max_spec {F : Type} [LinearOrderedField F] (e : ArrayXX F) :
    ((∃ i < e.rows, ∃ j < e.cols, e.coeff i j ≠ 0) →
      ∃ m mx, abs_over_max e = some m ∧ m.rows = e.rows ∧ m.cols = e.cols ∧ 0 < mx ∧
        (∀ i < e.rows, ∀ j < e.cols, |e.coeff i j| ≤ mx) ∧
        (∃ i < e.rows, ∃ j < e.cols, mx = |e.coeff i j|) ∧
        (∀ i j, m.coeff i j = |e.coeff i j| / mx) ∧
        ∀ i < e.rows, ∀ j < e.cols, 0 ≤ m.coeff i j ∧ m.coeff i j ≤ 1) ∧
    ((∀ i < e.rows, ∀ j < e.cols, e.coeff i j = 0) → abs_over_max e = none) := by
  constructor
  · rintro ⟨i, hi, j, hj, hne⟩
    obtain ⟨mx, hmx⟩ := maxCoeff_isSome (e.map fun x => |x|) (by show 0 < e.rows; omega)
      (by show 0 < e.cols; omega)
    obtain ⟨hle, hatt⟩ := maxCoeff_spec _ _ hmx
    have hpos : 0 < mx := lt_of_lt_of_le (abs_pos.mpr hne) (hle i hi j hj)
    refine ⟨(e.map fun x => |x|).map fun x => x / mx, mx, ?_, rfl, rfl, hpos, hle, hatt,
      fun _ _ => rfl, ?_⟩
    · unfold abs_over_max
      simp only []
      rw [hmx, Option.some_bind, if_neg (ne_of_gt hpos)]
    · intro i' hi' j' hj'
      show 0 ≤ |e.coeff i' j'| / mx ∧ |e.coeff i' j'| / mx ≤ 1
      exact ⟨div_nonneg (abs_nonneg _) (le_of_lt hpos),
        (div_le_one hpos).mpr (hle i' hi' j' hj')⟩
  · intro hz
    unfold abs_over_max
    simp only []
    cases hmx : (e.map fun x => |x|).maxCoeff with
    | none => rfl
    | some mx =>
      obtain ⟨-, i, hi, j, hj, hatt⟩ := maxCoeff_spec _ _ hmx
      have : mx = 0 := by
        rw [hatt]
        show |e.coeff i j| = 0
        rw [hz i hi j hj, abs_zero]
      rw [Option.some_bind, if_pos this]

/-! ## The structure of the detector -/

/-- For `p = 3` every cell of the vector is written: the neighbourhood vector is the
closed form `neighborhood_three`. -/
theorem neighborhood_eq_three {F : Type} [LinearOrderedField F] (obj : WatermarkFunctions F)
    (hp : obj.p = 3) (hpad : obj.pad = 1) (hsq : obj.p_squared = 9)
    (hhalf : obj.p_squared_minus_one_div_2 = 4) (P : ArrayXX F) (i j : Nat)
    (hi : i + 2 < P.rows) (hj : j + 2 < P.cols) :
    neighborhood obj P i j = some (neighborhood_three P i j) := by
  obtain ⟨x, hx, hsize, hcoeff⟩ := create_neighbors_eq obj P 1 (le_refl 1) obj.p
    (by rw [hp]; norm_num) (by rw [hhalf]; norm_num) i j (by omega) (by omega)
  unfold neighborhood
  have e1 : (i : Int) + obj.pad = ((1 : Nat) : Int) + i := by rw [hpad]; push_cast; ring
  have e2 : (j : Int) + obj.pad = ((1 : Nat) : Int) + j := by rw [hpad]; push_cast; ring
  have e3 : obj.p_squared = obj.p * obj.p := by rw [hsq, hp]; norm_num
  rw [e1, e2, e3, hx, Option.some_bind]
  unfold VectorX.values
  rw [if_pos]
  · unfold neighborhood_three
    rw [hsize]
    congr 2
    funext k
    rw [hcoeff]
    by_cases h4 : k < 4
    · simp [h4]
    · by_cases h8 : k < 8
      · simp [h4, h8]
      · simp [h4, h8]
  · intro k hk
    rw [hcoeff]
    by_cases h4 : k < 4
    · simp [h4]
    · have : k < 4 + 2 * (1 * 1 + 1) := by omega
      simp [h4, this]

/-- The error sequence returned by the prediction-error engine is the one computed by
`compute_error_sequence` with the returned coefficients. -/
theorem compute_prediction_error_mask_error_sequence {F : Type} [LinearOrderedField F]
    {rt : Runtime F} {obj : WatermarkFunctions F} {image padded : ArrayXX F} {mn : Bool}
    {r : ArrayXX F × ArrayXX F × ArrayXX F}
    (h : compute_prediction_error_mask rt obj image padded mn = some r) :
    compute_error_sequence obj image padded r.2.2 = some r.2.1 := by
  cases mn with
  | false => exact compute_prediction_error_mask_false h
  | true =>
    rw [compute_prediction_error_mask_true] at h
    obtain ⟨r0, hr0, h⟩ := Option.bind_eq_some.mp h
    obtain ⟨m, -, h⟩ := Option.bind_eq_some.mp h
    cases h
    show compute_error_sequence obj image padded r0.2.2 = some r0.2.1
    exact compute_prediction_error_mask_false hr0

/-- The two residual fields of the detector come from `compute_error_sequence` with
the same coefficients: `e_z` on the padded received image, `e_u` on the padded
pattern. -/
theorem detector_error_sequences_eq_some {F : Type} [LinearOrderedField F] {rt : Runtime F}
    {obj : WatermarkFunctions F} {Z : ArrayXX F} {model : Bool} {e : ArrayXX F × ArrayXX F}
    (h : detector_error_sequences rt obj Z model = some e) :
    ∃ padded c u padded_u, padded_of obj Z = some padded ∧
      compute_error_sequence obj Z padded c = some e.1 ∧
      compute_error_sequence obj u padded_u c = some e.2 := by
  unfold detector_error_sequences at h
  obtain ⟨padded, hP, h⟩ := Option.bind_eq_some.mp h
  obtain ⟨r, hr, h⟩ := Option.bind_eq_some.mp h
  simp only [] at h
  obtain ⟨u, -, h⟩ := Option.bind_eq_some.mp h
  obtain ⟨padded_u, -, h⟩ := Option.bind_eq_some.mp h
  obtain ⟨e_u, he_u, h⟩ := Option.bind_eq_some.mp h
  cases h
  refine ⟨padded, r.2.2, u, padded_u, hP, ?_, he_u⟩
  cases model with
  | false =>
    simp only [Bool.false_eq_true, if_false] at hr
    exact compute_prediction_error_mask_error_sequence hr
  | true =>
    simp only [if_true] at hr
    obtain ⟨r0, hr0, hr⟩ := Option.bind_eq_some.mp hr
    obtain ⟨m, -, hr⟩ := Option.bind_eq_some.mp hr
    cases hr
    show compute_error_sequence obj Z padded r0.2.2 = some r0.2.1
    exact compute_prediction_error_mask_error_sequence hr0

theorem detector_error_sequences_dims {F : Type} [LinearOrderedField F] {rt : Runtime F}
    {obj : WatermarkFunctions F} {Z : ArrayXX F} {model : Bool} {e : ArrayXX F × ArrayXX F}
    (h : detector_error_sequences rt obj Z model = some e) :
    e.1.rows = obj.rows ∧ e.1.cols = obj.cols ∧ e.2.rows = obj.rows ∧ e.2.cols = obj.cols := by
  obtain ⟨padded, c, u, padded_u, -, h1, h2⟩ := detector_error_sequences_eq_some h
  obtain ⟨a1, a2, -⟩ := compute_error_sequence_eq_some h1
  obtain ⟨b1, b2, -⟩ := compute_error_sequence_eq_some h2
  exact ⟨a1, a2, b1, b2⟩

/-- The detector on an image of zeros: the residual field `e_z` is zero, the product of
the norms is zero and there is no score. -/
theorem mask_detector_zero_image {F : Type} [LinearOrderedField F] (rt : Runtime F)
    (hsqrt : ∀ x : F, 0 ≤ x → 0 ≤ rt.sqrt x ∧ rt.sqrt x * rt.sqrt x = x)
    (obj : WatermarkFunctions F) (hinit : obj.Initialised) (n : Nat) (hpad : obj.pad = n)
    (Z : ArrayXX F) (hr : Z.rows = obj.rows) (hc : Z.cols = obj.cols)
    (hZ : ∀ i < Z.rows, ∀ j < Z.cols, Z.coeff i j = 0) (model : Bool) :
    mask_detector rt obj Z model = none := by
  unfold mask_detector
  cases he : detector_error_sequences rt obj Z model with
  | none => rfl
  | some e =>
    rw [Option.some_bind]
    obtain ⟨padded, c, u, padded_u, hP, h1, -⟩ := detector_error_sequences_eq_some he
    obtain ⟨d1, d2, d3, d4⟩ := detector_error_sequences_dims he
    rw [padded_of_zero_padded obj Z n hpad hr hc hinit.padded_rows_eq hinit.padded_cols_eq] at hP
    cases hP
    have hz := compute_error_sequence_zero h1 (by rw [← hr, ← hc]; exact hZ)
      (zero_padded_zero Z n hZ)
    apply (correlation_spec rt hsqrt e.1 e.2 (by rw [d1, d3]) (by rw [d2, d4])).2
    left
    rw [d1, d2]
    exact hz

/-- The prediction-error mask of an image of zeros: the largest absolute residual is
zero and the mask has no value. -/
theorem prediction_error_mask_zero_image {F : Type} [LinearOrderedField F] (rt : Runtime F)
    (obj : WatermarkFunctions F) (image padded : ArrayXX F)
    (himage : ∀ i < obj.rows, ∀ j < obj.cols, image.coeff i j = 0)
    (hP : ∀ a b, padded.coeff a b = 0) :
    compute_prediction_error_mask rt obj image padded true = none := by
  rw [compute_prediction_error_mask_true]
  cases hr : compute_prediction_error_mask rt obj image padded false with
  | none => rfl
  | some r =>
    rw [Option.some_bind]
    have he := compute_prediction_error_mask_false hr
    obtain ⟨d1, d2, -⟩ := compute_error_sequence_eq_some he
    have hz := compute_error_sequence_zero he himage hP
    rw [(abs_over_max_spec r.2.1).2 (by rw [d1, d2]; exact hz)]
    rfl

/-! ## Dependence on the entries in range only -/

theorem tabulate_eq_none {α : Type} {d : α} {rows cols : Nat} {f : Nat → Nat → Option α}
    (h : ArrayXX.tabulate d rows cols f = none) : ∃ i < rows, ∃ j < cols, f i j = none := by
  by_contra hcon
  push_neg at hcon
  have hall : ∀ i < rows, ∀ j < cols, (f i j).isSome = true := by
    intro i hi j hj
    exact Option.ne_none_iff_isSome.mp (hcon i hi j hj)
  unfold ArrayXX.tabulate at h
  rw [if_pos hall] at h
  cases h

/-- A pixel whose neighbourhood vector has an unwritten cell leaves the fit without a
value. -/
theorem compute_prediction_error_mask_none {F : Type} [LinearOrderedField F] (rt : Runtime F)
    (obj : WatermarkFunctions F) (image padded : ArrayXX F) (mn : Bool) (i j : Nat)
    (hi : i < obj.rows) (hj : j < obj.cols) (h : neighborhood obj padded i j = none) :
    compute_prediction_error_mask rt obj image padded mn = none := by
  have hfit : fit_threads rt obj image padded = none := by
    unfold fit_threads
    cases ArrayXX.Constant (obj.p_squared - 1) (obj.p_squared - 1) (0 : F) with
    | none => rfl
    | some Rx =>
      rw [Option.some_bind]
      cases ArrayXX.Constant (obj.p_squared - 1) 1 (0 : F) with
      | none => rfl
      | some rx =>
        rw [Option.some_bind]
        split
        · rfl
        · rw [tabulate_eq_none_of _ _ _ _ i j hi hj]
          · rfl
          · unfold neighborhood at h
            rw [add_comm (obj.pad : Int) i, add_comm (obj.pad : Int) j]
            cases hx : create_neighbors obj padded ((i : Int) + obj.pad) ((j : Int) + obj.pad)
                obj.p obj.p_squared with
            | none => rfl
            | some x =>
              rw [hx, Option.some_bind] at h
              rw [Option.some_bind, h]
              rfl
  unfold compute_prediction_error_mask
  rw [Constant_natCast, Option.some_bind, hfit]
  rfl

/-- Writing an array into the inner block of a zero-padded array gives the zero-padded
copy of that array. -/
theorem setBlock_zero_padded {F : Type} [LinearOrderedField F] (obj : WatermarkFunctions F)
    (n : Nat) (hpad : obj.pad = n) (Z u : ArrayXX F)
    (hZr : Z.rows = obj.rows) (hZc : Z.cols = obj.cols)
    (hur : u.rows = obj.rows) (huc : u.cols = obj.cols)
    (hpr : obj.padded_rows = obj.rows + 2 * obj.pad)
    (hpc : obj.padded_cols = obj.cols + 2 * obj.pad) :
    (Spec.zero_padded n Z).setBlock obj.pad obj.pad ((obj.padded_rows - obj.pad) - obj.pad)
      ((obj.padded_cols - obj.pad) - obj.pad) u = some (Spec.zero_padded n u) := by
  unfold ArrayXX.setBlock
  rw [if_pos]
  · unfold Spec.zero_padded
    simp only [hpad, Int.toNat_ofNat, hZr, hZc, hur, huc]
    congr 2
    funext x y
    by_cases hin : n ≤ x ∧ x < n + obj.rows ∧ n ≤ y ∧ y < n + obj.cols
    · rw [if_pos hin, if_pos hin]
    · rw [if_neg hin, if_neg hin, if_neg hin]
  · simp only [ArrayXX.blockInRange, Spec.zero_padded, hpad, hpr, hpc, hZr, hZc, hur, huc]
    push_cast
    omega

theorem zero_padded_congr {F : Type} [LinearOrderedField F] (n : Nat) (A B : ArrayXX F)
    (h : A.Same B) : Spec.zero_padded n A = Spec.zero_padded n B := by
  obtain ⟨hr, hc, hcoeff⟩ := h
  unfold Spec.zero_padded
  rw [← hr, ← hc]
  congr 1
  funext x y
  by_cases hin : n ≤ x ∧ x < n + A.rows ∧ n ≤ y ∧ y < n + A.cols
  · rw [if_pos hin, if_pos hin]
    exact hcoeff _ (by omega) _ (by omega)
  · rw [if_neg hin, if_neg hin]

theorem maxUpTo_congr {F : Type} [LinearOrder F] (f g : Nat → F) (n : Nat)
    (h : ∀ k ≤ n, f k = g k) : maxUpTo f n = maxUpTo g n := by
  induction n with
  | zero => exact h 0 (le_refl _)
  | succ n ih =>
    unfold maxUpTo
    rw [ih fun k hk => h k (by omega), h (n + 1) (le_refl _)]

theorem maxCoeff_congr {F : Type} [LinearOrder F] (A B : ArrayXX F) (h : A.Same B) :
    A.maxCoeff = B.maxCoeff := by
  obtain ⟨hr, hc, hcoeff⟩ := h
  unfold ArrayXX.maxCoeff
  rw [← hr, ← hc]
  by_cases h0 : A.rows * A.cols = 0
  · rw [if_pos h0, if_pos h0]
  · rw [if_neg h0, if_neg h0]
    congr 1
    apply maxUpTo_congr
    intro k hk
    have hpos : 0 < A.rows * A.cols := Nat.pos_of_ne_zero h0
    have hrows : 0 < A.rows := Nat.pos_of_mul_pos_right hpos
    unfold ArrayXX.data
    rw [← hr]
    apply hcoeff _ (Nat.mod_lt _ hrows)
    apply Nat.div_lt_of_lt_mul
    omega

/-- The quotient by the maximum depends only on the entries in range. -/
theorem abs_over_max_congr {F : Type} [LinearOrderedField F] (A B : ArrayXX F)
    (h : A.Same B) :
    (abs_over_max A = none ∧ abs_over_max B = none) ∨
      ∃ m m', abs_over_max A = some m ∧ abs_over_max B = some m' ∧ m.Same m' := by
  have hmax : (A.map fun x => |x|).maxCoeff = (B.map fun x => |x|).maxCoeff := by
    apply maxCoeff_congr
    obtain ⟨hr, hc, hcoeff⟩ := h
    refine ⟨hr, hc, ?_⟩
    intro i hi j hj
    show |A.coeff i j| = |B.coeff i j|
    rw [hcoeff i hi j hj]
  unfold abs_over_max
  simp only []
  rw [hmax]
  cases (B.map fun x => |x|).maxCoeff with
  | none => exact Or.inl ⟨rfl, rfl⟩
  | some mx =>
    simp only [Option.some_bind]
    by_cases h0 : mx = 0
    · rw [if_pos h0, if_pos h0]
      exact Or.inl ⟨rfl, rfl⟩
    · rw [if_neg h0, if_neg h0]
      refine Or.inr ⟨_, _, rfl, rfl, ?_⟩
      obtain ⟨hr, hc, hcoeff⟩ := h
      refine ⟨hr, hc, ?_⟩
      intro i hi j hj
      show |A.coeff i j| / mx = |B.coeff i j| / mx
      rw [hcoeff i hi j hj]

/-- The three reductions of the detector as sums over the pixels. -/
theorem correlation_eq {F : Type} [LinearOrderedField F] (rt : Runtime F) (e_z e_u : ArrayXX F)
    (r c : Nat) (h1 : e_z.rows = r) (h2 : e_z.cols = c) (h3 : e_u.rows = r) (h4 : e_u.cols = c) :
    correlation rt e_z e_u =
      fdiv (∑ i in range r, ∑ j in range c, e_z.coeff i j * e_u.coeff i j)
        (rt.sqrt (∑ i in range r, ∑ j in range c, e_z.coeff i j ^ 2) *
          rt.sqrt (∑ i in range r, ∑ j in range c, e_u.coeff i j ^ 2)) := by
  unfold correlation ArrayXX.zipWith
  rw [if_pos ⟨by rw [h1, h3], by rw [h2, h4]⟩, Option.some_bind]
  unfold ArrayXX.sum ArrayXX.map
  simp only [h1, h2, h3, h4]
  rw [Finset.sum_comm, Finset.sum_comm (s := range c) (t := range r)
    (f := fun j i => e_z.coeff i j ^ 2), Finset.sum_comm (s := range c) (t := range r)
    (f := fun j i => e_u.coeff i j ^ 2)]

theorem correlation_congr {F : Type} [LinearOrderedField F] (rt : Runtime F)
    (e_z e_u e_z' e_u' : ArrayXX F) (r c : Nat) (h1 : e_z.rows = r) (h2 : e_z.cols = c)
    (h3 : e_u.rows = r) (h4 : e_u.cols = c) (hz : e_z.Same e_z') (hu : e_u.Same e_u') :
    correlation rt e_z e_u =
      fdiv (∑ i in range r, ∑ j in range c, e_z'.coeff i j * e_u'.coeff i j)
        (rt.sqrt (∑ i in range r, ∑ j in range c, e_z'.coeff i j ^ 2) *
          rt.sqrt (∑ i in range r, ∑ j in range c, e_u'.coeff i j ^ 2)) := by
  rw [correlation_eq rt e_z e_u r c h1 h2 h3 h4]
  have hz' : ∀ i ∈ range r, ∀ j ∈ range c, e_z.coeff i j = e_z'.coeff i j := by
    intro i hi j hj
    exact hz.2.2 i (by rw [h1]; exact Finset.mem_range.mp hi) j
      (by rw [h2]; exact Finset.mem_range.mp hj)
  have hu' : ∀ i ∈ range r, ∀ j ∈ range c, e_u.coeff i j = e_u'.coeff i j := by
    intro i hi j hj
    exact hu.2.2 i (by rw [h3]; exact Finset.mem_range.mp hi) j
      (by rw [h4]; exact Finset.mem_range.mp hj)
  have s1 : (∑ i in range r, ∑ j in range c, e_z.coeff i j * e_u.coeff i j) =
      ∑ i in range r, ∑ j in range c, e_z'.coeff i j * e_u'.coeff i j :=
    Finset.sum_congr rfl fun i hi => Finset.sum_congr rfl fun j hj => by
      rw [hz' i hi j hj, hu' i hi j hj]
  have s2 : (∑ i in range r, ∑ j in range c, e_z.coeff i j ^ 2) =
      ∑ i in range r, ∑ j in range c, e_z'.coeff i j ^ 2 :=
    Finset.sum_congr rfl fun i hi => Finset.sum_congr rfl fun j hj => by rw [hz' i hi j hj]
  have s3 : (∑ i in range r, ∑ j in range c, e_u.coeff i j ^ 2) =
      ∑ i in range r, ∑ j in range c, e_u'.coeff i j ^ 2 :=
    Finset.sum_congr rfl fun i hi => Finset.sum_congr rfl fun j hj => by rw [hu' i hi j hj]
  rw [s1, s2, s3]

/-! ## The detector against its specification -/

/-- The second half of the detector: from the mask to the residual field of the
pattern, compared with the specification. -/
theorem detector_pattern_refine {F : Type} [LinearOrderedField F]
    (obj : WatermarkFunctions F) (hinit : obj.Initialised) (n : Nat) (hpad : obj.pad = n)
    (Z : ArrayXX F) (hZr : Z.rows = obj.rows) (hZc : Z.cols = obj.cols)
    (c E m mask : ArrayXX F) (hc : c.cols = (obj.p_squared - 1).toNat) (hc' : 0 < c.rows)
    (hmr : m.rows = obj.rows) (hmc : m.cols = obj.cols) (hm : m.Same mask) :
    ((m.zipWith (fun a b => a * b) obj.w).bind fun u =>
      ((Spec.zero_padded n Z).setBlock obj.pad obj.pad ((obj.padded_rows - obj.pad) - obj.pad)
        ((obj.padded_cols - obj.pad) - obj.pad) u).bind fun padded =>
      (compute_error_sequence obj u padded c).bind fun e_u => some (E, e_u)) = none ∧
      (Spec.neighborhoods obj
        ⟨obj.rows, obj.cols, fun i j => mask.coeff i j * obj.w.coeff i j⟩) = none ∨
    ∃ e_u XU, ((m.zipWith (fun a b => a * b) obj.w).bind fun u =>
      ((Spec.zero_padded n Z).setBlock obj.pad obj.pad ((obj.padded_rows - obj.pad) - obj.pad)
        ((obj.padded_cols - obj.pad) - obj.pad) u).bind fun padded =>
      (compute_error_sequence obj u padded c).bind fun e_u => some (E, e_u)) = some (E, e_u) ∧
      (Spec.neighborhoods obj
        ⟨obj.rows, obj.cols, fun i j => mask.coeff i j * obj.w.coeff i j⟩) = some XU ∧
      e_u.Same ⟨obj.rows, obj.cols, Spec.residual c
        ⟨obj.rows, obj.cols, fun i j => mask.coeff i j * obj.w.coeff i j⟩ XU.coeff⟩ := by
  have hzip : m.zipWith (fun a b => a * b) obj.w =
      some ⟨m.rows, m.cols, fun i j => m.coeff i j * obj.w.coeff i j⟩ := by
    unfold ArrayXX.zipWith
    rw [if_pos ⟨by rw [hmr, hinit.w_rows], by rw [hmc, hinit.w_cols]⟩]
  have hsame : (⟨m.rows, m.cols, fun i j => m.coeff i j * obj.w.coeff i j⟩ : ArrayXX F).Same
      ⟨obj.rows, obj.cols, fun i j => mask.coeff i j * obj.w.coeff i j⟩ := by
    refine ⟨hmr, hmc, ?_⟩
    intro i hi j hj
    show m.coeff i j * obj.w.coeff i j = mask.coeff i j * obj.w.coeff i j
    rw [hm.2.2 i hi j hj]
  have hset := setBlock_zero_padded obj n hpad Z
    ⟨m.rows, m.cols, fun i j => m.coeff i j * obj.w.coeff i j⟩ hZr hZc hmr hmc
    hinit.padded_rows_eq hinit.padded_cols_eq
  rw [zero_padded_congr n _ _ hsame] at hset
  rw [hzip, Option.some_bind, hset, Option.some_bind]
  unfold Spec.neighborhoods
  rw [hpad, Int.toNat_ofNat]
  cases hXU : ArrayXX.tabulate (⟨0, fun _ => 0⟩ : VectorX F) obj.rows obj.cols
      (neighborhood obj (Spec.zero_padded n
        ⟨obj.rows, obj.cols, fun i j => mask.coeff i j * obj.w.coeff i j⟩)) with
  | none =>
    left
    obtain ⟨i, hi, j, hj, hnone⟩ := tabulate_eq_none hXU
    rw [compute_error_sequence_none obj _ _ c i j hi hj hnone]
    exact ⟨rfl, rfl⟩
  | some XU =>
    right
    obtain ⟨-, -, hX⟩ := tabulate_eq_some hXU
    obtain ⟨e_u, he_u, hr, hcl, hcoeff⟩ := compute_error_sequence_of obj
      ⟨m.rows, m.cols, fun i j => m.coeff i j * obj.w.coeff i j⟩
      (Spec.zero_padded n ⟨obj.rows, obj.cols, fun i j => mask.coeff i j * obj.w.coeff i j⟩)
      c XU.coeff hX hc hc' (by show obj.rows ≤ m.rows; omega) (by show obj.cols ≤ m.cols; omega)
    refine ⟨e_u, XU, by rw [he_u, Option.some_bind], rfl, hr, hcl, ?_⟩
    intro i hi j hj
    rw [hr] at hi
    rw [hcl] at hj
    rw [hcoeff i hi j hj]
    unfold Spec.residual
    show m.coeff i j * obj.w.coeff i j - _ = mask.coeff i j * obj.w.coeff i j - _
    rw [hm.2.2 i (by omega) j (by omega)]

/-- The residual fields computed by the detector are those of the specification. -/
theorem detector_fields_refine {F : Type} [LinearOrderedField F] (rt : Runtime F)
    (obj : WatermarkFunctions F) (hinit : obj.Initialised) (n : Nat) (hn : 1 ≤ n)
    (hp : obj.p = 2 * n + 1) (hpad : obj.pad = n)
    (Z : ArrayXX F) (hZr : Z.rows = obj.rows) (hZc : Z.cols = obj.cols)
    (hthr : 0 ≤ obj.num_threads)
    (hsched : ∀ r < obj.rows, rt.omp_get_thread_num ((obj.pad : Int) + r) < obj.num_threads.toNat)
    (model : Bool) :
    (detector_error_sequences rt obj Z model = none ∧
      Spec.detector_fields rt obj Z model = none) ∨
    ∃ e e', detector_error_sequences rt obj Z model = some e ∧
      Spec.detector_fields rt obj Z model = some e' ∧ e.1.Same e'.1 ∧ e.2.Same e'.2 := by
  have hP := padded_of_zero_padded obj Z n hpad hZr hZc hinit.padded_rows_eq
    hinit.padded_cols_eq
  have hN : 0 ≤ obj.p_squared - 1 := by
    rw [hinit.p_squared_eq, hp]
    nlinarith
  unfold detector_error_sequences Spec.detector_fields
  rw [hP, Option.some_bind]
  have hpt : obj.pad.toNat = n := by omega
  unfold Spec.neighborhoods
  rw [hpt]
  cases hXZ : ArrayXX.tabulate (⟨0, fun _ => 0⟩ : VectorX F) obj.rows obj.cols
      (neighborhood obj (Spec.zero_padded n Z)) with
  | none =>
    left
    obtain ⟨i, hi, j, hj, hnone⟩ := tabulate_eq_none hXZ
    rw [compute_prediction_error_mask_none rt obj Z _ false i j hi hj hnone,
      compute_prediction_error_mask_none rt obj Z _ true i j hi hj hnone]
    cases model <;> exact ⟨rfl, rfl⟩
  | some XZ =>
    obtain ⟨-, -, hX⟩ := tabulate_eq_some hXZ
    have hcpem := compute_prediction_error_mask_of rt obj Z (Spec.zero_padded n Z) XZ.coeff hN hX
      hthr hsched (by omega) (by omega)
    obtain ⟨E, hE, hEr, hEc, hEcoeff⟩ := compute_error_sequence_of obj Z (Spec.zero_padded n Z)
      (Spec.fit rt obj Z XZ.coeff) XZ.coeff hX rfl (by show 0 < 1; omega) (by omega) (by omega)
    have hEsame : E.Same ⟨obj.rows, obj.cols, Spec.residual (Spec.fit rt obj Z XZ.coeff) Z
        XZ.coeff⟩ := by
      refine ⟨hEr, hEc, ?_⟩
      intro i hi j hj
      exact hEcoeff i (by omega) j (by omega)
    rw [hcpem false, hcpem true, hE]
    simp only [Option.some_bind, Bool.false_eq_true, if_false, if_true]
    cases model with
    | true =>
      obtain ⟨m, hm, hmr, hmc, hmcoeff⟩ := compute_NVF_mask_eq obj Z (Spec.zero_padded n Z) n hn
        hp hpad hinit.p_squared_eq (by unfold Spec.zero_padded; rw [hZr])
        (by unfold Spec.zero_padded; rw [hZc])
      have hmsame : m.Same (Spec.variance_mask obj Z) := by
        refine ⟨hmr, hmc, ?_⟩
        intro i hi j hj
        rw [hmcoeff i (by omega) j (by omega)]
        unfold Spec.variance_mask
        have hpn : obj.p.toNat = 2 * n + 1 := by omega
        simp only [hpt, hpn]
      simp only [if_true, Option.some_bind, hm]
      rcases detector_pattern_refine obj hinit n hpad Z hZr hZc (Spec.fit rt obj Z XZ.coeff) E m
        (Spec.variance_mask obj Z) rfl (by show 0 < 1; omega) hmr hmc hmsame with
        ⟨h1, h2⟩ | ⟨e_u, XU, h1, h2, h3⟩
      · left
        unfold Spec.neighborhoods at h2
        rw [hpt] at h2
        exact ⟨h1, by rw [h2]; rfl⟩
      · right
        unfold Spec.neighborhoods at h2
        rw [hpt] at h2
        exact ⟨(E, e_u), _, h1, by rw [h2]; rfl, hEsame, h3⟩
    | false =>
      simp only [Bool.false_eq_true, if_false]
      rcases abs_over_max_congr E _ hEsame with ⟨h1, h2⟩ | ⟨m, m', h1, h2, hmsame⟩
      · left
        rw [h1, h2]
        exact ⟨rfl, rfl⟩
      · have hmr : m.rows = obj.rows := by
          obtain ⟨mx, hmx⟩ : ∃ mx, (E.map fun x => |x|).maxCoeff = some mx := by
            unfold abs_over_max at h1
            cases hmx : (E.map fun x => |x|).maxCoeff with
            | none => simp only [hmx] at h1; cases h1
            | some mx => exact ⟨mx, rfl⟩
          unfold abs_over_max at h1
          simp only [hmx, Option.some_bind] at h1
          split at h1
          · cases h1
          · cases h1; exact hEr
        have hmc : m.cols = obj.cols := by
          obtain ⟨mx, hmx⟩ : ∃ mx, (E.map fun x => |x|).maxCoeff = some mx := by
            unfold abs_over_max at h1
            cases hmx : (E.map fun x => |x|).maxCoeff with
            | none => simp only [hmx] at h1; cases h1
            | some mx => exact ⟨mx, rfl⟩
          unfold abs_over_max at h1
          simp only [hmx, Option.some_bind] at h1
          split at h1
          · cases h1
          · cases h1; exact hEc
        rw [h1, h2]
        simp only [Option.some_bind]
        rcases detector_pattern_refine obj hinit n hpad Z hZr hZc (Spec.fit rt obj Z XZ.coeff) E m
          m' rfl (by show 0 < 1; omega) hmr hmc hmsame with ⟨h3, h4⟩ | ⟨e_u, XU, h3, h4, h5⟩
        · left
          unfold Spec.neighborhoods at h4
          rw [hpt] at h4
          exact ⟨h3, by rw [h4]; rfl⟩
        · right
          unfold Spec.neighborhoods at h4
          rw [hpt] at h4
          exact ⟨(E, e_u), _, h3, by rw [h4]; rfl, hEsame, h5⟩

/-! ## Images of one pixel -/

/-- Around the only pixel of a `1 x 1` array all eight neighbours are border zeros. -/
theorem neighborhood_three_one_pixel {F : Type} [LinearOrderedField F] (A : ArrayXX F)
    (hr : A.rows = 1) (hc : A.cols = 1) (k : Nat) :
    (neighborhood_three (Spec.zero_padded 1 A) 0 0).coeff k = 0 := by
  unfold neighborhood_three Spec.zero_padded
  simp only [hr, hc]
  by_cases h4 : k < 4
  · rw [if_pos h4, if_neg]
    omega
  · rw [if_neg h4]
    by_cases h8 : k < 8
    · rw [if_pos h8, if_neg]
      omega
    · rw [if_neg h8]

/-- The neighbourhood vectors of a `1 x 1` array for `p = 3`. -/
theorem neighborhoods_one_pixel {F : Type} [LinearOrderedField F] (x w psnr : F)
    (A : ArrayXX F) (hr : A.rows = 1) (hc : A.cols = 1) :
    ∃ XA, Spec.neighborhoods (Example.object 1 1 3 (fun _ _ => x) (fun _ _ => w) psnr) A =
        some XA ∧ ∀ k, (XA.coeff 0 0).coeff k = 0 := by
  unfold Spec.neighborhoods
  obtain ⟨XA, hXA, -, -, hcoeff⟩ := tabulate_of_forall (⟨0, fun _ => 0⟩ : VectorX F) 1 1
    (neighborhood (Example.object 1 1 3 (fun _ _ => x) (fun _ _ => w) psnr)
      (Spec.zero_padded 1 A))
    (fun i j => neighborhood_three (Spec.zero_padded 1 A) i j) (by
      intro i hi j hj
      apply neighborhood_eq_three _ rfl rfl rfl rfl
      · show i + 2 < A.rows + 2 * 1
        omega
      · show j + 2 < A.cols + 2 * 1
        omega)
  refine ⟨XA, hXA, ?_⟩
  intro k
  rw [hcoeff 0 (by decide) 0 (by decide)]
  exact neighborhood_three_one_pixel A hr hc k

theorem residual_of_zero {F : Type} [LinearOrderedField F] (c A : ArrayXX F)
    (X : Nat → Nat → VectorX F) (i j : Nat) (h : ∀ k, (X i j).coeff k = 0) :
    Spec.residual c A X i j = A.coeff i j := by
  unfold Spec.residual
  have : ∑ k in range c.cols, c.coeff 0 k * (X i j).coeff k = 0 := by
    apply Finset.sum_eq_zero
    intro k _
    rw [h k, mul_zero]
  rw [this, sub_zero]

/-- The variance of the window around the only pixel of a `1 x 1` image. -/
theorem window_variance_single {F : Type} [LinearOrderedField F] (Z : ArrayXX F)
    (hr : Z.rows = 1) (hc : Z.cols = 1) :
    Spec.window_variance (Spec.zero_padded 1 Z) 3 (0 + 1) (0 + 1) = Z.coeff 0 0 ^ 2 / 9 := by
  simp [Spec.window_variance, Spec.window_mean, Spec.zero_padded, Finset.sum_range_succ, hr, hc]
  field_simp
  ring

/-- The detector on a `1 x 1` image `Z`, `p = 3`: the residual of the image is its pixel
`z` and the residual of the pattern is `mask * w`, the mask being
`1 - 1 / (1 + z^2 / 9)` under the variance model and `1` under the prediction-error
model. -/
theorem detector_one_pixel {F : Type} [LinearOrderedField F] (rt : Runtime F)
    (hsched : rt.omp_get_thread_num 1 = 0) (x w psnr : F) (Z : ArrayXX F)
    (hr : Z.rows = 1) (hc : Z.cols = 1) (hz : Z.coeff 0 0 ≠ 0) (model : Bool) :
    ∃ e_z e_u, detector_error_sequences rt
        (Example.object 1 1 3 (fun _ _ => x) (fun _ _ => w) psnr) Z model =
        some (e_z, e_u) ∧
      e_z.coeff 0 0 = Z.coeff 0 0 ∧
      e_u.coeff 0 0 = (if model then 1 - 1 / (1 + Z.coeff 0 0 ^ 2 / 9) else 1) * w := by
  have hspec : ∃ e', Spec.detector_fields rt
      (Example.object 1 1 3 (fun _ _ => x) (fun _ _ => w) psnr) Z model =
        some e' ∧ e'.1.coeff 0 0 = Z.coeff 0 0 ∧
      e'.2.coeff 0 0 = (if model then 1 - 1 / (1 + Z.coeff 0 0 ^ 2 / 9) else 1) * w := by
    unfold Spec.detector_fields
    obtain ⟨XZ, hXZ, hXZ0⟩ := neighborhoods_one_pixel x w psnr Z hr hc
    rw [hXZ, Option.some_bind]
    simp only []
    cases model with
    | true =>
      simp only [if_true, Option.some_bind]
      obtain ⟨XU, hXU, hXU0⟩ := neighborhoods_one_pixel x w psnr
        (⟨(Example.object 1 1 3 (fun _ _ => x) (fun _ _ => w) psnr).rows,
          (Example.object 1 1 3 (fun _ _ => x) (fun _ _ => w) psnr).cols, fun i j =>
          (Spec.variance_mask (Example.object 1 1 3 (fun _ _ => x) (fun _ _ => w) psnr)
            Z).coeff i j *
          (Example.object 1 1 3 (fun _ _ => x) (fun _ _ => w) psnr).w.coeff i j⟩ : ArrayXX F)
        rfl rfl
      rw [hXU, Option.some_bind]
      refine ⟨_, rfl, residual_of_zero _ _ _ 0 0 hXZ0, ?_⟩
      show Spec.residual _ _ XU.coeff 0 0 = _
      rw [residual_of_zero _ _ _ 0 0 hXU0]
      show (1 - 1 / (1 + Spec.window_variance (Spec.zero_padded 1 Z) 3 (0 + 1) (0 + 1))) * w = _
      rw [window_variance_single Z hr hc]
    | false =>
      simp only [Bool.false_eq_true, if_false]
      have he00 : Spec.residual (Spec.fit rt
          (Example.object 1 1 3 (fun _ _ => x) (fun _ _ => w) psnr) Z
          XZ.coeff) Z XZ.coeff 0 0 = Z.coeff 0 0 := residual_of_zero _ _ _ 0 0 hXZ0
      obtain ⟨m, mx, hm, hmr, hmc, hmx, hle, ⟨i, hi, j, hj, hatt⟩, hmcoeff, -⟩ :=
        (abs_over_max_spec (⟨(Example.object 1 1 3 (fun _ _ => x) (fun _ _ => w) psnr).rows,
          (Example.object 1 1 3 (fun _ _ => x) (fun _ _ => w) psnr).cols,
          Spec.residual (Spec.fit rt (Example.object 1 1 3 (fun _ _ => x) (fun _ _ => w) psnr)
            Z XZ.coeff) Z XZ.coeff⟩ : ArrayXX F)).1
          ⟨0, Nat.zero_lt_one, 0, Nat.zero_lt_one, by
            show Spec.residual _ _ XZ.coeff 0 0 ≠ 0
            rw [he00]
            exact hz⟩
      have hi0 : i = 0 := Nat.lt_one_iff.mp hi
      have hj0 : j = 0 := Nat.lt_one_iff.mp hj
      subst hi0 hj0
      rw [hm, Option.some_bind]
      obtain ⟨XU, hXU, hXU0⟩ := neighborhoods_one_pixel x w psnr
        (⟨(Example.object 1 1 3 (fun _ _ => x) (fun _ _ => w) psnr).rows,
          (Example.object 1 1 3 (fun _ _ => x) (fun _ _ => w) psnr).cols, fun i j =>
          m.coeff i j *
          (Example.object 1 1 3 (fun _ _ => x) (fun _ _ => w) psnr).w.coeff i j⟩ : ArrayXX F)
        rfl rfl
      rw [hXU, Option.some_bind]
      refine ⟨_, rfl, he00, ?_⟩
      show Spec.residual _ _ XU.coeff 0 0 = _
      rw [residual_of_zero _ _ _ 0 0 hXU0]
      show m.coeff 0 0 * w = 1 * w
      rw [hmcoeff, hatt]
      have : mx ≠ 0 := ne_of_gt hmx
      rw [hatt] at this
      rw [div_self this]
  obtain ⟨e', he', h1, h2⟩ := hspec
  rcases detector_fields_refine rt (Example.object 1 1 3 (fun _ _ => x) (fun _ _ => w) psnr)
    ⟨rfl, rfl, rfl, rfl, rfl, rfl, rfl, rfl⟩ 1 (le_refl 1) rfl rfl Z hr hc
    (by show (0 : Int) ≤ 1; decide) (by
      intro r hr
      have hr0 : r = 0 := Nat.lt_one_iff.mp hr
      subst hr0
      show rt.omp_get_thread_num (1 + 0) < 1
      rw [show ((1 : Int) + 0) = 1 from rfl, hsched]
      exact Nat.zero_lt_one) model with ⟨-, hnone⟩ | ⟨e, e'', he, he'', hs1, hs2⟩
  · rw [he'] at hnone
    cases hnone
  · rw [he'] at he''
    cases he''
    obtain ⟨d1, d2, d3, d4⟩ := detector_error_sequences_dims he
    refine ⟨e.1, e.2, he, ?_, ?_⟩
    · rw [hs1.2.2 0 (by rw [d1]; exact Nat.zero_lt_one) 0 (by rw [d2]; exact Nat.zero_lt_one)]
      exact h1
    · rw [hs2.2.2 0 (by rw [d3]; exact Nat.zero_lt_one) 0 (by rw [d4]; exact Nat.zero_lt_one)]
      exact h2

/-! ## The cosine under a shift -/

/-- The members of an initialised object with an odd window side `p = 2 n + 1`. -/
theorem odd_window_side {F : Type} (obj : WatermarkFunctions F) (hinit : obj.Initialised)
    (hodd : obj.p % 2 = 1) (h1 : 1 < obj.p) :
    ∃ n : Nat, 1 ≤ n ∧ obj.p = 2 * n + 1 ∧ (obj.p - 1) / 2 = n ∧ (obj.p - 1).tdiv 2 = n ∧
      obj.p_squared = obj.p * obj.p ∧
      obj.p_squared_minus_one_div_2 = ((2 * (n * n + n) : Nat) : Int) := by
  refine ⟨((obj.p - 1) / 2).toNat, by omega, by omega, by omega, ?_, hinit.p_squared_eq, ?_⟩
  · rw [Int.tdiv_eq_ediv (by omega) (by norm_num)]; omega
  · rw [hinit.half_eq, hinit.p_squared_eq]
    have hp : obj.p = 2 * (((obj.p - 1) / 2).toNat : Int) + 1 := by omega
    generalize ((obj.p - 1) / 2).toNat = n at hp
    have e : obj.p * obj.p - 1 = 2 * ((2 * (n * n + n) : Nat) : Int) := by
      rw [hp]; push_cast; ring
    rw [e, Int.mul_tdiv_cancel_left _ (by norm_num)]

/-- C5, counterexample. On a `3 x 3` window with entries `10 i + j` the extractor
returns the cells column by column (`0, 10, 20, 1, 21, 2, 12, 22`), not in the row-major
order of the specification (`0, 1, 2, 10, 12, 20, 21, 22`); on a `5 x 5` window it
returns the centre value `22` in cell 11 and leaves cells 16 to 23 unwritten. -/
theorem create_neighbors_row_major_counterexample :
    ((create_neighbors (Example.object 1 1 3 (fun _ _ => (11 : Int)) (fun _ _ => 1) 30) Example.window3 1 1 3 9).map
        VectorX.toList =
        some [some 0, some 10, some 20, some 1, some 21, some 2, some 12, some 22] ∧
      Spec.neighborhood_row_major Example.window3 3 1 1 = [0, 1, 2, 10, 12, 20, 21, 22]) ∧
    (create_neighbors (Example.object 1 1 5 (fun _ _ => (22 : Int)) (fun _ _ => 1) 30) Example.window5 2 2 5 25).map
        VectorX.toList =
      some [some 0, some 10, some 20, some 30, some 1, some 11, some 21, some 31, some 41,
        some 2, some 12, some 22, some 32, some 42, some 3, some 13,
        none, none, none, none, none, none, none, none] := by
  decide

/-- C5, amended. For every odd window side `p > 1`, every padded array and every
centre `(i, j)` at least `(p - 1) / 2` from all its borders, `create_neighbors` returns a
vector of exactly `p^2 - 1` cells; for `p = 3` they are the cells of the window centred
at `(i, j)` in column-major window order with the centre cell removed, each other cell
once. -/
theorem create_neighbors_column_major {F : Type} (obj : WatermarkFunctions F)
    (hinit : obj.Initialised) (hodd : obj.p % 2 = 1) (h1 : 1 < obj.p)
    (P : ArrayXX F) (i j : Int)
    (hi : (obj.p - 1) / 2 ≤ i) (hi' : i + (obj.p - 1) / 2 < P.rows)
    (hj : (obj.p - 1) / 2 ≤ j) (hj' : j + (obj.p - 1) / 2 < P.cols) :
    ∃ x, create_neighbors obj P i j obj.p obj.p_squared = some x ∧
      (x.size : Int) = obj.p ^ 2 - 1 ∧
      (obj.p = 3 →
        x.toList = (Spec.neighborhood_column_major P 3 i.toNat j.toNat).map some) := by
  obtain ⟨n, hn, hp, hdiv, -, hsq, hhalf⟩ := odd_window_side obj hinit hodd h1
  rw [hdiv] at hi hi' hj hj'
  obtain ⟨r, hr⟩ : ∃ r : Nat, i = (n : Int) + r := ⟨(i - n).toNat, by omega⟩
  obtain ⟨c, hc⟩ : ∃ c : Nat, j = (n : Int) + c := ⟨(j - n).toNat, by omega⟩
  subst hr hc
  obtain ⟨x, hx, hsize, hcoeff⟩ :=
    create_neighbors_eq obj P n hn obj.p hp hhalf r c (by omega) (by omega)
  refine ⟨x, by rw [hsq]; exact hx, ?_, ?_⟩
  · rw [hsize, hp]; push_cast; ring
  · intro h3
    have hn1 : n = 1 := by omega
    subst hn1
    have e1 : ((1 : Nat) : Int) + (r : Int) = ((1 + r : Nat) : Int) := by push_cast; ring
    have e2 : ((1 : Nat) : Int) + (c : Int) = ((1 + c : Nat) : Int) := by push_cast; ring
    rw [e1, e2, Int.toNat_ofNat, Int.toNat_ofNat]
    unfold VectorX.toList Spec.neighborhood_column_major
    rw [hsize]
    have hl : (List.range (3 * 3)).filter (fun m => decide (m ≠ (3 * 3 - 1) / 2)) =
        [0, 1, 2, 3, 5, 6, 7, 8] := by decide
    have hr8 : List.range (4 * (1 * 1 + 1)) = [0, 1, 2, 3, 4, 5, 6, 7] := by decide
    rw [hl, hr8]
    simp [hcoeff]

/-- C5, witness: the amended statement at the `3 x 3` window with entries `10 i + j`. -/
theorem create_neighbors_column_major_witness :
    ∃ x, create_neighbors (Example.object 1 1 3 (fun _ _ => (11 : Int)) (fun _ _ => 1) 30) Example.window3 1 1 3 9 = some x ∧
      (x.size : Int) = 3 ^ 2 - 1 ∧
      ((3 : Int) = 3 → x.toList = (Spec.neighborhood_column_major Example.window3 3 1 1).map some) :=
  create_neighbors_column_major (Example.object 1 1 3 (fun _ _ => (11 : Int)) (fun _ _ => 1) 30)
    ⟨rfl, rfl, rfl, rfl, rfl, rfl, rfl, rfl⟩ (by decide) (by decide) Example.window3 1 1
    (by decide) (by decide) (by decide) (by decide)

/-- C6. For `p = 3` there is one fixed one-to-one map `s` from the output positions
`0..7` onto the eight non-centre cells of the `3 x 3` window such that, for every padded
array and every centre at least one cell away from its borders, `create_neighbors`
returns exactly 8 values and value `k` is the window cell `s k`; no position is
mapped to the centre `(1, 1)`. -/
theorem create_neighbors_three_fixed_permutation :
    ∃ s : Fin 8 → Fin 3 × Fin 3, Function.Injective s ∧ (∀ k, s k ≠ (1, 1)) ∧
      (∀ cell, cell ≠ (1, 1) → ∃ k, s k = cell) ∧
      ∀ (F : Type) (obj : WatermarkFunctions F), obj.Initialised → obj.p = 3 →
        ∀ (P : ArrayXX F) (i j : Int), 1 ≤ i → i + 1 < P.rows → 1 ≤ j → j + 1 < P.cols →
          ∃ x, create_neighbors obj P i j obj.p obj.p_squared = some x ∧ x.size = 8 ∧
            ∀ k : Fin 8, x.coeff k =
              some (P.coeff (i.toNat - 1 + (s k).1) (j.toNat - 1 + (s k).2)) := by
  refine ⟨fun k => (⟨(if k.val < 4 then k.val else k.val + 1) % 3, Nat.mod_lt _ (by norm_num)⟩,
      ⟨(if k.val < 4 then k.val else k.val + 1) / 3, by
        have := k.isLt
        split <;> omega⟩), by decide, by decide, by decide, ?_⟩
  intro F obj hinit hp3 P i j hi hi' hj hj'
  obtain ⟨n, hn, hp, hdiv, -, hsq, hhalf⟩ := odd_window_side obj hinit (by omega) (by omega)
  have hn1 : n = 1 := by omega
  subst hn1
  obtain ⟨r, hr⟩ : ∃ r : Nat, i = ((1 : Nat) : Int) + r := ⟨(i - 1).toNat, by omega⟩
  obtain ⟨c, hc⟩ : ∃ c : Nat, j = ((1 : Nat) : Int) + c := ⟨(j - 1).toNat, by omega⟩
  subst hr hc
  obtain ⟨x, hx, hsize, hcoeff⟩ :=
    create_neighbors_eq obj P 1 hn obj.p hp hhalf r c (by omega) (by omega)
  refine ⟨x, by rw [hsq]; exact hx, hsize, ?_⟩
  intro k
  have e1 : (((1 : Nat) : Int) + (r : Int)).toNat - 1 = r := by omega
  have e2 : (((1 : Nat) : Int) + (c : Int)).toNat - 1 = c := by omega
  rw [hcoeff, e1, e2]
  have hk := k.isLt
  by_cases hk4 : k.val < 4
  · simp [hk4]
  · have : k.val < 4 + 2 * (1 * 1 + 1) := by omega
    simp [hk4, this]

/-- C6, concrete instance: the fixed map of C6 read off the `3 x 3` window with entries
`10 i + j`. -/
theorem create_neighbors_three_fixed_permutation_witness :
    ∃ s : Fin 8 → Fin 3 × Fin 3, Function.Injective s ∧ (∀ k, s k ≠ (1, 1)) ∧
      ∃ x, create_neighbors (Example.object 1 1 3 (fun _ _ => (11 : Int)) (fun _ _ => 1) 30) Example.window3 1 1 3 9 = some x ∧
        x.size = 8 ∧
        ∀ k : Fin 8, x.coeff k = some (Example.window3.coeff (0 + (s k).1) (0 + (s k).2)) := by
  obtain ⟨s, hinj, hcentre, -, h⟩ := create_neighbors_three_fixed_permutation
  exact ⟨s, hinj, hcentre, h Int (Example.object 1 1 3 (fun _ _ => (11 : Int)) (fun _ _ => 1) 30)
    ⟨rfl, rfl, rfl, rfl, rfl, rfl, rfl, rfl⟩ rfl Example.window3 1 1
    (by decide) (by decide) (by decide) (by decide)⟩

/-! ## Variance mask formula: C7 -/

/-- C7. For every odd `p >= 3` and every padded array of the padded dimensions (in
particular the zero-padded copy of the image), `compute_NVF_mask` produces a
`rows x cols` array with `m_nvf(i, j) = 1 - 1 / (1 + v(i, j))`, where `v(i, j)` is the sum
over the `p^2` cells of the window centred at pixel `(i, j)`, i.e. at the padded cell
`(i + pad, j + pad)`, of the squared deviation from the mean of those `p^2` cells,
divided by `p^2 - 1`. -/
theorem compute_NVF_mask_formula {F : Type} [LinearOrderedField F] (obj : WatermarkFunctions F)
    (hm : obj.DataModel) (hodd : obj.p % 2 = 1) (h3 : 3 ≤ obj.p) (image padded : ArrayXX F)
    (hr : (padded.rows : Int) = obj.padded_rows) (hc : (padded.cols : Int) = obj.padded_cols) :
    ∃ m, compute_NVF_mask obj image padded = some m ∧ m.rows = obj.rows ∧ m.cols = obj.cols ∧
      ∀ i < obj.rows, ∀ j < obj.cols,
        m.coeff i j =
          1 - 1 / (1 + Spec.window_variance padded obj.p.toNat (i + obj.pad.toNat)
            (j + obj.pad.toNat)) := by
  obtain ⟨n, hn, hp, -, htdiv, hsq, -⟩ := odd_window_side obj hm.1 hodd (by omega)
  have hpad : obj.pad = n := by rw [hm.2, htdiv]
  have hpn : obj.p.toNat = 2 * n + 1 := by omega
  rw [hpn, hpad, Int.toNat_ofNat]
  apply compute_NVF_mask_eq obj image padded n hn hp hpad hsq
  · have := hm.1.padded_rows_eq
    omega
  · have := hm.1.padded_cols_eq
    omega

/-- C7, witness: the `1 x 1` image of value 3 with `p = 3` and its zero-padded copy. -/
theorem compute_NVF_mask_formula_witness :
    ∃ m, compute_NVF_mask (Example.object 1 1 3 (fun _ _ => (3 : ℚ)) (fun _ _ => 1) 30) ⟨1, 1, fun _ _ => 3⟩
        (Spec.zero_padded 1 ⟨1, 1, fun _ _ => 3⟩) = some m ∧ m.rows = 1 ∧ m.cols = 1 ∧
      ∀ i < 1, ∀ j < 1, m.coeff i j =
        1 - 1 / (1 + Spec.window_variance (Spec.zero_padded 1 ⟨1, 1, fun _ _ => (3 : ℚ)⟩) 3
          (i + 1) (j + 1)) :=
  compute_NVF_mask_formula (Example.object 1 1 3 (fun _ _ => (3 : ℚ)) (fun _ _ => 1) 30)
    ⟨⟨rfl, rfl, rfl, rfl, rfl, rfl, rfl, rfl⟩, rfl⟩ (by decide) (by decide)
    ⟨1, 1, fun _ _ => 3⟩ (Spec.zero_padded 1 ⟨1, 1, fun _ _ => 3⟩) (by decide) (by decide)

/-! ## Embedded energy: C1 -/

theorem real_sqrt_spec (x : ℝ) (hx : 0 ≤ x) : 0 ≤ Real.sqrt x ∧ Real.sqrt x * Real.sqrt x = x :=
  ⟨Real.sqrt_nonneg x, Real.mul_self_sqrt hx⟩

/-- The variance of the window around the only pixel of a `1 x 1` image of value 3. -/
theorem window_variance_one_pixel {F : Type} [LinearOrderedField F] :
    Spec.window_variance (Spec.zero_padded 1 (⟨1, 1, fun _ _ => 3⟩ : ArrayXX F)) (2 * 1 + 1)
      (0 + 1) (0 + 1) = 1 := by
  simp [Spec.window_variance, Spec.window_mean, Spec.zero_padded, Finset.sum_range_succ]
  norm_num

/-- The variance of the window around the corner pixel of a flat `17 x 17` image of
value 3. -/
theorem window_variance_corner {F : Type} [LinearOrderedField F] :
    Spec.window_variance (Spec.zero_padded 1 (⟨17, 17, fun _ _ => 3⟩ : ArrayXX F)) (2 * 1 + 1)
      (0 + 1) (0 + 1) = 5 / 2 := by
  simp [Spec.window_variance, Spec.window_mean, Spec.zero_padded, Finset.sum_range_succ]
  norm_num

/-- C1. In exact real arithmetic (`std::sqrt` the real square root, `std::pow` the real
power), for every image, reference pattern, target psnr and either masking model such
that `u = mask * W` is not identically zero, `make_and_add_watermark` returns an array
`Y` of the image's dimensions with
`(1 / (rows * cols)) * sum (Y - image)^2 = 255^2 / 10^(psnr / 10)`, so that the PSNR
reconstructed from the embedded energy, `10 * log10 (255^2 / MSE)`, is the requested
psnr. -/
theorem embedded_energy_matches_psnr (rt : Runtime ℝ) (hs : rt.sqrt = Real.sqrt)
    (hp : rt.pow = fun b e => b ^ e) (obj : WatermarkFunctions ℝ) (hinit : obj.Initialised)
    (model : Bool) (u : ArrayXX ℝ) (hu : watermark_pattern rt obj model = some u)
    (hnz : ∃ i < obj.rows, ∃ j < obj.cols, u.coeff i j ≠ 0) :
    ∃ Y, make_and_add_watermark rt obj model = some Y ∧ Y.rows = obj.rows ∧
      Y.cols = obj.cols ∧
      1 / ((obj.rows * obj.cols : Nat) : ℝ) *
          (∑ i in range obj.rows, ∑ j in range obj.cols,
            (Y.coeff i j - obj.image.coeff i j) ^ 2) = 255 ^ 2 / (10 : ℝ) ^ (obj.psnr / 10) ∧
      10 * Real.logb 10 (255 ^ 2 / (1 / ((obj.rows * obj.cols : Nat) : ℝ) *
          (∑ i in range obj.rows, ∑ j in range obj.cols,
            (Y.coeff i j - obj.image.coeff i j) ^ 2))) = obj.psnr := by
  have hsqrt : ∀ x : ℝ, 0 ≤ x → 0 ≤ rt.sqrt x ∧ rt.sqrt x * rt.sqrt x = x := by
    rw [hs]; exact real_sqrt_spec
  have hpow10 : rt.pow 10 (obj.psnr / 10) = (10 : ℝ) ^ (obj.psnr / 10) := by rw [hp]
  have hpos : (0 : ℝ) < (10 : ℝ) ^ (obj.psnr / 10) := Real.rpow_pos_of_pos (by norm_num) _
  obtain ⟨a, -, ha, hY⟩ := make_and_add_watermark_of rt hsqrt obj hinit (by rw [hpow10]; exact hpos)
    model u hu hnz
  obtain ⟨hur, huc⟩ := watermark_pattern_dims hu
  rw [hinit.w_rows] at hur
  rw [hinit.w_cols] at huc
  obtain ⟨i0, hi0, j0, hj0, -⟩ := hnz
  have hN : (0 : ℝ) < ((obj.rows * obj.cols : Nat) : ℝ) := by
    have : 0 < obj.rows * obj.cols := Nat.mul_pos (by omega) (by omega)
    exact_mod_cast this
  have hmse : 1 / ((obj.rows * obj.cols : Nat) : ℝ) *
      (∑ i in range obj.rows, ∑ j in range obj.cols,
        ((obj.image.coeff i j + a * u.coeff i j) - obj.image.coeff i j) ^ 2) =
      255 ^ 2 / (10 : ℝ) ^ (obj.psnr / 10) := by
    have hsum : (∑ i in range obj.rows, ∑ j in range obj.cols,
        ((obj.image.coeff i j + a * u.coeff i j) - obj.image.coeff i j) ^ 2) =
        a ^ 2 * (u.map fun x => x ^ 2).sum := by
      unfold ArrayXX.sum ArrayXX.map
      simp only [hur, huc]
      rw [Finset.sum_comm, Finset.mul_sum]
      apply Finset.sum_congr rfl
      intro j _
      rw [Finset.mul_sum]
      apply Finset.sum_congr rfl
      intro i _
      ring
    rw [hsum, ha, hpow10]
    have hN' := ne_of_gt hN
    have hpos' := ne_of_gt hpos
    generalize ((obj.rows * obj.cols : Nat) : ℝ) = N at hN' ⊢
    field_simp
  refine ⟨_, hY, hinit.rows_eq.symm, hinit.cols_eq.symm, hmse, ?_⟩
  simp only []
  rw [hmse]
  have h255 : (255 : ℝ) ^ 2 ≠ 0 := by norm_num
  rw [div_div_cancel₀ h255, Real.logb_rpow (by norm_num) (by norm_num)]
  ring

/-- C1, witness: the `1 x 1` image of value 3, reference pattern 1, `p = 3`, a target of
20 dB and the variance model, whose pattern `u` is `1 / 2`. -/
theorem embedded_energy_matches_psnr_witness :
    ∃ Y, make_and_add_watermark (Example.runtime Real.sqrt fun b e => b ^ e)
        (Example.object 1 1 3 (fun _ _ => (3 : ℝ)) (fun _ _ => 1) 20) true = some Y ∧
      Y.rows = 1 ∧ Y.cols = 1 ∧
      1 / ((1 * 1 : Nat) : ℝ) * (∑ i in range 1, ∑ j in range 1, (Y.coeff i j - 3) ^ 2) =
        255 ^ 2 / (10 : ℝ) ^ ((20 : ℝ) / 10) ∧
      10 * Real.logb 10 (255 ^ 2 / (1 / ((1 * 1 : Nat) : ℝ) *
        (∑ i in range 1, ∑ j in range 1, (Y.coeff i j - 3) ^ 2))) = 20 := by
  obtain ⟨m, u, -, -, hu, -, -, hm, hucoeff⟩ :=
    watermark_pattern_NVF (Example.runtime Real.sqrt fun b e => b ^ e)
      (Example.object 1 1 3 (fun _ _ => (3 : ℝ)) (fun _ _ => 1) 20)
      ⟨rfl, rfl, rfl, rfl, rfl, rfl, rfl, rfl⟩ 1 (le_refl 1) (by norm_num [Example.object])
      (by simp [Example.object])
  have hne : u.coeff 0 0 ≠ 0 := by
    rw [hucoeff, hm 0 (by decide) 0 (by decide)]
    have := @window_variance_one_pixel ℝ _
    simp only [Example.object] at this ⊢
    rw [this]
    norm_num
  exact embedded_energy_matches_psnr (Example.runtime Real.sqrt fun b e => b ^ e) rfl rfl
    (Example.object 1 1 3 (fun _ _ => (3 : ℝ)) (fun _ _ => 1) 20)
    ⟨rfl, rfl, rfl, rfl, rfl, rfl, rfl, rfl⟩ true u hu ⟨0, by decide, 0, by decide, hne⟩

/-! ## Flat images: C9, C10 -/

/-- The variance mask of a flat image: zero wherever the window lies inside the image,
and everywhere when the constant is zero. -/
theorem flat_mask {F : Type} [LinearOrderedField F] (obj : WatermarkFunctions F)
    (n : Nat) (c : F) (hr : obj.image.rows = obj.rows) (hc : obj.image.cols = obj.cols)
    (hflat : ∀ i < obj.rows, ∀ j < obj.cols, obj.image.coeff i j = c) (m : ArrayXX F)
    (hm : ∀ i < obj.rows, ∀ j < obj.cols, m.coeff i j =
      1 - 1 / (1 + Spec.window_variance (Spec.zero_padded n obj.image) (2 * n + 1)
        (i + n) (j + n))) :
    (∀ i j, n ≤ i → i + n < obj.rows → n ≤ j → j + n < obj.cols → m.coeff i j = 0) ∧
      (c = 0 → ∀ i < obj.rows, ∀ j < obj.cols, m.coeff i j = 0) := by
  constructor
  · intro i j hi hi' hj hj'
    rw [hm i (by omega) j (by omega), window_variance_const _ _ _ _ (by omega) c]
    · norm_num
    · intro a ha b hb
      exact zero_padded_flat_interior obj.image n c (by rw [hr, hc]; exact hflat) i j hi
        (by omega) hj (by omega) a b ha hb
  · intro hc0 i hi j hj
    rw [hm i hi j hj, window_variance_const _ _ _ _ (by omega) 0]
    · norm_num
    · intro a _ b _
      exact zero_padded_zero obj.image n (by rw [hr, hc, ← hc0]; exact hflat) _ _

/-- The embedder on an image of zeros under the variance model: the pattern is zero and
the divisor `rms(u)` is zero. -/
theorem make_and_add_watermark_zero_image {F : Type} [LinearOrderedField F] (rt : Runtime F)
    (hsqrt : ∀ x : F, 0 ≤ x → 0 ≤ rt.sqrt x ∧ rt.sqrt x * rt.sqrt x = x)
    (obj : WatermarkFunctions F) (hinit : obj.Initialised) (n : Nat) (hn : 1 ≤ n)
    (hp : obj.p = 2 * n + 1) (hpad : obj.pad = n)
    (hflat : ∀ i < obj.rows, ∀ j < obj.cols, obj.image.coeff i j = 0) :
    make_and_add_watermark rt obj true = none := by
  obtain ⟨m, u, -, -, hu, hur, huc, hmcoeff, hucoeff⟩ :=
    watermark_pattern_NVF rt obj hinit n hn hp hpad
  apply make_and_add_watermark_zero rt hsqrt obj true u hu
  intro i hi j hj
  rw [hur] at hi
  rw [huc] at hj
  rw [hucoeff, (flat_mask obj n 0 hinit.rows_eq.symm hinit.cols_eq.symm hflat m hmcoeff).2 rfl
    i hi j hj, zero_mul]

/-- C9, counterexample. For the flat `17 x 17` image of value 3 and `p = 3` the variance
mask of the corner pixel `(0, 0)` is `5 / 7`, not 0: its window holds four image cells
and five border zeros. -/
theorem flat_image_mask_counterexample :
    ∃ padded m, padded_of (Example.object 17 17 3 (fun _ _ => (3 : ℚ)) Example.checkerboard 30)
        ⟨17, 17, fun _ _ => 3⟩ = some padded ∧
      compute_NVF_mask (Example.object 17 17 3 (fun _ _ => (3 : ℚ)) Example.checkerboard 30)
        ⟨17, 17, fun _ _ => 3⟩ padded = some m ∧
      m.coeff 0 0 = 5 / 7 ∧ m.coeff 0 0 ≠ 0 := by
  obtain ⟨m, hP, hm, -, -, hmcoeff⟩ :=
    compute_NVF_mask_zero_padded
      (Example.object 17 17 3 (fun _ _ => (3 : ℚ)) Example.checkerboard 30)
      ⟨rfl, rfl, rfl, rfl, rfl, rfl, rfl, rfl⟩ 1 (le_refl 1) (by norm_num [Example.object])
      (by simp [Example.object])
  have h00 : m.coeff 0 0 = 5 / 7 := by
    rw [hmcoeff 0 (by decide) 0 (by decide)]
    have := @window_variance_corner ℚ _
    simp only [Example.object] at this ⊢
    rw [this]
    norm_num
  exact ⟨_, m, hP, hm, h00, by rw [h00]; norm_num⟩

/-- C9, amended. For every flat image (all pixels equal to a constant `c`) and every odd
`p >= 3`, the variance mask computed on the image and its zero-padded copy is 0 at every
pixel whose window lies inside the image (at least `(p - 1) / 2` from every edge of the
image), and at every pixel when `c = 0`. -/
theorem flat_image_mask_interior {F : Type} [LinearOrderedField F]
    (obj : WatermarkFunctions F) (hm : obj.DataModel) (hodd : obj.p % 2 = 1) (h3 : 3 ≤ obj.p)
    (c : F) (hflat : ∀ i < obj.rows, ∀ j < obj.cols, obj.image.coeff i j = c) :
    ∃ padded m, padded_of obj obj.image = some padded ∧
      compute_NVF_mask obj obj.image padded = some m ∧
      (∀ i j, obj.pad.toNat ≤ i → i + obj.pad.toNat < obj.rows →
        obj.pad.toNat ≤ j → j + obj.pad.toNat < obj.cols → m.coeff i j = 0) ∧
      (c = 0 → ∀ i < obj.rows, ∀ j < obj.cols, m.coeff i j = 0) := by
  obtain ⟨n, hn, hp, -, htdiv, -, -⟩ := odd_window_side obj hm.1 hodd (by omega)
  have hpad : obj.pad = n := by rw [hm.2, htdiv]
  obtain ⟨m, hP, hmask, -, -, hmcoeff⟩ := compute_NVF_mask_zero_padded obj hm.1 n hn hp hpad
  rw [hpad, Int.toNat_ofNat]
  exact ⟨_, m, hP, hmask,
    flat_mask obj n c hm.1.rows_eq.symm hm.1.cols_eq.symm hflat m hmcoeff⟩

/-- C9, witness: the flat `17 x 17` image of value 3 with `p = 3`. -/
theorem flat_image_mask_interior_witness :
    ∃ padded m, padded_of (Example.object 17 17 3 (fun _ _ => (3 : ℚ)) Example.checkerboard 30)
        ⟨17, 17, fun _ _ => 3⟩ = some padded ∧
      compute_NVF_mask (Example.object 17 17 3 (fun _ _ => (3 : ℚ)) Example.checkerboard 30)
        ⟨17, 17, fun _ _ => 3⟩ padded = some m ∧
      (∀ i j, 1 ≤ i → i + 1 < 17 → 1 ≤ j → j + 1 < 17 → m.coeff i j = 0) ∧
      ((3 : ℚ) = 0 → ∀ i < 17, ∀ j < 17, m.coeff i j = 0) :=
  flat_image_mask_interior (Example.object 17 17 3 (fun _ _ => (3 : ℚ)) Example.checkerboard 30)
    ⟨⟨rfl, rfl, rfl, rfl, rfl, rfl, rfl, rfl⟩, rfl⟩ (by decide) (by decide) 3
    (fun _ _ _ _ => rfl)

/-- C10, counterexample. Under the variance model with `p = 3`, a 30 dB target and the
alternating-sign pattern: for the all-zero `17 x 17` image the scale computation divides
by `rms(u) = 0` and no array of numbers is returned; for the flat `17 x 17` image of
value 3 an array is returned whose corner pixel differs from 3. -/
theorem flat_image_embedding_counterexample :
    make_and_add_watermark (Example.runtime Real.sqrt fun b e => b ^ e)
        (Example.object 17 17 3 (fun _ _ => (0 : ℝ)) Example.checkerboard 30) true = none ∧
      ∃ Y, make_and_add_watermark (Example.runtime Real.sqrt fun b e => b ^ e)
          (Example.object 17 17 3 (fun _ _ => (3 : ℝ)) Example.checkerboard 30) true = some Y ∧
        Y.coeff 0 0 ≠ 3 := by
  constructor
  · exact make_and_add_watermark_zero_image _ real_sqrt_spec _
      ⟨rfl, rfl, rfl, rfl, rfl, rfl, rfl, rfl⟩ 1 (le_refl 1) rfl rfl (fun _ _ _ _ => rfl)
  · obtain ⟨m, u, -, -, hu, -, -, hmcoeff, hucoeff⟩ :=
      watermark_pattern_NVF (Example.runtime Real.sqrt fun b e => b ^ e)
        (Example.object 17 17 3 (fun _ _ => (3 : ℝ)) Example.checkerboard 30)
        ⟨rfl, rfl, rfl, rfl, rfl, rfl, rfl, rfl⟩ 1 (le_refl 1) (by norm_num [Example.object])
        (by simp [Example.object])
    have hne : u.coeff 0 0 ≠ 0 := by
      rw [hucoeff, hmcoeff 0 (by decide) 0 (by decide)]
      have := @window_variance_corner ℝ _
      simp only [Example.object] at this ⊢
      rw [this]
      norm_num [Example.checkerboard]
    obtain ⟨a, ha, -, hY⟩ := make_and_add_watermark_of
      (Example.runtime Real.sqrt fun b e => b ^ e) real_sqrt_spec
      (Example.object 17 17 3 (fun _ _ => (3 : ℝ)) Example.checkerboard 30)
      ⟨rfl, rfl, rfl, rfl, rfl, rfl, rfl, rfl⟩
      (Real.rpow_pos_of_pos (by norm_num) _) true u hu ⟨0, by decide, 0, by decide, hne⟩
    refine ⟨_, hY, ?_⟩
    show (3 : ℝ) + a * u.coeff 0 0 ≠ 3
    intro h
    have : a * u.coeff 0 0 = 0 := by linarith
    rcases mul_eq_zero.mp this with h' | h'
    · exact (ne_of_gt ha) h'
    · exact hne h'

/-- C10, amended. For every flat image, under the variance model: the pattern
`u = mask * W` is 0 at every pixel whose window lies inside the image; when `u` is not
identically zero the scale is well defined and the returned array equals the input
image at every such pixel; when `u` is identically zero, in particular when the constant
of the image is 0, the divisor `rms(u)` is 0 and no array of numbers is returned. -/
theorem flat_image_embedding {F : Type} [LinearOrderedField F] (rt : Runtime F)
    (hsqrt : ∀ x : F, 0 ≤ x → 0 ≤ rt.sqrt x ∧ rt.sqrt x * rt.sqrt x = x)
    (obj : WatermarkFunctions F) (hpow : 0 < rt.pow 10 (obj.psnr / 10))
    (hm : obj.DataModel) (hodd : obj.p % 2 = 1) (h3 : 3 ≤ obj.p)
    (c : F) (hflat : ∀ i < obj.rows, ∀ j < obj.cols, obj.image.coeff i j = c) :
    ∃ u, watermark_pattern rt obj true = some u ∧
      (∀ i j, obj.pad.toNat ≤ i → i + obj.pad.toNat < obj.rows →
        obj.pad.toNat ≤ j → j + obj.pad.toNat < obj.cols → u.coeff i j = 0) ∧
      ((∃ i < obj.rows, ∃ j < obj.cols, u.coeff i j ≠ 0) →
        ∃ Y, make_and_add_watermark rt obj true = some Y ∧
          ∀ i j, obj.pad.toNat ≤ i → i + obj.pad.toNat < obj.rows →
            obj.pad.toNat ≤ j → j + obj.pad.toNat < obj.cols →
              Y.coeff i j = obj.image.coeff i j) ∧
      ((∀ i < obj.rows, ∀ j < obj.cols, u.coeff i j = 0) →
        make_and_add_watermark rt obj true = none) ∧
      (c = 0 → make_and_add_watermark rt obj true = none) := by
  obtain ⟨n, hn, hp, -, htdiv, -, -⟩ := odd_window_side obj hm.1 hodd (by omega)
  have hpad : obj.pad = n := by rw [hm.2, htdiv]
  obtain ⟨m, u, -, -, hu, hur, huc, hmcoeff, hucoeff⟩ :=
    watermark_pattern_NVF rt obj hm.1 n hn hp hpad
  obtain ⟨hint, hzero⟩ := flat_mask obj n c hm.1.rows_eq.symm hm.1.cols_eq.symm hflat m hmcoeff
  rw [hpad, Int.toNat_ofNat]
  have huint : ∀ i j, n ≤ i → i + n < obj.rows → n ≤ j → j + n < obj.cols → u.coeff i j = 0 := by
    intro i j hi hi' hj hj'
    rw [hucoeff, hint i j hi hi' hj hj', zero_mul]
  refine ⟨u, hu, huint, ?_, ?_, ?_⟩
  · intro hnz
    obtain ⟨a, -, -, hY⟩ := make_and_add_watermark_of rt hsqrt obj hm.1 hpow true u hu hnz
    refine ⟨_, hY, ?_⟩
    intro i j hi hi' hj hj'
    show obj.image.coeff i j + a * u.coeff i j = obj.image.coeff i j
    rw [huint i j hi hi' hj hj']
    ring
  · intro hz
    apply make_and_add_watermark_zero rt hsqrt obj true u hu
    rw [hur, huc]
    exact hz
  · intro hc0
    apply make_and_add_watermark_zero rt hsqrt obj true u hu
    rw [hur, huc]
    intro i hi j hj
    rw [hucoeff, hzero hc0 i hi j hj, zero_mul]

/-- C10, witness: the flat `17 x 17` image of value 3 with `p = 3` and a 30 dB target. -/
theorem flat_image_embedding_witness :
    ∃ u, watermark_pattern (Example.runtime Real.sqrt fun b e => b ^ e)
        (Example.object 17 17 3 (fun _ _ => (3 : ℝ)) Example.checkerboard 30) true = some u ∧
      (∀ i j, 1 ≤ i → i + 1 < 17 → 1 ≤ j → j + 1 < 17 → u.coeff i j = 0) ∧
      ((∃ i < 17, ∃ j < 17, u.coeff i j ≠ 0) →
        ∃ Y, make_and_add_watermark (Example.runtime Real.sqrt fun b e => b ^ e)
            (Example.object 17 17 3 (fun _ _ => (3 : ℝ)) Example.checkerboard 30) true = some Y ∧
          ∀ i j, 1 ≤ i → i + 1 < 17 → 1 ≤ j → j + 1 < 17 → Y.coeff i j = 3) ∧
      ((∀ i < 17, ∀ j < 17, u.coeff i j = 0) →
        make_and_add_watermark (Example.runtime Real.sqrt fun b e => b ^ e)
          (Example.object 17 17 3 (fun _ _ => (3 : ℝ)) Example.checkerboard 30) true = none) ∧
      ((3 : ℝ) = 0 →
        make_and_add_watermark (Example.runtime Real.sqrt fun b e => b ^ e)
          (Example.object 17 17 3 (fun _ _ => (3 : ℝ)) Example.checkerboard 30) true = none) :=
  flat_image_embedding (Example.runtime Real.sqrt fun b e => b ^ e) real_sqrt_spec
    (Example.object 17 17 3 (fun _ _ => (3 : ℝ)) Example.checkerboard 30)
    (Real.rpow_pos_of_pos (by norm_num) _)
    ⟨⟨rfl, rfl, rfl, rfl, rfl, rfl, rfl, rfl⟩, rfl⟩ (by decide) (by decide) 3
    (fun _ _ _ _ => rfl)

/-! ## Detector and masks: C2, C3, C8 -/

/-- The prediction-error engine on a `1 x 1` image of value `z`, `p = 3`: the error
sequence is `z`. -/
theorem prediction_error_one_pixel {F : Type} [LinearOrderedField F] (rt : Runtime F)
    (hsched : rt.omp_get_thread_num 1 = 0) (x w psnr z : F) :
    ∃ m0 e c, compute_prediction_error_mask rt
        (Example.object 1 1 3 (fun _ _ => x) (fun _ _ => w) psnr) ⟨1, 1, fun _ _ => z⟩
        (Spec.zero_padded 1 ⟨1, 1, fun _ _ => z⟩) false = some (m0, e, c) ∧
      e.coeff 0 0 = z := by
  have hX : ∀ i < 1, ∀ j < 1, neighborhood
      (Example.object 1 1 3 (fun _ _ => x) (fun _ _ => w) psnr)
      (Spec.zero_padded 1 ⟨1, 1, fun _ _ => z⟩) i j =
      some (neighborhood_three (Spec.zero_padded 1 (⟨1, 1, fun _ _ => z⟩ : ArrayXX F)) i j) := by
    intro i hi j hj
    apply neighborhood_eq_three _ rfl rfl rfl rfl
    · show i + 2 < 1 + 2 * 1
      omega
    · show j + 2 < 1 + 2 * 1
      omega
  have hcpem := compute_prediction_error_mask_of rt
    (Example.object 1 1 3 (fun _ _ => x) (fun _ _ => w) psnr) ⟨1, 1, fun _ _ => z⟩
    (Spec.zero_padded 1 ⟨1, 1, fun _ _ => z⟩) _ (by show (0 : Int) ≤ 3 * 3 - 1; decide) hX
    (by show (0 : Int) ≤ 1; decide) (by
      intro r hr
      have hr0 : r = 0 := Nat.lt_one_iff.mp hr
      subst hr0
      show rt.omp_get_thread_num (1 + 0) < 1
      rw [show ((1 : Int) + 0) = 1 from rfl, hsched]
      exact Nat.zero_lt_one) (le_refl _) (le_refl _) false
  obtain ⟨E, hE, -, -, hEcoeff⟩ := compute_error_sequence_of
    (Example.object 1 1 3 (fun _ _ => x) (fun _ _ => w) psnr) ⟨1, 1, fun _ _ => z⟩
    (Spec.zero_padded 1 ⟨1, 1, fun _ _ => z⟩)
    (Spec.fit rt (Example.object 1 1 3 (fun _ _ => x) (fun _ _ => w) psnr) ⟨1, 1, fun _ _ => z⟩
      fun i j => neighborhood_three (Spec.zero_padded 1 (⟨1, 1, fun _ _ => z⟩ : ArrayXX F)) i j)
    _ hX rfl Nat.zero_lt_one (le_refl _) (le_refl _)
  rw [hE, Option.some_bind] at hcpem
  refine ⟨_, E, _, hcpem, ?_⟩
  rw [hEcoeff 0 Nat.zero_lt_one 0 Nat.zero_lt_one]
  exact residual_of_zero _ _ _ 0 0 (neighborhood_three_one_pixel _ rfl rfl)

/-- C2. For every received image `Z` of the constructed dimensions and either masking
model, `mask_detector` returns `dot(e_z, e_u) / (norm(e_z) * norm(e_u))` with `e_z`, `e_u`
the residual fields of the specification: the coefficients `c` are fit on `Z`,
`e_z = Z - c . neighborhood_Z`, `u = mask * W` with the variance mask of `Z` or
`|e_z| / max |e_z|`, and `e_u = u - c . neighborhood_u` on the zero-padded `u` with the
same `c`. Both sides have a value for the same inputs. -/
theorem mask_detector_refines_spec {F : Type} [LinearOrderedField F] (rt : Runtime F)
    (obj : WatermarkFunctions F) (hm : obj.DataModel) (hodd : obj.p % 2 = 1) (h3 : 3 ≤ obj.p)
    (Z : ArrayXX F) (hZr : Z.rows = obj.rows) (hZc : Z.cols = obj.cols)
    (hthr : 0 ≤ obj.num_threads)
    (hsched : ∀ r < obj.rows, rt.omp_get_thread_num ((obj.pad : Int) + r) < obj.num_threads.toNat)
    (model : Bool) :
    mask_detector rt obj Z model = Spec.detector_score rt obj Z model := by
  obtain ⟨n, hn, hp, -, htdiv, -, -⟩ := odd_window_side obj hm.1 hodd (by omega)
  have hpad : obj.pad = n := by rw [hm.2, htdiv]
  unfold mask_detector Spec.detector_score
  rcases detector_fields_refine rt obj hm.1 n hn hp hpad Z hZr hZc hthr hsched model with
    ⟨h1, h2⟩ | ⟨e, e', h1, h2, hs1, hs2⟩
  · rw [h1, h2]
    rfl
  · obtain ⟨d1, d2, d3, d4⟩ := detector_error_sequences_dims h1
    rw [h1, h2, Option.some_bind, Option.some_bind]
    exact correlation_congr rt e.1 e.2 e'.1 e'.2 obj.rows obj.cols d1 d2 d3 d4 hs1 hs2

/-- C2, witness: the `1 x 1` image of value 3, reference pattern 1, `p = 3`, variance
model; there the score has a value. -/
theorem mask_detector_refines_spec_witness :
    mask_detector (Example.runtime Real.sqrt fun b e => b ^ e)
        (Example.object 1 1 3 (fun _ _ => (3 : ℝ)) (fun _ _ => 1) 20) ⟨1, 1, fun _ _ => 3⟩ true =
      Spec.detector_score (Example.runtime Real.sqrt fun b e => b ^ e)
        (Example.object 1 1 3 (fun _ _ => (3 : ℝ)) (fun _ _ => 1) 20) ⟨1, 1, fun _ _ => 3⟩
        true ∧
    ∃ s, mask_detector (Example.runtime Real.sqrt fun b e => b ^ e)
        (Example.object 1 1 3 (fun _ _ => (3 : ℝ)) (fun _ _ => 1) 20) ⟨1, 1, fun _ _ => 3⟩ true =
      some s := by
  refine ⟨mask_detector_refines_spec (Example.runtime Real.sqrt fun b e => b ^ e)
    (Example.object 1 1 3 (fun _ _ => (3 : ℝ)) (fun _ _ => 1) 20)
    ⟨⟨rfl, rfl, rfl, rfl, rfl, rfl, rfl, rfl⟩, rfl⟩ (by decide) (by decide)
    ⟨1, 1, fun _ _ => 3⟩ rfl rfl (by decide) (fun _ _ => Nat.zero_lt_one) true, ?_⟩
  obtain ⟨e_z, e_u, he, hz, hu⟩ := detector_one_pixel
    (Example.runtime Real.sqrt fun b e => b ^ e) rfl (3 : ℝ) 1 20 ⟨1, 1, fun _ _ => 3⟩ rfl rfl
    (by norm_num) true
  obtain ⟨d1, d2, d3, d4⟩ := detector_error_sequences_dims he
  obtain ⟨s, hs, -⟩ := (correlation_spec (Example.runtime Real.sqrt fun b e => b ^ e)
    real_sqrt_spec e_z e_u (by rw [d1, d3]) (by rw [d2, d4])).1
    ⟨0, by rw [d1]; exact Nat.zero_lt_one, 0, by rw [d2]; exact Nat.zero_lt_one,
      by rw [hz]; norm_num⟩
    ⟨0, by rw [d3]; exact Nat.zero_lt_one, 0, by rw [d4]; exact Nat.zero_lt_one,
      by rw [hu]; norm_num⟩
  refine ⟨s, ?_⟩
  unfold mask_detector
  rw [he, Option.some_bind]
  exact hs

/-- C3, counterexample. For the all-zero `17 x 17` received image (`p = 3`, the
alternating-sign pattern) the residual field `e_z` is zero, the quotient is `0 / 0` and
`mask_detector` returns no score, under either model. -/
theorem mask_detector_zero_image_counterexample :
    mask_detector (Example.runtime Real.sqrt fun b e => b ^ e)
        (Example.object 17 17 3 (fun _ _ => (0 : ℝ)) Example.checkerboard 30)
        ⟨17, 17, fun _ _ => 0⟩ true = none ∧
      mask_detector (Example.runtime Real.sqrt fun b e => b ^ e)
        (Example.object 17 17 3 (fun _ _ => (0 : ℝ)) Example.checkerboard 30)
        ⟨17, 17, fun _ _ => 0⟩ false = none :=
  ⟨mask_detector_zero_image _ real_sqrt_spec _ ⟨rfl, rfl, rfl, rfl, rfl, rfl, rfl, rfl⟩ 1 rfl _
      rfl rfl (fun _ _ _ _ => rfl) true,
    mask_detector_zero_image _ real_sqrt_spec _ ⟨rfl, rfl, rfl, rfl, rfl, rfl, rfl, rfl⟩ 1 rfl _
      rfl rfl (fun _ _ _ _ => rfl) false⟩

/-- C3, amended. For every received image, reference pattern and model for which the
detector obtains the residual fields `e_z` and `e_u`: when neither field is identically
zero `mask_detector` returns a score in the closed interval `[-1, 1]` (Cauchy-Schwarz);
when one of them is identically zero the quotient is `0 / 0` and no score is
returned. -/
theorem mask_detector_score_bounds {F : Type} [LinearOrderedField F] (rt : Runtime F)
    (hsqrt : ∀ x : F, 0 ≤ x → 0 ≤ rt.sqrt x ∧ rt.sqrt x * rt.sqrt x = x)
    (obj : WatermarkFunctions F) (Z : ArrayXX F) (model : Bool) (e_z e_u : ArrayXX F)
    (he : detector_error_sequences rt obj Z model = some (e_z, e_u)) :
    ((∃ i < obj.rows, ∃ j < obj.cols, e_z.coeff i j ≠ 0) →
      (∃ i < obj.rows, ∃ j < obj.cols, e_u.coeff i j ≠ 0) →
        ∃ s, mask_detector rt obj Z model = some s ∧ -1 ≤ s ∧ s ≤ 1) ∧
    (((∀ i < obj.rows, ∀ j < obj.cols, e_z.coeff i j = 0) ∨
      (∀ i < obj.rows, ∀ j < obj.cols, e_u.coeff i j = 0)) →
        mask_detector rt obj Z model = none) := by
  obtain ⟨d1, d2, d3, d4⟩ := detector_error_sequences_dims he
  have d1' : e_z.rows = obj.rows := d1
  have d2' : e_z.cols = obj.cols := d2
  have d3' : e_u.rows = obj.rows := d3
  have d4' : e_u.cols = obj.cols := d4
  have hcorr := correlation_spec rt hsqrt e_z e_u (by rw [d1', d3']) (by rw [d2', d4'])
  simp only [d1', d2', d3', d4'] at hcorr
  unfold mask_detector
  rw [he, Option.some_bind]
  exact hcorr

/-- C3, witness: the `1 x 1` image of value 3, reference pattern 1, `p = 3`, variance
model, where `e_z = 3` and `e_u = 1 / 2`. -/
theorem mask_detector_score_bounds_witness :
    ∃ s, mask_detector (Example.runtime Real.sqrt fun b e => b ^ e)
        (Example.object 1 1 3 (fun _ _ => (3 : ℝ)) (fun _ _ => 1) 20) ⟨1, 1, fun _ _ => 3⟩ true =
      some s ∧ -1 ≤ s ∧ s ≤ 1 := by
  obtain ⟨e_z, e_u, he, hz, hu⟩ := detector_one_pixel
    (Example.runtime Real.sqrt fun b e => b ^ e) rfl (3 : ℝ) 1 20 ⟨1, 1, fun _ _ => 3⟩ rfl rfl
    (by norm_num) true
  exact (mask_detector_score_bounds (Example.runtime Real.sqrt fun b e => b ^ e) real_sqrt_spec
    (Example.object 1 1 3 (fun _ _ => (3 : ℝ)) (fun _ _ => 1) 20) ⟨1, 1, fun _ _ => 3⟩ true
    e_z e_u he).1 ⟨0, Nat.zero_lt_one, 0, Nat.zero_lt_one, by rw [hz]; norm_num⟩
    ⟨0, Nat.zero_lt_one, 0, Nat.zero_lt_one, by rw [hu]; norm_num⟩

/-- C8, counterexample. For the all-zero `17 x 17` image (`p = 3`) every residual is
zero, so is their maximum, and `compute_prediction_error_mask` with `mask_needed` set
has no mask to return: the quotient `|error| / max |error|` is `0 / 0`. -/
theorem prediction_error_mask_counterexample :
    (padded_of (Example.object 17 17 3 (fun _ _ => (0 : ℝ)) Example.checkerboard 30)
        ⟨17, 17, fun _ _ => 0⟩).bind (fun padded =>
      compute_prediction_error_mask (Example.runtime Real.sqrt fun b e => b ^ e)
        (Example.object 17 17 3 (fun _ _ => (0 : ℝ)) Example.checkerboard 30)
        ⟨17, 17, fun _ _ => 0⟩ padded true) = none := by
  rw [padded_of_zero_padded _ _ 1 rfl rfl rfl rfl rfl, Option.some_bind]
  exact prediction_error_mask_zero_image _ _ _ _ (fun _ _ _ _ => rfl)
    (zero_padded_zero _ 1 (fun _ _ _ _ => rfl))

/-- C8, amended. For every image and odd `p >= 3`: every entry of the variance mask
produced by `compute_NVF_mask` lies in `[0, 1]`; and whenever the prediction-error
engine obtains an error sequence that is not identically zero,
`compute_prediction_error_mask` with `mask_needed` set returns the mask
`|error| / max |error|`, every entry of which lies in `[0, 1]`. When the error sequence
is identically zero the quotient is `0 / 0` and no mask is returned. -/
theorem mask_values_in_unit_interval {F : Type} [LinearOrderedField F] (rt : Runtime F)
    (obj : WatermarkFunctions F) (hm : obj.DataModel) (hodd : obj.p % 2 = 1) (h3 : 3 ≤ obj.p)
    (image padded : ArrayXX F)
    (hr : (padded.rows : Int) = obj.padded_rows) (hc : (padded.cols : Int) = obj.padded_cols) :
    (∃ m, compute_NVF_mask obj image padded = some m ∧
      ∀ i < obj.rows, ∀ j < obj.cols, 0 ≤ m.coeff i j ∧ m.coeff i j ≤ 1) ∧
    ∀ m0 e c, compute_prediction_error_mask rt obj image padded false = some (m0, e, c) →
      ((∃ i < obj.rows, ∃ j < obj.cols, e.coeff i j ≠ 0) →
        ∃ m mx, compute_prediction_error_mask rt obj image padded true = some (m, e, c) ∧
          (∀ i < obj.rows, ∀ j < obj.cols, |e.coeff i j| ≤ mx) ∧
          (∃ i < obj.rows, ∃ j < obj.cols, mx = |e.coeff i j|) ∧
          ∀ i < obj.rows, ∀ j < obj.cols,
            m.coeff i j = |e.coeff i j| / mx ∧ 0 ≤ m.coeff i j ∧ m.coeff i j ≤ 1) ∧
      ((∀ i < obj.rows, ∀ j < obj.cols, e.coeff i j = 0) →
        compute_prediction_error_mask rt obj image padded true = none) := by
  constructor
  · obtain ⟨n, hn, hp, -, htdiv, hsq, -⟩ := odd_window_side obj hm.1 hodd (by omega)
    have hpad : obj.pad = n := by rw [hm.2, htdiv]
    obtain ⟨m, hmask, -, -, hcoeff⟩ := compute_NVF_mask_eq obj image padded n hn hp hpad hsq
      (by have := hm.1.padded_rows_eq; omega) (by have := hm.1.padded_cols_eq; omega)
    refine ⟨m, hmask, ?_⟩
    intro i hi j hj
    rw [hcoeff i hi j hj]
    have hv := window_variance_nonneg padded n (i + n) (j + n)
    have h1 : (0 : F) < 1 + Spec.window_variance padded (2 * n + 1) (i + n) (j + n) := by
      linarith
    have h2 : 1 / (1 + Spec.window_variance padded (2 * n + 1) (i + n) (j + n)) ≤ 1 := by
      rw [div_le_one h1]
      linarith
    have h3 : 0 ≤ 1 / (1 + Spec.window_variance padded (2 * n + 1) (i + n) (j + n)) :=
      div_nonneg zero_le_one (le_of_lt h1)
    constructor <;> linarith
  · intro m0 e c he
    have hmask := compute_prediction_error_mask_true rt obj image padded
    rw [he, Option.some_bind] at hmask
    obtain ⟨d1, d2, -⟩ := compute_error_sequence_eq_some (compute_prediction_error_mask_false he)
    have d1' : e.rows = obj.rows := d1
    have d2' : e.cols = obj.cols := d2
    have hspec := abs_over_max_spec e
    rw [d1', d2'] at hspec
    constructor
    · intro hnz
      obtain ⟨m, mx, hm', -, -, -, hle, hatt, hmcoeff, hbound⟩ := hspec.1 hnz
      refine ⟨m, mx, ?_, hle, hatt, ?_⟩
      · rw [hmask]
        show (abs_over_max e).bind _ = _
        rw [hm', Option.some_bind]
      · intro i hi j hj
        exact ⟨hmcoeff i j, hbound i hi j hj⟩
    · intro hz
      rw [hmask]
      show (abs_over_max e).bind _ = _
      rw [hspec.2 hz]
      rfl

/-- C8, witness: the `1 x 1` image of value 3 with `p = 3`, whose error sequence is 3;
its prediction-error mask is returned with its entry in `[0, 1]`. -/
theorem mask_values_in_unit_interval_witness :
    (∃ m, compute_NVF_mask (Example.object 1 1 3 (fun _ _ => (3 : ℝ)) (fun _ _ => 1) 20)
        ⟨1, 1, fun _ _ => 3⟩ (Spec.zero_padded 1 ⟨1, 1, fun _ _ => 3⟩) = some m ∧
      ∀ i < 1, ∀ j < 1, 0 ≤ m.coeff i j ∧ m.coeff i j ≤ 1) ∧
    ∃ m e c, compute_prediction_error_mask (Example.runtime Real.sqrt fun b e => b ^ e)
        (Example.object 1 1 3 (fun _ _ => (3 : ℝ)) (fun _ _ => 1) 20) ⟨1, 1, fun _ _ => 3⟩
        (Spec.zero_padded 1 ⟨1, 1, fun _ _ => 3⟩) true = some (m, e, c) ∧
      0 ≤ m.coeff 0 0 ∧ m.coeff 0 0 ≤ 1 := by
  have h := mask_values_in_unit_interval (Example.runtime Real.sqrt fun b e => b ^ e)
    (Example.object 1 1 3 (fun _ _ => (3 : ℝ)) (fun _ _ => 1) 20)
    ⟨⟨rfl, rfl, rfl, rfl, rfl, rfl, rfl, rfl⟩, rfl⟩ (by decide) (by decide)
    ⟨1, 1, fun _ _ => 3⟩ (Spec.zero_padded 1 ⟨1, 1, fun _ _ => 3⟩) (by decide) (by decide)
  refine ⟨h.1, ?_⟩
  obtain ⟨m0, e, c, he, he0⟩ := prediction_error_one_pixel
    (Example.runtime Real.sqrt fun b e => b ^ e) rfl (3 : ℝ) 1 20 3
  obtain ⟨m, mx, hm, -, -, hb⟩ := (h.2 m0 e c he).1
    ⟨0, Nat.zero_lt_one, 0, Nat.zero_lt_one, by rw [he0]; norm_num⟩
  exact ⟨m, e, c, hm, (hb 0 Nat.zero_lt_one 0 Nat.zero_lt_one).2⟩

/-! ## Round trip: C4 -/

theorem sqrt_of_mul_self {F : Type} [LinearOrderedField F] (rt : Runtime F)
    (hsqrt : ∀ x : F, 0 ≤ x → 0 ≤ rt.sqrt x ∧ rt.sqrt x * rt.sqrt x = x) (s x : F) (hs : 0 ≤ s)
    (hx : s * s = x) : rt.sqrt x = s := by
  have hx0 : 0 ≤ x := by rw [← hx]; exact mul_nonneg hs hs
  obtain ⟨h0, h1⟩ := hsqrt x hx0
  exact (mul_self_inj_of_nonneg h0 hs).mp (by rw [h1, hx])

/-- What a fit that has a value tells: the accumulators have a size, the thread count
is not negative, every pixel has a neighbourhood vector, lies in the image and is
handled by an existing thread, and the reduced accumulators are the sums over all
pixels. -/
theorem fit_threads_eq_some {F : Type} [LinearOrderedField F] {rt : Runtime F}
    {obj : WatermarkFunctions F} {image padded : ArrayXX F}
    {acc : ArrayXX F × ArrayXX F × (Nat → ArrayXX F) × (Nat → ArrayXX F)}
    (h : fit_threads rt obj image padded = some acc) :
    0 ≤ obj.p_squared - 1 ∧ 0 ≤ obj.num_threads ∧
    ∃ X : Nat → Nat → VectorX F,
      (∀ i < obj.rows, ∀ j < obj.cols, neighborhood obj padded i j = some (X i j) ∧
        i < image.rows ∧ j < image.cols ∧
        rt.omp_get_thread_num ((obj.pad : Int) + i) < obj.num_threads.toNat) ∧
      fit_reduce obj acc.1 acc.2.1 acc.2.2.1 acc.2.2.2 =
        (Spec.Rx obj X, Spec.rx obj image X) := by
  by_cases hN : 0 ≤ obj.p_squared - 1
  swap
  · exfalso
    unfold fit_threads ArrayXX.Constant at h
    rw [if_neg (by omega)] at h
    cases h
  obtain ⟨N, hN'⟩ : ∃ N : Nat, obj.p_squared - 1 = N := ⟨(obj.p_squared - 1).toNat, by omega⟩
  unfold fit_threads at h
  have h1 : ArrayXX.Constant (obj.p_squared - 1) 1 (0 : F) = some ⟨N, 1, fun _ _ => 0⟩ := by
    rw [hN']; exact Constant_natCast N 1 0
  rw [h1, hN', Constant_natCast] at h
  simp only [Option.some_bind] at h
  by_cases hthr : 0 ≤ obj.num_threads
  swap
  · exfalso
    rw [if_pos (by omega)] at h
    cases h
  rw [if_neg (by omega)] at h
  obtain ⟨xs, hxs, h⟩ := Option.bind_eq_some.mp h
  obtain ⟨-, -, hcoeff⟩ := tabulate_eq_some hxs
  have hpix : ∀ i < obj.rows, ∀ j < obj.cols,
      neighborhood obj padded i j = some (xs.coeff i j).1 ∧ i < image.rows ∧ j < image.cols ∧
        rt.omp_get_thread_num ((obj.pad : Int) + i) < obj.num_threads.toNat ∧
        (xs.coeff i j).2 = image.coeff i j := by
    intro i hi j hj
    have := hcoeff i hi j hj
    obtain ⟨y, hy, this⟩ := Option.bind_eq_some.mp this
    obtain ⟨x, hx, this⟩ := Option.bind_eq_some.mp this
    obtain ⟨v, hv, this⟩ := Option.bind_eq_some.mp this
    split at this
    swap
    · cases this
    rename_i hcond
    have hxv : (x, v) = xs.coeff i j := Option.some.inj this
    unfold ArrayXX.entry at hv
    split at hv
    swap
    · cases hv
    rename_i hin
    have hv' : image.coeff i j = v := Option.some.inj hv
    refine ⟨?_, hin.1, hin.2, hcond.1, ?_⟩
    · unfold neighborhood
      rw [add_comm (i : Int), add_comm (j : Int), hy, Option.some_bind, hx, ← hxv]
    · rw [← hxv, hv']
  refine ⟨hN, hthr, fun i j => (xs.coeff i j).1, ?_, ?_⟩
  · intro i hi j hj
    obtain ⟨a, b, c, d, -⟩ := hpix i hi j hj
    exact ⟨a, b, c, d⟩
  cases h
  unfold fit_reduce Spec.Rx Spec.rx
  simp only [hN', Int.toNat_ofNat, zero_add]
  by_cases hc0 : obj.cols = 0
  · simp [hc0]
  have hmaps : ∀ r ∈ range obj.rows,
      rt.omp_get_thread_num ((obj.pad : Int) + r) ∈ range obj.num_threads.toNat := by
    intro r hr'
    exact Finset.mem_range.mpr
      (hpix r (Finset.mem_range.mp hr') 0 (Nat.pos_of_ne_zero hc0)).2.2.2.1
  congr 1
  · congr 1
    funext a b
    rw [Finset.sum_fiberwise_of_maps_to hmaps]
  · congr 1
    funext a b
    rw [Finset.sum_fiberwise_of_maps_to hmaps]
    apply Finset.sum_congr rfl
    intro r hr'
    apply Finset.sum_congr rfl
    intro c hc'
    rw [(hpix r (Finset.mem_range.mp hr') c (Finset.mem_range.mp hc')).2.2.2.2]

/-- The error sequence, pixel by pixel, when every pixel has a neighbourhood vector and
lies in the image. -/
theorem compute_error_sequence_pointwise {F : Type} [LinearOrderedField F]
    (obj : WatermarkFunctions F) (image padded c : ArrayXX F) (X : Nat → Nat → VectorX F)
    (hX : ∀ i < obj.rows, ∀ j < obj.cols, neighborhood obj padded i j = some (X i j) ∧
      i < image.rows ∧ j < image.cols)
    (hcols : c.cols = (obj.p_squared - 1).toNat) (hrows : 0 < c.rows) :
    ∃ E, compute_error_sequence obj image padded c = some E ∧ E.rows = obj.rows ∧
      E.cols = obj.cols ∧
      ∀ i < obj.rows, ∀ j < obj.cols, E.coeff i j = Spec.residual c image X i j := by
  unfold compute_error_sequence
  rw [Constant_natCast, Option.some_bind]
  apply tabulate_of_forall
  intro i hi j hj
  obtain ⟨hn, hir, hjc⟩ := hX i hi j hj
  have hsz := neighborhood_size hn
  unfold neighborhood at hn
  obtain ⟨x, hx, hv⟩ := Option.bind_eq_some.mp hn
  rw [hx, Option.some_bind, hv, Option.some_bind]
  have he : image.entry i j = some (image.coeff i j) := by
    unfold ArrayXX.entry
    rw [if_pos ⟨hir, hjc⟩]
  rw [he, Option.some_bind]
  unfold ArrayXX.mulVec
  rw [if_pos (by rw [hcols, hsz]), Option.some_bind]
  unfold VectorX.entry
  rw [if_pos hrows, Option.some_bind]
  rfl

/-- A solution of the normal equations minimises the sum of the squared residuals. -/
theorem least_squares_core {F : Type} [LinearOrderedField F] {ι : Type} (s : Finset ι)
    (N : Nat) (x : ι → Nat → F) (v : ι → F) (C D : Nat → F)
    (hsol : ∀ a < N,
      ∑ b in range N, (∑ q in s, x q a * x q b) * C b = ∑ q in s, x q a * v q) :
    ∑ q in s, (v q - ∑ k in range N, C k * x q k) ^ 2 ≤
      ∑ q in s, (v q - ∑ k in range N, D k * x q k) ^ 2 := by
  have cross : ∀ a < N, ∑ q in s, (v q - ∑ k in range N, C k * x q k) * x q a = 0 := by
    intro a ha
    have h := hsol a ha
    simp_rw [Finset.sum_mul] at h
    rw [Finset.sum_comm] at h
    have e : ∑ q in s, (v q - ∑ k in range N, C k * x q k) * x q a =
        ∑ q in s, (x q a * v q - ∑ b in range N, x q a * x q b * C b) := by
      apply Finset.sum_congr rfl
      intro q _
      rw [sub_mul, Finset.sum_mul]
      congr 1
      · ring
      · apply Finset.sum_congr rfl
        intro k _
        ring
    rw [e, Finset.sum_sub_distrib, h, sub_self]
  have hδ : ∀ q, v q - ∑ k in range N, D k * x q k =
      (v q - ∑ k in range N, C k * x q k) + ∑ k in range N, (C k - D k) * x q k := by
    intro q
    simp only [sub_mul, Finset.sum_sub_distrib]
    ring
  have hcross : ∑ q in s, (v q - ∑ k in range N, C k * x q k) *
      ∑ k in range N, (C k - D k) * x q k = 0 := by
    simp_rw [Finset.mul_sum]
    rw [Finset.sum_comm]
    apply Finset.sum_eq_zero
    intro k hk
    have h := cross k (Finset.mem_range.mp hk)
    have e : ∑ q in s, (v q - ∑ k in range N, C k * x q k) * ((C k - D k) * x q k) =
        (C k - D k) * ∑ q in s, (v q - ∑ k in range N, C k * x q k) * x q k := by
      rw [Finset.mul_sum]
      apply Finset.sum_congr rfl
      intro q _
      ring
    rw [e, h, mul_zero]
  calc ∑ q in s, (v q - ∑ k in range N, C k * x q k) ^ 2
      = ∑ q in s, ((v q - ∑ k in range N, C k * x q k) ^ 2 +
          2 * ((v q - ∑ k in range N, C k * x q k) *
            ∑ k in range N, (C k - D k) * x q k)) := by
        rw [Finset.sum_add_distrib, ← Finset.mul_sum, hcross, mul_zero, add_zero]
    _ ≤ ∑ q in s, (v q - ∑ k in range N, D k * x q k) ^ 2 := by
        apply Finset.sum_le_sum
        intro q _
        rw [hδ q]
        nlinarith [sq_nonneg (∑ k in range N, (C k - D k) * x q k)]

/-- The normal equations of a least-squares problem always have a solution. -/
theorem normal_equations_solvable {F : Type} [LinearOrderedField F] (r c N : Nat)
    (x : Nat → Nat → Nat → F) (v : Nat → Nat → F) :
    ∃ C : Nat → F, ∀ a < N,
      ∑ b in range N, (∑ i in range r, ∑ j in range c, x i j a * x i j b) * C b =
        ∑ i in range r, ∑ j in range c, x i j a * v i j := by
  let A : Matrix (Fin r × Fin c) (Fin N) F := fun q k => x q.1 q.2 k
  let b : Fin r × Fin c → F := fun q => v q.1 q.2
  have hle : LinearMap.range (A.transpose * A).mulVecLin ≤
      LinearMap.range A.transpose.mulVecLin := by
    rw [Matrix.mulVecLin_mul]
    exact LinearMap.range_comp_le_range _ _
  have hrank : Module.finrank F (LinearMap.range (A.transpose * A).mulVecLin) =
      Module.finrank F (LinearMap.range A.transpose.mulVecLin) := by
    have h1 := Matrix.rank_transpose_mul_self A
    have h2 := Matrix.rank_transpose A
    unfold Matrix.rank at h1 h2
    rw [h1, h2]
  have heq := Submodule.eq_of_le_of_finrank_eq hle hrank
  have hmem : A.transpose.mulVec b ∈ LinearMap.range (A.transpose * A).mulVecLin := by
    rw [heq]
    exact ⟨b, rfl⟩
  obtain ⟨cf, hcf⟩ := hmem
  refine ⟨fun k => if h : k < N then cf ⟨k, h⟩ else 0, ?_⟩
  intro a ha
  have h := congrFun hcf ⟨a, ha⟩
  simp only [Matrix.mulVecLin_apply, Matrix.mulVec, Matrix.dotProduct, Matrix.mul_apply,
    Matrix.transpose_apply, A, b, Fintype.sum_prod_type] at h
  rw [Finset.sum_range]
  simp only [Fin.is_lt, dif_pos, Fin.eta]
  simp only [Finset.sum_range]
  exact h

/-- The neighbourhood vectors of the two pixels of `Example.pair`. -/
theorem pair_neighborhoods : ∀ i < Example.pair_object.rows, ∀ j < Example.pair_object.cols,
    neighborhood Example.pair_object (Spec.zero_padded 1 Example.pair) i j =
      some (neighborhood_three (Spec.zero_padded 1 Example.pair) i j) := by
  intro i hi j hj
  apply neighborhood_eq_three _ rfl rfl rfl rfl
  · show i + 2 < 1 + 2 * 1
    have : i < 1 := hi
    omega
  · show j + 2 < 2 + 2 * 1
    have : j < 2 := hj
    omega

/-- The fit on `Example.pair` has a value, and its reduced accumulators are the sums
over the two pixels. -/
theorem pair_fit_threads : ∃ acc, fit_threads Example.rational_runtime Example.pair_object
      Example.pair (Spec.zero_padded 1 Example.pair) = some acc ∧
    fit_reduce Example.pair_object acc.1 acc.2.1 acc.2.2.1 acc.2.2.2 =
      (Spec.Rx Example.pair_object
          (fun i j => neighborhood_three (Spec.zero_padded 1 Example.pair) i j),
        Spec.rx Example.pair_object Example.pair
          (fun i j => neighborhood_three (Spec.zero_padded 1 Example.pair) i j)) :=
  fit_threads_of Example.rational_runtime Example.pair_object Example.pair
    (Spec.zero_padded 1 Example.pair) _ (by decide) pair_neighborhoods (by decide)
    (fun _ _ => by show 0 < (1 : Int).toNat; decide) (le_refl _) (le_refl _)

/-- C11: when the accumulators `Rx`, `rx` that `compute_prediction_error_mask` builds
and reduces have a value and the row vector `c` solves `Rx c = rx`, the error sequence
`compute_error_sequence` returns for `c` has a sum of squares not larger than the one
it returns for any other row vector `c2`. -/
theorem normal_equations_minimise_error {F : Type} [LinearOrderedField F] (rt : Runtime F)
    (obj : WatermarkFunctions F) (image padded : ArrayXX F)
    (acc : ArrayXX F × ArrayXX F × (Nat → ArrayXX F) × (Nat → ArrayXX F))
    (c c2 : ArrayXX F)
    (hacc : fit_threads rt obj image padded = some acc)
    (hc : c.cols = (obj.p_squared - 1).toNat) (hcr : 0 < c.rows)
    (hc2 : c2.cols = (obj.p_squared - 1).toNat) (hcr2 : 0 < c2.rows)
    (hsol : ∀ a < (obj.p_squared - 1).toNat,
      ∑ b in range (obj.p_squared - 1).toNat,
        (fit_reduce obj acc.1 acc.2.1 acc.2.2.1 acc.2.2.2).1.coeff a b * c.coeff 0 b =
      (fit_reduce obj acc.1 acc.2.1 acc.2.2.1 acc.2.2.2).2.coeff a 0) :
    ∃ E E2, compute_error_sequence obj image padded c = some E ∧
      compute_error_sequence obj image padded c2 = some E2 ∧
      ∑ i in range obj.rows, ∑ j in range obj.cols, E.coeff i j ^ 2 ≤
        ∑ i in range obj.rows, ∑ j in range obj.cols, E2.coeff i j ^ 2 := by
  obtain ⟨-, -, X, hpix, hred⟩ := fit_threads_eq_some hacc
  have hX : ∀ i < obj.rows, ∀ j < obj.cols, neighborhood obj padded i j = some (X i j) ∧
      i < image.rows ∧ j < image.cols := fun i hi j hj =>
    ⟨(hpix i hi j hj).1, (hpix i hi j hj).2.1, (hpix i hi j hj).2.2.1⟩
  obtain ⟨E, hE, -, -, hEc⟩ := compute_error_sequence_pointwise obj image padded c X hX hc hcr
  obtain ⟨E2, hE2, -, -, hEc2⟩ :=
    compute_error_sequence_pointwise obj image padded c2 X hX hc2 hcr2
  refine ⟨E, E2, hE, hE2, ?_⟩
  rw [hred] at hsol
  simp only [Spec.Rx, Spec.rx] at hsol
  have key := least_squares_core (range obj.rows ×ˢ range obj.cols) (obj.p_squared - 1).toNat
    (fun q k => (X q.1 q.2).coeff k) (fun q => image.coeff q.1 q.2) (fun k => c.coeff 0 k)
    (fun k => c2.coeff 0 k) (by
      intro a ha
      simp only [Finset.sum_product]
      exact hsol a ha)
  simp only [Finset.sum_product] at key
  have e1 : ∑ i in range obj.rows, ∑ j in range obj.cols, E.coeff i j ^ 2 =
      ∑ i in range obj.rows, ∑ j in range obj.cols,
        (image.coeff i j - ∑ k in range (obj.p_squared - 1).toNat,
          c.coeff 0 k * (X i j).coeff k) ^ 2 := by
    apply Finset.sum_congr rfl
    intro i hi
    apply Finset.sum_congr rfl
    intro j hj
    rw [hEc i (Finset.mem_range.mp hi) j (Finset.mem_range.mp hj)]
    unfold Spec.residual
    rw [hc]
  have e2 : ∑ i in range obj.rows, ∑ j in range obj.cols, E2.coeff i j ^ 2 =
      ∑ i in range obj.rows, ∑ j in range obj.cols,
        (image.coeff i j - ∑ k in range (obj.p_squared - 1).toNat,
          c2.coeff 0 k * (X i j).coeff k) ^ 2 := by
    apply Finset.sum_congr rfl
    intro i hi
    apply Finset.sum_congr rfl
    intro j hj
    rw [hEc2 i (Finset.mem_range.mp hi) j (Finset.mem_range.mp hj)]
    unfold Spec.residual
    rw [hc2]
  rw [e1, e2]
  exact key

/-- C11, witness: the image `(1, 2)` of one row, `p = 3`; the coefficients
`Example.pair_fit` solve the normal equations, the other row vector is zero. -/
theorem normal_equations_minimise_error_witness :
    ∃ acc, fit_threads Example.rational_runtime Example.pair_object Example.pair
        (Spec.zero_padded 1 Example.pair) = some acc ∧
      ∃ E E2, compute_error_sequence Example.pair_object Example.pair
          (Spec.zero_padded 1 Example.pair) Example.pair_fit = some E ∧
        compute_error_sequence Example.pair_object Example.pair
          (Spec.zero_padded 1 Example.pair) ⟨1, 8, fun _ _ => 0⟩ = some E2 ∧
        ∑ i in range Example.pair_object.rows, ∑ j in range Example.pair_object.cols,
            E.coeff i j ^ 2 ≤
          ∑ i in range Example.pair_object.rows, ∑ j in range Example.pair_object.cols,
            E2.coeff i j ^ 2 := by
  obtain ⟨acc, hacc, hred⟩ := pair_fit_threads
  refine ⟨acc, hacc, normal_equations_minimise_error Example.rational_runtime
    Example.pair_object Example.pair (Spec.zero_padded 1 Example.pair) acc Example.pair_fit
    ⟨1, 8, fun _ _ => 0⟩ hacc rfl (by decide) rfl (by decide) ?_⟩
  rw [hred]
  intro a ha
  have ha8 : a < 8 := ha
  show ∑ b in range 8, (Spec.Rx Example.pair_object
      (fun i j => neighborhood_three (Spec.zero_padded 1 Example.pair) i j)).coeff a b *
        Example.pair_fit.coeff 0 b =
    (Spec.rx Example.pair_object Example.pair
      (fun i j => neighborhood_three (Spec.zero_padded 1 Example.pair) i j)).coeff a 0
  simp only [Spec.Rx, Spec.rx, Example.pair_object, Example.object, Example.pair,
    Example.pair_fit, neighborhood_three, Spec.zero_padded]
  interval_cases a <;> simp [Finset.sum_range_succ]

/-- C18: whenever the accumulators `Rx`, `rx` that `compute_prediction_error_mask`
builds and reduces have a value, the normal equations have a solution: there is a row
vector `c` of `p_squared - 1` cells with `Rx c = rx`, whether or not `Rx` is singular. -/
theorem normal_equations_consistent {F : Type} [LinearOrderedField F] (rt : Runtime F)
    (obj : WatermarkFunctions F) (image padded : ArrayXX F)
    (acc : ArrayXX F × ArrayXX F × (Nat → ArrayXX F) × (Nat → ArrayXX F))
    (hacc : fit_threads rt obj image padded = some acc) :
    ∃ c : ArrayXX F, c.rows = 1 ∧ c.cols = (obj.p_squared - 1).toNat ∧
      ∀ a < (obj.p_squared - 1).toNat,
        ∑ b in range (obj.p_squared - 1).toNat,
          (fit_reduce obj acc.1 acc.2.1 acc.2.2.1 acc.2.2.2).1.coeff a b * c.coeff 0 b =
        (fit_reduce obj acc.1 acc.2.1 acc.2.2.1 acc.2.2.2).2.coeff a 0 := by
  obtain ⟨-, -, X, -, hred⟩ := fit_threads_eq_some hacc
  obtain ⟨C, hC⟩ := normal_equations_solvable obj.rows obj.cols (obj.p_squared - 1).toNat
    (fun i j k => (X i j).coeff k) image.coeff
  refine ⟨⟨1, (obj.p_squared - 1).toNat, fun _ k => C k⟩, rfl, rfl, ?_⟩
  intro a ha
  rw [hred]
  exact hC a ha

/-- C18, witness: the image `(1, 2)` of one row, `p = 3`, whose `Rx` is singular. -/
theorem normal_equations_consistent_witness :
    ∃ acc, fit_threads Example.rational_runtime Example.pair_object Example.pair
        (Spec.zero_padded 1 Example.pair) = some acc ∧
      ∃ c : ArrayXX ℚ, c.rows = 1 ∧ c.cols = (Example.pair_object.p_squared - 1).toNat ∧
        ∀ a < (Example.pair_object.p_squared - 1).toNat,
          ∑ b in range (Example.pair_object.p_squared - 1).toNat,
            (fit_reduce Example.pair_object acc.1 acc.2.1 acc.2.2.1 acc.2.2.2).1.coeff a b *
              c.coeff 0 b =
          (fit_reduce Example.pair_object acc.1 acc.2.1 acc.2.2.1 acc.2.2.2).2.coeff a 0 := by
  obtain ⟨acc, hacc, -⟩ := pair_fit_threads
  exact ⟨acc, hacc, normal_equations_consistent Example.rational_runtime Example.pair_object
    Example.pair (Spec.zero_padded 1 Example.pair) acc hacc⟩

/-- The two-phase accumulation of the fit gives the sums over all pixels, for every
assignment of the rows to existing threads. -/
theorem fit_threads_pointwise {F : Type} [LinearOrderedField F] (rt : Runtime F)
    (obj : WatermarkFunctions F) (image padded : ArrayXX F) (X : Nat → Nat → VectorX F)
    (hN : 0 ≤ obj.p_squared - 1)
    (hX : ∀ i < obj.rows, ∀ j < obj.cols, neighborhood obj padded i j = some (X i j) ∧
      i < image.rows ∧ j < image.cols)
    (hthr : 0 ≤ obj.num_threads)
    (hsched : ∀ r < obj.rows,
      rt.omp_get_thread_num ((obj.pad : Int) + r) < obj.num_threads.toNat) :
    ∃ acc, fit_threads rt obj image padded = some acc ∧
      fit_reduce obj acc.1 acc.2.1 acc.2.2.1 acc.2.2.2 = (Spec.Rx obj X, Spec.rx obj image X) := by
  obtain ⟨N, hN'⟩ : ∃ N : Nat, obj.p_squared - 1 = N := ⟨(obj.p_squared - 1).toNat, by omega⟩
  unfold fit_threads
  have h1 : ArrayXX.Constant (obj.p_squared - 1) 1 (0 : F) = some ⟨N, 1, fun _ _ => 0⟩ := by
    rw [hN']; exact Constant_natCast N 1 0
  rw [h1, hN', Constant_natCast]
  simp only [Option.some_bind]
  rw [if_neg (by omega)]
  obtain ⟨xs, hxs, -, -, hcoeff⟩ := tabulate_of_forall ((⟨0, fun _ => 0⟩ : VectorX F), (0 : F))
    obj.rows obj.cols (fun r c =>
      (create_neighbors obj padded ((obj.pad : Int) + r) ((obj.pad : Int) + c) obj.p
        obj.p_squared).bind fun x_ =>
      (x_.values 0).bind fun x_ =>
      (image.entry r c).bind fun v =>
      if rt.omp_get_thread_num ((obj.pad : Int) + r) < obj.num_threads.toNat ∧
          x_.size = N then some (x_, v)
      else none) (fun r c => (X r c, image.coeff r c)) (by
        intro i hi j hj
        obtain ⟨hn, hir, hjc⟩ := hX i hi j hj
        have hsz := neighborhood_size hn
        unfold neighborhood at hn
        obtain ⟨x, hx, hv⟩ := Option.bind_eq_some.mp hn
        beta_reduce
        rw [add_comm (obj.pad : Int) i, add_comm (obj.pad : Int) j]
        rw [hx, Option.some_bind, hv, Option.some_bind]
        have he : image.entry i j = some (image.coeff i j) := by
          unfold ArrayXX.entry
          rw [if_pos ⟨hir, hjc⟩]
        rw [he, Option.some_bind, if_pos]
        refine ⟨?_, ?_⟩
        · have := hsched i hi
          rwa [add_comm] at this
        · rw [hsz, hN', Int.toNat_ofNat])
  rw [hxs]
  simp only [Option.some_bind]
  refine ⟨_, rfl, ?_⟩
  unfold fit_reduce Spec.Rx Spec.rx
  simp only [hN', Int.toNat_ofNat, zero_add]
  have hmaps : ∀ r ∈ range obj.rows,
      rt.omp_get_thread_num ((obj.pad : Int) + r) ∈ range obj.num_threads.toNat := by
    intro r hr'
    exact Finset.mem_range.mpr (hsched r (Finset.mem_range.mp hr'))
  congr 1
  · congr 1
    funext a b
    rw [Finset.sum_fiberwise_of_maps_to hmaps]
    apply Finset.sum_congr rfl
    intro r hr'
    apply Finset.sum_congr rfl
    intro c hc'
    rw [hcoeff r (Finset.mem_range.mp hr') c (Finset.mem_range.mp hc')]
  · congr 1
    funext a b
    rw [Finset.sum_fiberwise_of_maps_to hmaps]
    apply Finset.sum_congr rfl
    intro r hr'
    apply Finset.sum_congr rfl
    intro c hc'
    rw [hcoeff r (Finset.mem_range.mp hr') c (Finset.mem_range.mp hc')]

/-- The reduced accumulators of the fit under two thread counts and two assignments
of the rows to threads, one way: what the first gives, the second gives too. -/
theorem fit_schedule_some {F : Type} [LinearOrderedField F] (rt : Runtime F)
    (obj : WatermarkFunctions F) (image padded : ArrayXX F) (n n2 : Int) (t t2 : Int → Nat)
    (hn2 : 0 ≤ n2) (ht2 : ∀ r < obj.rows, t2 ((obj.pad : Int) + r) < n2.toNat)
    (acc : ArrayXX F × ArrayXX F × (Nat → ArrayXX F) × (Nat → ArrayXX F))
    (h : fit_threads (rt.with_schedule t) (obj.with_threads n) image padded = some acc) :
    ∃ acc2, fit_threads (rt.with_schedule t2) (obj.with_threads n2) image padded = some acc2 ∧
      fit_reduce (obj.with_threads n2) acc2.1 acc2.2.1 acc2.2.2.1 acc2.2.2.2 =
        fit_reduce (obj.with_threads n) acc.1 acc.2.1 acc.2.2.1 acc.2.2.2 := by
  obtain ⟨hN, -, X, hpix, hred⟩ := fit_threads_eq_some h
  obtain ⟨acc2, hacc2, hred2⟩ := fit_threads_pointwise (rt.with_schedule t2)
    (obj.with_threads n2) image padded X hN
    (fun i hi j hj => ⟨(hpix i hi j hj).1, (hpix i hi j hj).2.1, (hpix i hi j hj).2.2.1⟩)
    hn2 ht2
  refine ⟨acc2, hacc2, ?_⟩
  rw [hred, hred2]
  rfl

/-- The fit does not depend on the thread count or on the assignment of the rows. -/
theorem fit_schedule_irrelevant {F : Type} [LinearOrderedField F] (rt : Runtime F)
    (obj : WatermarkFunctions F) (image padded : ArrayXX F) (n n2 : Int) (t t2 : Int → Nat)
    (hn : 0 ≤ n) (ht : ∀ r < obj.rows, t ((obj.pad : Int) + r) < n.toNat)
    (hn2 : 0 ≤ n2) (ht2 : ∀ r < obj.rows, t2 ((obj.pad : Int) + r) < n2.toNat) :
    (fit_threads (rt.with_schedule t) (obj.with_threads n) image padded).map (fun acc =>
        fit_reduce (obj.with_threads n) acc.1 acc.2.1 acc.2.2.1 acc.2.2.2) =
      (fit_threads (rt.with_schedule t2) (obj.with_threads n2) image padded).map (fun acc =>
        fit_reduce (obj.with_threads n2) acc.1 acc.2.1 acc.2.2.1 acc.2.2.2) := by
  cases h : fit_threads (rt.with_schedule t) (obj.with_threads n) image padded with
  | some acc =>
    obtain ⟨acc2, hacc2, hred⟩ := fit_schedule_some rt obj image padded n n2 t t2 hn2 ht2 acc h
    rw [hacc2, Option.map_some', Option.map_some', hred]
  | none =>
    cases h2 : fit_threads (rt.with_schedule t2) (obj.with_threads n2) image padded with
    | none => rfl
    | some acc2 =>
      obtain ⟨acc, hacc, -⟩ := fit_schedule_some rt obj image padded n2 n t2 t hn ht acc2 h2
      rw [h] at hacc
      cases hacc

/-- The prediction-error engine does not depend on the thread count or on the
assignment of the rows. -/
theorem compute_prediction_error_mask_schedule {F : Type} [LinearOrderedField F]
    (rt : Runtime F) (obj : WatermarkFunctions F) (n n2 : Int) (t t2 : Int → Nat)
    (hn : 0 ≤ n) (ht : ∀ r < obj.rows, t ((obj.pad : Int) + r) < n.toNat)
    (hn2 : 0 ≤ n2) (ht2 : ∀ r < obj.rows, t2 ((obj.pad : Int) + r) < n2.toNat)
    (image padded : ArrayXX F) (mn : Bool) :
    compute_prediction_error_mask (rt.with_schedule t) (obj.with_threads n) image padded mn =
      compute_prediction_error_mask (rt.with_schedule t2) (obj.with_threads n2) image padded
        mn := by
  have hfit := fit_schedule_irrelevant rt obj image padded n n2 t t2 hn ht hn2 ht2
  unfold compute_prediction_error_mask
  cases h : fit_threads (rt.with_schedule t) (obj.with_threads n) image padded with
  | none =>
    cases h2 : fit_threads (rt.with_schedule t2) (obj.with_threads n2) image padded with
    | none => rfl
    | some acc2 =>
      rw [h, h2] at hfit
      cases hfit
  | some acc =>
    cases h2 : fit_threads (rt.with_schedule t2) (obj.with_threads n2) image padded with
    | none =>
      rw [h, h2] at hfit
      cases hfit
    | some acc2 =>
      rw [h, h2, Option.map_some', Option.map_some'] at hfit
      have hred := Option.some.inj hfit
      simp only [Option.some_bind, hred]
      rfl

/-- C12: for every thread count `n ≥ 1` and every assignment `t` of the rows to
threads below `n`, the accumulators `Rx`, `rx` obtained by summing the per-thread
accumulators are those a single thread accumulates over all pixels, and
`make_and_add_watermark` gives with `n` threads what it gives with one thread. -/
theorem fit_independent_of_workers {F : Type} [LinearOrderedField F] (rt : Runtime F)
    (obj : WatermarkFunctions F) (image padded : ArrayXX F) (is_custom_mask : Bool) (n : Int)
    (t : Int → Nat) (hn : 1 ≤ n)
    (ht : ∀ r < obj.rows, t ((obj.pad : Int) + r) < n.toNat) :
    (fit_threads (rt.with_schedule t) (obj.with_threads n) image padded).map (fun acc =>
        fit_reduce (obj.with_threads n) acc.1 acc.2.1 acc.2.2.1 acc.2.2.2) =
      (fit_threads (rt.with_schedule fun _ => 0) (obj.with_threads 1) image padded).map
        (fun acc => fit_reduce (obj.with_threads 1) acc.1 acc.2.1 acc.2.2.1 acc.2.2.2) ∧
    make_and_add_watermark (rt.with_schedule t) (obj.with_threads n) is_custom_mask =
      make_and_add_watermark (rt.with_schedule fun _ => 0) (obj.with_threads 1)
        is_custom_mask := by
  have hn0 : 0 ≤ n := by omega
  have h1 : ∀ r < obj.rows, (fun _ : Int => (0 : Nat)) ((obj.pad : Int) + r) <
      (1 : Int).toNat := by
    intro r _
    show 0 < (1 : Int).toNat
    decide
  refine ⟨fit_schedule_irrelevant rt obj image padded n 1 t (fun _ => 0) hn0 ht (by decide) h1,
    ?_⟩
  unfold make_and_add_watermark watermark_pattern
  simp only [compute_prediction_error_mask_schedule rt obj n 1 t (fun _ => 0) hn0 ht
    (by decide) h1]
  rfl

/-- C12, witness: the image `(1, 2)` of one row with four threads, its row handled by
thread 3, against one thread. -/
theorem fit_independent_of_workers_witness :
    (fit_threads (Example.rational_runtime.with_schedule fun _ => 3)
        (Example.pair_object.with_threads 4) Example.pair
        (Spec.zero_padded 1 Example.pair)).map (fun acc =>
          fit_reduce (Example.pair_object.with_threads 4) acc.1 acc.2.1 acc.2.2.1 acc.2.2.2) =
      (fit_threads (Example.rational_runtime.with_schedule fun _ => 0)
        (Example.pair_object.with_threads 1) Example.pair
        (Spec.zero_padded 1 Example.pair)).map (fun acc =>
          fit_reduce (Example.pair_object.with_threads 1) acc.1 acc.2.1 acc.2.2.1 acc.2.2.2) ∧
    make_and_add_watermark (Example.rational_runtime.with_schedule fun _ => 3)
        (Example.pair_object.with_threads 4) false =
      make_and_add_watermark (Example.rational_runtime.with_schedule fun _ => 0)
        (Example.pair_object.with_threads 1) false :=
  fit_independent_of_workers Example.rational_runtime Example.pair_object Example.pair
    (Spec.zero_padded 1 Example.pair) false 4 (fun _ => 3) (by decide)
    (fun _ _ => by show 3 < (4 : Int).toNat; decide)

/-- C13: for `rows * cols * 4` below `2 ^ 64`, `load_W` throws exactly when the file
cannot be opened or its length in bytes is not `rows * cols * 4`; the array it returns
otherwise has `rows` rows and `cols` columns, `rows * cols` elements, entry `(r, c)`
being float `r * cols + c` of the file. -/
theorem load_W_fails_iff {F : Type} (fs : String → Option (File F)) (w_file : String)
    (rows cols : Nat) (hsize : rows * cols * 4 < 2 ^ 64) :
    ((∃ e, load_W fs w_file rows cols = Except.error e) ↔
      (fs w_file = none ∨ ∃ f, fs w_file = some f ∧ f.total_bytes ≠ rows * cols * 4)) ∧
    (∀ W, load_W fs w_file rows cols = Except.ok W →
      W.rows = rows ∧ W.cols = cols ∧ W.rows * W.cols = rows * cols ∧
        ∃ f, fs w_file = some f ∧ f.total_bytes = rows * cols * 4 ∧
          ∀ r c, W.coeff r c = f.floats (r * cols + c)) := by
  have hmod : (rows * cols * 4) % 2 ^ 64 = rows * cols * 4 := Nat.mod_eq_of_lt hsize
  unfold load_W
  rw [hmod]
  cases hf : fs w_file with
  | none =>
    refine ⟨⟨fun _ => Or.inl rfl, fun _ => ⟨LoadError.cannot_open, rfl⟩⟩, ?_⟩
    intro W hW
    cases hW
  | some f =>
    by_cases hb : rows * cols * 4 = f.total_bytes
    · simp only [hb, ne_eq, not_true_eq_false, if_false]
      refine ⟨⟨fun h => ?_, fun h => ?_⟩, ?_⟩
      · obtain ⟨e, he⟩ := h
        cases he
      · rcases h with h | ⟨g, hg, hne⟩
        · cases h
        · cases hg
          exact absurd rfl hne
      · intro W hW
        cases hW
        exact ⟨rfl, rfl, rfl, f, rfl, rfl, fun _ _ => rfl⟩
    · simp only [ne_eq, hb, not_false_eq_true, if_true]
      refine ⟨⟨fun _ => Or.inr ⟨f, rfl, fun h => hb h.symm⟩,
        fun _ => ⟨LoadError.size_mismatch, rfl⟩⟩, ?_⟩
      intro W hW
      cases hW

/-- C13, witness: a pattern for `17 x 17` pixels read from a file of `4 * 17 * 17`
bytes. -/
theorem load_W_fails_iff_witness :
    ((∃ e, load_W Example.files "w.bin" 17 17 = Except.error e) ↔
      (Example.files "w.bin" = none ∨
        ∃ f, Example.files "w.bin" = some f ∧ f.total_bytes ≠ 17 * 17 * 4)) ∧
    (∀ W, load_W Example.files "w.bin" 17 17 = Except.ok W →
      W.rows = 17 ∧ W.cols = 17 ∧ W.rows * W.cols = 17 * 17 ∧
        ∃ f, Example.files "w.bin" = some f ∧ f.total_bytes = 17 * 17 * 4 ∧
          ∀ r c, W.coeff r c = f.floats (r * 17 + c)) :=
  load_W_fails_iff Example.files "w.bin" 17 17 (by decide)

/-- C14, counterexample: with an image of `17 x 17` pixels and `psnr = 30`, the window
side `p = 1` passes the checks of `main`. -/
theorem main_checks_accept_one : main_checks 17 17 1 (30 : ℚ) = true := by
  unfold main_checks
  rw [if_neg (by decide), if_neg (by decide), if_neg (by norm_num)]

/-- C14, amended: the checks of `main` let the program continue exactly when both
dimensions lie strictly between 16 and 16384, `p` is one of 1, 3, 5, 7, 9 and `psnr`
is positive; every `p ≤ 0`, every even `p`, every `p > 9` and every `psnr ≤ 0` ends
the program. -/
theorem main_checks_iff {F : Type} [LinearOrderedField F] (rows cols p : Int) (psnr : F) :
    main_checks rows cols p psnr = true ↔
      (16 < rows ∧ rows < 16384 ∧ 16 < cols ∧ cols < 16384) ∧
        (p = 1 ∨ p = 3 ∨ p = 5 ∨ p = 7 ∨ p = 9) ∧ 0 < psnr := by
  unfold main_checks
  by_cases hd : cols ≤ 16 ∨ rows ≤ 16 ∨ rows ≥ 16384 ∨ cols ≥ 16384
  · rw [if_pos hd]
    constructor
    · intro h
      cases h
    · rintro ⟨⟨h1, h2, h3, h4⟩, -, -⟩
      omega
  rw [if_neg hd]
  by_cases hp : p ≤ 0 ∨ p.tmod 2 ≠ 1 ∨ p > 9
  · rw [if_pos hp]
    constructor
    · intro h
      cases h
    · rintro ⟨-, h, -⟩
      exfalso
      rcases h with h | h | h | h | h <;> subst h <;> revert hp <;> decide
  rw [if_neg hp]
  have hp' : p = 1 ∨ p = 3 ∨ p = 5 ∨ p = 7 ∨ p = 9 := by
    push_neg at hp
    obtain ⟨h0, h1, h9⟩ := hp
    have hlo : 1 ≤ p := by omega
    interval_cases p <;> first | omega | (exfalso; revert h1; decide)
  by_cases hs : psnr ≤ 0
  · rw [if_pos hs]
    constructor
    · intro h
      cases h
    · rintro ⟨-, -, h⟩
      exact absurd h (not_lt.mpr hs)
  · rw [if_neg hs]
    refine ⟨fun _ => ⟨by omega, hp', not_le.mp hs⟩, fun _ => rfl⟩

/-- The array `load_W` returns has the dimensions asked for. -/
theorem load_W_dims {F : Type} {fs : String → Option (File F)} {w_file : String}
    {rows cols : Nat} {W : ArrayXX F} (h : load_W fs w_file rows cols = Except.ok W) :
    W.rows = rows ∧ W.cols = cols := by
  unfold load_W at h
  cases hf : fs w_file with
  | none =>
    rw [hf] at h
    cases h
  | some f =>
    rw [hf] at h
    simp only at h
    split at h
    · cases h
    · cases h
      exact ⟨rfl, rfl⟩

/-- What the constructor sets up: the relations of the initialiser list, and a border
width that is whatever the storage of `pad` held. -/
theorem construct_initialised {F : Type} {fs : String → Option (File F)} {image : ArrayXX F}
    {w_file_path : String} {p : Int} {psnr : F} {num_threads pad_storage : Int}
    {obj : WatermarkFunctions F}
    (h : WatermarkFunctions.construct fs image w_file_path p psnr num_threads pad_storage =
      Except.ok obj) :
    obj.Initialised ∧ obj.pad = pad_storage ∧ obj.image = image ∧ obj.p = p := by
  unfold WatermarkFunctions.construct at h
  cases hW : load_W fs w_file_path image.rows image.cols with
  | error e =>
    rw [hW] at h
    cases h
  | ok w =>
    rw [hW] at h
    obtain ⟨h1, h2⟩ := load_W_dims hW
    cases h
    exact ⟨⟨rfl, rfl, h1, h2, rfl, rfl, rfl, rfl⟩, rfl, rfl, rfl⟩

/-- With a border narrower than the half side of the window, the window of the first
pixel leaves the padded image and the variance mask has no value. -/
theorem compute_NVF_mask_short_pad {F : Type} [LinearOrderedField F]
    (obj : WatermarkFunctions F) (image padded : ArrayXX F)
    (hpad : obj.pad < (obj.p - 1).tdiv 2) (hr : 0 < obj.rows) (hc : 0 < obj.cols) :
    compute_NVF_mask obj image padded = none := by
  unfold compute_NVF_mask
  rw [Constant_natCast, Option.some_bind]
  apply tabulate_eq_none_of _ _ _ _ 0 0 hr hc
  cases ArrayXX.Constant obj.p obj.p (0 : F) with
  | none => rfl
  | some n0 =>
    simp only [Option.some_bind]
    unfold ArrayXX.block
    rw [if_neg]
    · rfl
    · intro h
      have := h.1
      push_cast at this
      omega

/-- With a border narrower than the half side of the window, the first pixel has no
neighbourhood vector. -/
theorem neighborhood_short_pad {F : Type} [LinearOrderedField F]
    (obj : WatermarkFunctions F) (padded : ArrayXX F)
    (hpad : obj.pad < (obj.p - 1).tdiv 2) : neighborhood obj padded 0 0 = none := by
  unfold neighborhood create_neighbors
  by_cases hN : obj.p_squared - 1 < 0
  · rw [if_pos hN]
    rfl
  · rw [if_neg hN]
    unfold ArrayXX.block
    dsimp only
    rw [if_neg]
    · rfl
    · intro h
      have := h.1
      push_cast at this
      omega

/-- With a border narrower than the half side of the window, the embedder has no
value. -/
theorem make_and_add_watermark_short_pad {F : Type} [LinearOrderedField F] (rt : Runtime F)
    (obj : WatermarkFunctions F) (hpad : obj.pad < (obj.p - 1).tdiv 2) (hr : 0 < obj.rows)
    (hc : 0 < obj.cols) (b : Bool) : make_and_add_watermark rt obj b = none := by
  unfold make_and_add_watermark watermark_pattern
  cases padded_of obj obj.image with
  | none => rfl
  | some P =>
    simp only [Option.some_bind]
    cases b with
    | true =>
      simp only [if_true]
      rw [compute_NVF_mask_short_pad obj obj.image P hpad hr hc]
      rfl
    | false =>
      rw [compute_prediction_error_mask_none rt obj obj.image P true 0 0 hr hc
        (neighborhood_short_pad obj P hpad)]
      rfl

/-- C15, the code at the failing input: constructed on a `17 x 17` image with `p = 3`
while the storage of `pad` holds 0, the object has `pad = 0`, not `(p - 1) / 2 = 1`;
its padded dimensions are those of the image, and the embedder has no value under
either model, whatever the runtime. -/
theorem construct_pad_uninitialised :
    ∃ obj, WatermarkFunctions.construct Example.files Example.image17 "w.bin" 3 30 1 0 =
        Except.ok obj ∧
      obj.pad = 0 ∧ (obj.p - 1).tdiv 2 = 1 ∧ obj.padded_rows = 17 ∧ obj.padded_cols = 17 ∧
      ∀ (rt : Runtime ℚ) (b : Bool), make_and_add_watermark rt obj b = none := by
  refine ⟨_, rfl, rfl, rfl, rfl, rfl, ?_⟩
  intro rt b
  apply make_and_add_watermark_short_pad
  · decide
  · decide
  · decide

/-- Reading an array right after it was assigned. -/
theorem Store.read_assign_same {F : Type} (s : Store F) (x : Loc) (v : ArrayXX F) :
    (s.assign x v).read x = v := by
  unfold Store.assign Store.read
  beta_reduce
  rw [if_pos rfl]

/-- Reading an array after another one was assigned. -/
theorem Store.read_assign_other {F : Type} (s : Store F) (x y : Loc) (v : ArrayXX F)
    (h : y.index ≠ x.index) : (s.assign x v).read y = s.read y := by
  unfold Store.assign Store.read
  beta_reduce
  rw [if_neg h]

/-- The mask engine of the variance model writes through its third argument: called
with `m_nvf` bound to the array of the image, it replaces the image by the mask. -/
theorem compute_NVF_mask_at_writes {F : Type} [LinearOrderedField F]
    (obj : WatermarkFunctions F) (image padded m_nvf : Loc) (s t : Store F)
    (h : compute_NVF_mask_at obj image padded m_nvf s = some t) :
    ∃ zero mask, ArrayXX.Constant obj.rows obj.cols (0 : F) = some zero ∧
      compute_NVF_mask obj ((s.assign m_nvf zero).read image)
        ((s.assign m_nvf zero).read padded) = some mask ∧
      t.read m_nvf = mask ∧ ∀ y : Loc, y.index ≠ m_nvf.index → t.read y = s.read y := by
  unfold compute_NVF_mask_at at h
  obtain ⟨zero, hz, h⟩ := Option.bind_eq_some.mp h
  obtain ⟨mask, hm, h⟩ := Option.bind_eq_some.mp h
  cases h
  refine ⟨zero, mask, hz, hm, Store.read_assign_same _ _ _, ?_⟩
  intro y hy
  rw [Store.read_assign_other _ _ _ _ hy, Store.read_assign_other _ _ _ _ hy]

/-- The engines use the scalar members of the object only: replacing its array
members changes none of them. -/
theorem engines_with_arrays {F : Type} [LinearOrderedField F] (rt : Runtime F)
    (obj : WatermarkFunctions F) (I W : ArrayXX F) :
    compute_NVF_mask (obj.with_arrays I W) = compute_NVF_mask obj ∧
    compute_prediction_error_mask rt (obj.with_arrays I W) =
      compute_prediction_error_mask rt obj ∧
    padded_of (obj.with_arrays I W) = padded_of obj :=
  ⟨rfl, rfl, rfl⟩

/-- C16: `make_and_add_watermark`, run on arrays in memory with its callees writing
through their reference arguments, from any contents `s` of the arrays: it returns
exactly when the method has a value on the members `image`, `w` held in `s`; the
array returned is that value and is held in `Loc.returned`, an array other than
`image` and `w`; and after the call the arrays `image` and `w` hold what they held
before, under either model. -/
theorem make_and_add_watermark_frame {F : Type} [LinearOrderedField F] (rt : Runtime F)
    (obj : WatermarkFunctions F) (is_custom_mask : Bool) (s : Store F) :
    (make_and_add_watermark_at rt obj is_custom_mask s).map (fun t =>
        (t.read Loc.returned, t.read Loc.member_image, t.read Loc.member_w)) =
      (make_and_add_watermark rt
        (obj.with_arrays (s.read Loc.member_image) (s.read Loc.member_w))
        is_custom_mask).map (fun Y => (Y, s.read Loc.member_image, s.read Loc.member_w)) ∧
    Loc.returned.index ≠ Loc.member_image.index ∧
    Loc.returned.index ≠ Loc.member_w.index := by
  refine ⟨?_, by decide, by decide⟩
  obtain ⟨e1, e2, e3⟩ := engines_with_arrays rt obj (s.read Loc.member_image)
    (s.read Loc.member_w)
  have hR : make_and_add_watermark rt
      (obj.with_arrays (s.read Loc.member_image) (s.read Loc.member_w)) is_custom_mask =
      ((((padded_of obj (s.read Loc.member_image)).bind fun padded =>
        (if is_custom_mask then compute_NVF_mask obj (s.read Loc.member_image) padded
          else (compute_prediction_error_mask rt obj (s.read Loc.member_image) padded
            true).map fun r => r.1).bind fun m =>
        m.zipWith (fun a b => a * b) (s.read Loc.member_w)).bind fun u =>
      (fdiv (u.map fun x => x ^ 2).sum ((obj.rows * obj.cols : Nat) : F)).bind fun q =>
      (fdiv 255 (rt.sqrt (rt.pow 10 (obj.psnr / 10)))).bind fun num =>
      (fdiv num (rt.sqrt q)).bind fun a =>
      (s.read Loc.member_image).zipWith (fun x y => x + y) (u.map fun x => a * x))) := by
    unfold make_and_add_watermark watermark_pattern
    rw [e1, e2, e3]
    rfl
  rw [hR]
  unfold make_and_add_watermark_at padded_of
    compute_NVF_mask_at compute_prediction_error_mask_at compute_error_sequence_at
    compute_prediction_error_mask
  simp only [Store.read, Store.assign, Loc.index, Constant_natCast, Option.some_bind,
    Nat.reduceEqDiff, OfNat.zero_ne_ofNat, if_true, if_false, reduceIte]
  cases ArrayXX.Constant obj.padded_rows obj.padded_cols (0 : F) with
  | none => rfl
  | some P0 =>
    simp only [Option.some_bind]
    cases P0.setBlock obj.pad obj.pad (obj.padded_rows - obj.pad - obj.pad)
        (obj.padded_cols - obj.pad - obj.pad) (s Loc.member_image) with
    | none => rfl
    | some P =>
      simp only [Option.some_bind]
      cases is_custom_mask with
      | true =>
        simp only [if_true]
        cases compute_NVF_mask obj (s Loc.member_image) P with
        | none => rfl
        | some m =>
          simp only [Store.read, Store.assign, Loc.index, Option.some_bind, Option.map_some',
            Nat.reduceEqDiff, OfNat.zero_ne_ofNat, if_true, if_false, reduceIte]
          cases m.zipWith (fun a b => a * b) (s Loc.member_w) with
          | none => rfl
          | some u =>
            simp only [Option.some_bind]
            cases fdiv (u.map fun x => x ^ 2).sum ((obj.rows * obj.cols : Nat) : F) with
            | none => rfl
            | some q =>
              simp only [Option.some_bind]
              cases fdiv 255 (rt.sqrt (rt.pow 10 (obj.psnr / 10))) with
              | none => rfl
              | some num =>
                simp only [Option.some_bind]
                cases fdiv num (rt.sqrt q) with
                | none => rfl
                | some a =>
                  simp only [Option.some_bind]
                  cases (s Loc.member_image).zipWith (fun x y => x + y)
                      (u.map fun x => a * x) with
                  | none => rfl
                  | some Y =>
                    simp only [Store.read, Store.assign, Loc.index, Option.some_bind, Option.map_some',
                      Nat.reduceEqDiff, OfNat.zero_ne_ofNat, if_true, if_false, reduceIte]
      | false =>
        simp only [Bool.false_eq_true, if_false]
        cases fit_threads rt obj (s Loc.member_image) P with
        | none => rfl
        | some acc =>
          simp only [Option.some_bind]
          cases compute_error_sequence obj (s Loc.member_image) P
              ⟨(fit_reduce obj acc.1 acc.2.1 acc.2.2.1 acc.2.2.2).2.cols,
                (fit_reduce obj acc.1 acc.2.1 acc.2.2.1 acc.2.2.2).1.cols,
                fun a b => rt.solve (fit_reduce obj acc.1 acc.2.1 acc.2.2.1 acc.2.2.2).1
                  (fit_reduce obj acc.1 acc.2.1 acc.2.2.1 acc.2.2.2).2 b a⟩ with
          | none => rfl
          | some e =>
            simp only [Store.read, Store.assign, Loc.index, Option.some_bind, Option.map_some',
              Nat.reduceEqDiff, OfNat.zero_ne_ofNat, if_true, if_false, reduceIte]
            cases abs_over_max e with
            | none => rfl
            | some m =>
              simp only [Store.read, Store.assign, Loc.index, Option.some_bind, Option.map_some',
                Nat.reduceEqDiff, OfNat.zero_ne_ofNat, if_true, if_false, reduceIte]
              cases m.zipWith (fun a b => a * b) (s Loc.member_w) with
              | none => rfl
              | some u =>
                simp only [Option.some_bind]
                cases fdiv (u.map fun x => x ^ 2).sum ((obj.rows * obj.cols : Nat) : F) with
                | none => rfl
                | some q =>
                  simp only [Option.some_bind]
                  cases fdiv 255 (rt.sqrt (rt.pow 10 (obj.psnr / 10))) with
                  | none => rfl
                  | some num =>
                    simp only [Option.some_bind]
                    cases fdiv num (rt.sqrt q) with
                    | none => rfl
                    | some a =>
                      simp only [Option.some_bind]
                      cases (s Loc.member_image).zipWith (fun x y => x + y)
                          (u.map fun x => a * x) with
                      | none => rfl
                      | some Y =>
                        simp only [Store.read, Store.assign, Loc.index, Option.some_bind, Option.map_some',
                          Nat.reduceEqDiff, OfNat.zero_ne_ofNat, if_true, if_false, reduceIte]

/-- C17: for a positive window side, `pad = (p - 1) / 2` and a padded image of
`(rows + 2 pad) x (cols + 2 pad)`, the window of every pixel `(r, c)` of the image lies
in the padded image: its first row and column are not negative, its last row and
column are below `padded_rows` and `padded_cols`, and the `block` read of the window
has a value, both with the centre `(pad + r, pad + c)` of `compute_NVF_mask` and
`compute_prediction_error_mask` and with the centre `(r + pad, c + pad)` of
`compute_error_sequence`. -/
theorem windows_in_bounds {F : Type} (obj : WatermarkFunctions F) (padded : ArrayXX F)
    (hp : 0 < obj.p) (hpad : obj.pad = (obj.p - 1).tdiv 2)
    (hrows : (padded.rows : Int) = obj.rows + 2 * obj.pad)
    (hcols : (padded.cols : Int) = obj.cols + 2 * obj.pad)
    (r c : Nat) (hr : r < obj.rows) (hc : c < obj.cols) :
    (0 ≤ (obj.pad + r) - (obj.p - 1).tdiv 2 ∧
      (obj.pad + r) + (obj.p - 1).tdiv 2 < padded.rows ∧
      0 ≤ (obj.pad + c) - (obj.p - 1).tdiv 2 ∧
      (obj.pad + c) + (obj.p - 1).tdiv 2 < padded.cols) ∧
    (padded.block ((obj.pad + r) - (obj.p - 1).tdiv 2) ((obj.pad + c) - (obj.p - 1).tdiv 2)
      (((obj.pad + r) + (obj.p - 1).tdiv 2) - ((obj.pad + r) - (obj.p - 1).tdiv 2) + 1)
      (((obj.pad + c) + (obj.p - 1).tdiv 2) - ((obj.pad + c) - (obj.p - 1).tdiv 2) + 1)).isSome
        = true ∧
    (padded.block (((r : Int) + obj.pad) - (obj.p - 1).tdiv 2)
      (((c : Int) + obj.pad) - (obj.p - 1).tdiv 2)
      ((((r : Int) + obj.pad) + (obj.p - 1).tdiv 2) -
        (((r : Int) + obj.pad) - (obj.p - 1).tdiv 2) + 1)
      ((((c : Int) + obj.pad) + (obj.p - 1).tdiv 2) -
        (((c : Int) + obj.pad) - (obj.p - 1).tdiv 2) + 1)).isSome = true := by
  have hns : 0 ≤ (obj.p - 1).tdiv 2 := Int.tdiv_nonneg (by omega) (by norm_num)
  rw [hpad] at hrows hcols
  rw [hpad]
  generalize (obj.p - 1).tdiv 2 = ns at *
  refine ⟨⟨by omega, by omega, by omega, by omega⟩, ?_, ?_⟩
  · unfold ArrayXX.block
    rw [if_pos]
    · rfl
    · exact ⟨by omega, by omega, by omega, by omega, by omega, by omega⟩
  · unfold ArrayXX.block
    rw [if_pos]
    · rfl
    · exact ⟨by omega, by omega, by omega, by omega, by omega, by omega⟩

/-- C17, witness: pixel `(0, 1)` of the image `(1, 2)` of one row, `p = 3`, in its
zero-padded copy of `3 x 4` cells. -/
theorem windows_in_bounds_witness :
    (0 ≤ (Example.pair_object.pad + (0 : Nat)) - (Example.pair_object.p - 1).tdiv 2 ∧
      (Example.pair_object.pad + (0 : Nat)) + (Example.pair_object.p - 1).tdiv 2 <
        (Spec.zero_padded 1 Example.pair).rows ∧
      0 ≤ (Example.pair_object.pad + (1 : Nat)) - (Example.pair_object.p - 1).tdiv 2 ∧
      (Example.pair_object.pad + (1 : Nat)) + (Example.pair_object.p - 1).tdiv 2 <
        (Spec.zero_padded 1 Example.pair).cols) ∧
    ((Spec.zero_padded 1 Example.pair).block
      ((Example.pair_object.pad + (0 : Nat)) - (Example.pair_object.p - 1).tdiv 2)
      ((Example.pair_object.pad + (1 : Nat)) - (Example.pair_object.p - 1).tdiv 2)
      (((Example.pair_object.pad + (0 : Nat)) + (Example.pair_object.p - 1).tdiv 2) -
        ((Example.pair_object.pad + (0 : Nat)) - (Example.pair_object.p - 1).tdiv 2) + 1)
      (((Example.pair_object.pad + (1 : Nat)) + (Example.pair_object.p - 1).tdiv 2) -
        ((Example.pair_object.pad + (1 : Nat)) - (Example.pair_object.p - 1).tdiv 2) + 1)).isSome
        = true ∧
    ((Spec.zero_padded 1 Example.pair).block
      ((((0 : Nat) : Int) + Example.pair_object.pad) - (Example.pair_object.p - 1).tdiv 2)
      ((((1 : Nat) : Int) + Example.pair_object.pad) - (Example.pair_object.p - 1).tdiv 2)
      (((((0 : Nat) : Int) + Example.pair_object.pad) + (Example.pair_object.p - 1).tdiv 2) -
        ((((0 : Nat) : Int) + Example.pair_object.pad) - (Example.pair_object.p - 1).tdiv 2) + 1)
      (((((1 : Nat) : Int) + Example.pair_object.pad) + (Example.pair_object.p - 1).tdiv 2) -
        ((((1 : Nat) : Int) + Example.pair_object.pad) - (Example.pair_object.p - 1).tdiv 2) + 1)).isSome
        = true :=
  windows_in_bounds Example.pair_object (Spec.zero_padded 1 Example.pair) (by decide) rfl
    (by decide) (by decide) 0 1 (by decide) (by decide)

/-- Scaling the second factor of a coefficient-wise product scales the product. -/
theorem zipWith_scale {F : Type} [LinearOrderedField F] (m w : ArrayXX F) (k : F) :
    m.zipWith (fun a b => a * b) (w.map fun x => k * x) =
      (m.zipWith (fun a b => a * b) w).map (ArrayXX.map fun x => k * x) := by
  unfold ArrayXX.zipWith ArrayXX.map
  dsimp only
  by_cases h : m.rows = w.rows ∧ m.cols = w.cols
  · rw [if_pos h, if_pos h, Option.map_some']
    congr 2
    funext i j
    ring
  · rw [if_neg h, if_neg h]
    rfl

/-- The sum of the squares of a scaled array. -/
theorem sum_sq_scale {F : Type} [LinearOrderedField F] (u : ArrayXX F) (k : F) :
    ((u.map fun x => k * x).map fun x => x ^ 2).sum = k ^ 2 * (u.map fun x => x ^ 2).sum := by
  unfold ArrayXX.sum ArrayXX.map
  dsimp only
  rw [Finset.mul_sum]
  apply Finset.sum_congr rfl
  intro j _
  rw [Finset.mul_sum]
  apply Finset.sum_congr rfl
  intro i _
  ring

/-- A loop nest whose every iteration is mapped by `g` fills the mapped array. -/
theorem tabulate_map {α β : Type} (g : α → β) (d : α) (d2 : β) (hd : g d = d2)
    (rows cols : Nat) (f : Nat → Nat → Option α) :
    ArrayXX.tabulate d2 rows cols (fun i j => (f i j).map g) =
      (ArrayXX.tabulate d rows cols f).map (ArrayXX.map g) := by
  unfold ArrayXX.tabulate
  by_cases h : ∀ i < rows, ∀ j < cols, (f i j).isSome = true
  · rw [if_pos h, if_pos (by
      intro i hi j hj
      rw [Option.isSome_map']
      exact h i hi j hj), Option.map_some']
    unfold ArrayXX.map
    dsimp only
    congr 2
    funext i j
    cases f i j with
    | none => exact hd.symm
    | some a => rfl
  · rw [if_neg h, if_neg (by
      intro h2
      apply h
      intro i hi j hj
      have := h2 i hi j hj
      rwa [Option.isSome_map'] at this)]
    rfl

/-- Reading a window commutes with a coefficient-wise map. -/
theorem block_map {α β : Type} (f : α → β) (P : ArrayXX α) (a b c d : Int) :
    (P.map f).block a b c d = (P.block a b c d).map (ArrayXX.map f) := by
  unfold ArrayXX.block
  by_cases h : P.blockInRange a b c d
  · rw [if_pos h, if_pos (show (P.map f).blockInRange a b c d from h)]
    rfl
  · rw [if_neg h, if_neg (show ¬ (P.map f).blockInRange a b c d from h)]
    rfl

/-- Copying cells commutes with a map of the written cells. -/
theorem memcpy_map {α β : Type} (f : α → β) (dst src : VectorX (Option α)) (a b : Nat)
    (n : Int) :
    memcpy (dst.mapCells f) a (src.mapCells f) b n =
      (memcpy dst a src b n).map (VectorX.mapCells f) := by
  unfold memcpy
  by_cases h : 0 ≤ n ∧ (a : Int) + n ≤ dst.size ∧ (b : Int) + n ≤ src.size
  · rw [if_pos h, if_pos (show 0 ≤ n ∧ (a : Int) + n ≤ (dst.mapCells f).size ∧
      (b : Int) + n ≤ (src.mapCells f).size from h), Option.map_some']
    unfold VectorX.mapCells
    dsimp only
    congr 2
    funext k
    split <;> rfl
  · rw [if_neg h, if_neg (show ¬ (0 ≤ n ∧ (a : Int) + n ≤ (dst.mapCells f).size ∧
      (b : Int) + n ≤ (src.mapCells f).size) from h)]
    rfl

/-- The neighbourhood buffer of a mapped array is the mapped buffer. -/
theorem create_neighbors_map {F : Type} (f : F → F) (obj : WatermarkFunctions F)
    (P : ArrayXX F) (i j p p_squared : Int) :
    create_neighbors obj (P.map f) i j p p_squared =
      (create_neighbors obj P i j p p_squared).map (VectorX.mapCells f) := by
  unfold create_neighbors
  dsimp only
  by_cases hN : p_squared - 1 < 0
  · rw [if_pos hN, if_pos hN]
    rfl
  rw [if_neg hN, if_neg hN, block_map]
  cases P.block (i - (p - 1).tdiv 2) (j - (p - 1).tdiv 2)
      (i + (p - 1).tdiv 2 - (i - (p - 1).tdiv 2) + 1)
      (j + (p - 1).tdiv 2 - (j - (p - 1).tdiv 2) + 1) with
  | none => rfl
  | some B =>
    simp only [Option.map_some', Option.some_bind]
    have hbuf : (B.map f).dataBuf = B.dataBuf.mapCells f := rfl
    have h1 : memcpy (⟨(p_squared - 1).toNat, fun _ => none⟩ : VectorX (Option F)) 0
        (B.dataBuf.mapCells f) 0 obj.p_squared_minus_one_div_2 =
        (memcpy (⟨(p_squared - 1).toNat, fun _ => none⟩ : VectorX (Option F)) 0 B.dataBuf 0
          obj.p_squared_minus_one_div_2).map (VectorX.mapCells f) :=
      memcpy_map f ⟨(p_squared - 1).toNat, fun _ => none⟩ B.dataBuf 0 0
        obj.p_squared_minus_one_div_2
    rw [hbuf, h1]
    cases memcpy (⟨(p_squared - 1).toNat, fun _ => none⟩ : VectorX (Option F)) 0 B.dataBuf 0
        obj.p_squared_minus_one_div_2 with
    | none => rfl
    | some y =>
      simp only [Option.map_some', Option.some_bind]
      rw [memcpy_map]

/-- The contents of a mapped buffer. -/
theorem values_map {α : Type} (f : α → α) (d : α) (hd : f d = d) (x : VectorX (Option α)) :
    (x.mapCells f).values d = (x.values d).map (VectorX.map f) := by
  unfold VectorX.values VectorX.mapCells
  dsimp only
  by_cases h : ∀ k < x.size, (x.coeff k).isSome = true
  · rw [if_pos h, if_pos (by
      intro k hk
      rw [Option.isSome_map']
      exact h k hk), Option.map_some']
    unfold VectorX.map
    dsimp only
    congr 2
    funext k
    cases x.coeff k with
    | none => exact hd.symm
    | some a => rfl
  · rw [if_neg h, if_neg (by
      intro h2
      apply h
      intro k hk
      have := h2 k hk
      rwa [Option.isSome_map'] at this)]
    rfl

/-- The error sequence is homogeneous in the pair (array, padded array), for fixed
coefficients. -/
theorem compute_error_sequence_scale {F : Type} [LinearOrderedField F]
    (obj : WatermarkFunctions F) (u Pu c : ArrayXX F) (k : F) :
    compute_error_sequence obj (u.map fun x => k * x) (Pu.map fun x => k * x) c =
      (compute_error_sequence obj u Pu c).map (ArrayXX.map fun x => k * x) := by
  unfold compute_error_sequence
  rw [Constant_natCast]
  simp only [Option.some_bind]
  rw [← tabulate_map (fun x => k * x) 0 0 (mul_zero k)]
  congr 1
  funext i j
  rw [create_neighbors_map]
  cases create_neighbors obj Pu ((i : Int) + obj.pad) ((j : Int) + obj.pad) obj.p
      obj.p_squared with
  | none => rfl
  | some y =>
    simp only [Option.map_some', Option.some_bind]
    rw [values_map (fun x => k * x) 0 (mul_zero k)]
    cases y.values 0 with
    | none => rfl
    | some x =>
      simp only [Option.map_some', Option.some_bind]
      unfold ArrayXX.entry
      by_cases hin : i < u.rows ∧ j < u.cols
      swap
      · rw [if_neg hin, if_neg (show ¬ (i < (u.map fun x => k * x).rows ∧
          j < (u.map fun x => k * x).cols) from hin)]
        rfl
      rw [if_pos hin, if_pos (show i < (u.map fun x => k * x).rows ∧
          j < (u.map fun x => k * x).cols from hin)]
      simp only [Option.some_bind]
      unfold ArrayXX.mulVec
      by_cases hsz : c.cols = x.size
      swap
      · rw [if_neg hsz, if_neg (show ¬ c.cols = (VectorX.map (fun x => k * x) x).size from hsz)]
        rfl
      rw [if_pos hsz, if_pos (show c.cols = (VectorX.map (fun x => k * x) x).size from hsz)]
      simp only [Option.some_bind]
      unfold VectorX.entry
      dsimp only
      by_cases hrow : 0 < c.rows
      swap
      · rw [if_neg hrow, if_neg hrow]
        rfl
      rw [if_pos hrow, if_pos hrow]
      simp only [Option.some_bind, Option.map_some']
      congr 1
      show k * u.coeff i j - ∑ q in range c.cols, c.coeff 0 q * (k * x.coeff q) =
        k * (u.coeff i j - ∑ q in range c.cols, c.coeff 0 q * x.coeff q)
      rw [mul_sub, Finset.mul_sum]
      congr 1
      apply Finset.sum_congr rfl
      intro q _
      ring

/-- Overwriting the inner block of the padded copy of an array gives the padded copy
of the array written. -/
theorem setBlock_padded_of {F : Type} [LinearOrderedField F] (obj : WatermarkFunctions F)
    (Z P u : ArrayXX F) (hP : padded_of obj Z = some P) :
    P.setBlock obj.pad obj.pad ((obj.padded_rows - obj.pad) - obj.pad)
      ((obj.padded_cols - obj.pad) - obj.pad) u = padded_of obj u := by
  unfold padded_of at hP ⊢
  cases hC : ArrayXX.Constant obj.padded_rows obj.padded_cols (0 : F) with
  | none =>
    rw [hC] at hP
    cases hP
  | some C =>
    rw [hC, Option.some_bind] at hP
    rw [Option.some_bind]
    have hC0 : ∀ a b, C.coeff a b = 0 := by
      unfold ArrayXX.Constant at hC
      split at hC
      · cases hC
        intro a b
        rfl
      · cases hC
    unfold ArrayXX.setBlock at hP ⊢
    split at hP
    swap
    · cases hP
    rename_i hcond
    cases hP
    dsimp only
    by_cases hu : C.blockInRange obj.pad obj.pad ((obj.padded_rows - obj.pad) - obj.pad)
        ((obj.padded_cols - obj.pad) - obj.pad) ∧
        (u.rows : Int) = (obj.padded_rows - obj.pad) - obj.pad ∧
        (u.cols : Int) = (obj.padded_cols - obj.pad) - obj.pad
    · rw [if_pos hu, if_pos hu]
      congr 2
      funext a b
      by_cases hin : obj.pad.toNat ≤ a ∧ a < obj.pad.toNat + u.rows ∧
          obj.pad.toNat ≤ b ∧ b < obj.pad.toNat + u.cols
      · rw [if_pos hin, if_pos hin]
      · rw [if_neg hin, if_neg hin, hC0, if_neg]
        have h1 : Z.rows = u.rows := by omega
        have h2 : Z.cols = u.cols := by omega
        rw [h1, h2]
        exact hin
    · rw [if_neg hu, if_neg hu]

/-- The padded copy of a scaled array is the scaled padded copy. -/
theorem padded_of_scale {F : Type} [LinearOrderedField F] (obj : WatermarkFunctions F)
    (u : ArrayXX F) (k : F) :
    padded_of obj (u.map fun x => k * x) =
      (padded_of obj u).map (ArrayXX.map fun x => k * x) := by
  unfold padded_of
  cases hC : ArrayXX.Constant obj.padded_rows obj.padded_cols (0 : F) with
  | none => rfl
  | some C =>
    simp only [Option.some_bind]
    have hC0 : ∀ a b, C.coeff a b = 0 := by
      unfold ArrayXX.Constant at hC
      split at hC
      · cases hC
        intro a b
        rfl
      · cases hC
    unfold ArrayXX.setBlock
    by_cases hu : C.blockInRange obj.pad obj.pad ((obj.padded_rows - obj.pad) - obj.pad)
        ((obj.padded_cols - obj.pad) - obj.pad) ∧
        (u.rows : Int) = (obj.padded_rows - obj.pad) - obj.pad ∧
        (u.cols : Int) = (obj.padded_cols - obj.pad) - obj.pad
    · rw [if_pos hu, if_pos (show C.blockInRange obj.pad obj.pad
        ((obj.padded_rows - obj.pad) - obj.pad) ((obj.padded_cols - obj.pad) - obj.pad) ∧
        ((u.map fun x => k * x).rows : Int) = (obj.padded_rows - obj.pad) - obj.pad ∧
        ((u.map fun x => k * x).cols : Int) = (obj.padded_cols - obj.pad) - obj.pad from hu),
        Option.map_some']
      unfold ArrayXX.map
      dsimp only
      congr 2
      funext a b
      by_cases hin : obj.pad.toNat ≤ a ∧ a < obj.pad.toNat + u.rows ∧
          obj.pad.toNat ≤ b ∧ b < obj.pad.toNat + u.cols
      · rw [if_pos hin, if_pos hin]
      · rw [if_neg hin, if_neg hin, hC0, mul_zero]
    · rw [if_neg hu, if_neg (show ¬ (C.blockInRange obj.pad obj.pad
        ((obj.padded_rows - obj.pad) - obj.pad) ((obj.padded_cols - obj.pad) - obj.pad) ∧
        ((u.map fun x => k * x).rows : Int) = (obj.padded_rows - obj.pad) - obj.pad ∧
        ((u.map fun x => k * x).cols : Int) = (obj.padded_cols - obj.pad) - obj.pad) from hu)]
      rfl

/-- The pattern `u = m * w` is homogeneous in the reference pattern: the mask does not
depend on it. -/
theorem watermark_pattern_scale {F : Type} [LinearOrderedField F] (rt : Runtime F)
    (obj : WatermarkFunctions F) (b : Bool) (k : F) :
    watermark_pattern rt (obj.with_pattern (obj.w.map fun x => k * x)) b =
      (watermark_pattern rt obj b).map (ArrayXX.map fun x => k * x) := by
  unfold watermark_pattern
  show (padded_of obj obj.image).bind (fun padded =>
    (if b then compute_NVF_mask obj obj.image padded
      else (compute_prediction_error_mask rt obj obj.image padded true).map fun r => r.1).bind
      fun m => m.zipWith (fun a b => a * b) (obj.w.map fun x => k * x)) = _
  cases padded_of obj obj.image with
  | none => rfl
  | some P =>
    simp only [Option.some_bind]
    cases (if b then compute_NVF_mask obj obj.image P
      else (compute_prediction_error_mask rt obj obj.image P true).map fun r => r.1) with
    | none => rfl
    | some m =>
      simp only [Option.some_bind]
      exact zipWith_scale m obj.w k

/-- The residual fields of the detector under a scaled reference pattern: the field of
the received image is unchanged, the field of the pattern is scaled. -/
theorem detector_error_sequences_scale {F : Type} [LinearOrderedField F] (rt : Runtime F)
    (obj : WatermarkFunctions F) (Z : ArrayXX F) (b : Bool) (k : F) :
    detector_error_sequences rt (obj.with_pattern (obj.w.map fun x => k * x)) Z b =
      (detector_error_sequences rt obj Z b).map
        (fun e => (e.1, e.2.map fun x => k * x)) := by
  unfold detector_error_sequences
  show (padded_of obj Z).bind (fun padded =>
    (if b then
      (compute_prediction_error_mask rt obj Z padded false).bind fun r =>
      (compute_NVF_mask obj Z padded).bind fun m =>
      some (m, r.2.1, r.2.2)
     else compute_prediction_error_mask rt obj Z padded true).bind fun r =>
    (r.1.zipWith (fun a b => a * b) (obj.w.map fun x => k * x)).bind fun u =>
    (padded.setBlock obj.pad obj.pad ((obj.padded_rows - obj.pad) - obj.pad)
      ((obj.padded_cols - obj.pad) - obj.pad) u).bind fun padded =>
    (compute_error_sequence obj u padded r.2.2).bind fun e_u =>
    some (r.2.1, e_u)) = _
  cases hP : padded_of obj Z with
  | none => rfl
  | some P =>
    simp only [Option.some_bind]
    cases (if b then
      (compute_prediction_error_mask rt obj Z P false).bind fun r =>
      (compute_NVF_mask obj Z P).bind fun m =>
      some (m, r.2.1, r.2.2)
     else compute_prediction_error_mask rt obj Z P true) with
    | none => rfl
    | some r =>
      simp only [Option.some_bind]
      rw [zipWith_scale]
      cases r.1.zipWith (fun a b => a * b) obj.w with
      | none => rfl
      | some u =>
        simp only [Option.map_some', Option.some_bind]
        rw [setBlock_padded_of obj Z P _ hP, setBlock_padded_of obj Z P _ hP, padded_of_scale]
        cases padded_of obj u with
        | none => rfl
        | some Pu =>
          simp only [Option.map_some', Option.some_bind]
          rw [compute_error_sequence_scale]
          cases compute_error_sequence obj u Pu r.2.2 with
          | none => rfl
          | some e_u => rfl

/-- The square root of a square multiple. -/
theorem sqrt_scale {F : Type} [LinearOrderedField F] (rt : Runtime F)
    (hsqrt : ∀ x : F, 0 ≤ x → 0 ≤ rt.sqrt x ∧ rt.sqrt x * rt.sqrt x = x) (k S : F)
    (hS : 0 ≤ S) : rt.sqrt (k ^ 2 * S) = |k| * rt.sqrt S := by
  obtain ⟨h0, h1⟩ := hsqrt S hS
  apply sqrt_of_mul_self rt hsqrt
  · exact mul_nonneg (abs_nonneg k) h0
  · calc |k| * rt.sqrt S * (|k| * rt.sqrt S) = (|k| * |k|) * (rt.sqrt S * rt.sqrt S) := by ring
      _ = k ^ 2 * S := by rw [h1, abs_mul_abs_self, sq]

/-- The quotient of the detector is sign-homogeneous of degree 0 in the second field. -/
theorem correlation_scale {F : Type} [LinearOrderedField F] (rt : Runtime F)
    (hsqrt : ∀ x : F, 0 ≤ x → 0 ≤ rt.sqrt x ∧ rt.sqrt x * rt.sqrt x = x)
    (e_z e_u : ArrayXX F) (k : F) (hk : k ≠ 0) :
    correlation rt e_z (e_u.map fun x => k * x) =
      (correlation rt e_z e_u).map fun s => (if 0 < k then 1 else -1) * s := by
  unfold correlation
  rw [zipWith_scale]
  cases e_z.zipWith (fun a b => a * b) e_u with
  | none => rfl
  | some prod =>
    simp only [Option.map_some', Option.some_bind]
    rw [sum_sq_scale, sqrt_scale rt hsqrt k _ (sum_sq_nonneg e_u)]
    have hsum : (prod.map fun x => k * x).sum = k * prod.sum := by
      unfold ArrayXX.sum ArrayXX.map
      dsimp only
      rw [Finset.mul_sum]
      apply Finset.sum_congr rfl
      intro j _
      rw [Finset.mul_sum]
    rw [hsum]
    have hak : |k| ≠ 0 := abs_ne_zero.mpr hk
    by_cases hz : rt.sqrt (e_z.map fun x => x ^ 2).sum * rt.sqrt (e_u.map fun x => x ^ 2).sum = 0
    · have hz2 : rt.sqrt (e_z.map fun x => x ^ 2).sum *
          (|k| * rt.sqrt (e_u.map fun x => x ^ 2).sum) = 0 := by
        rw [mul_left_comm, hz, mul_zero]
      rw [hz, hz2, fdiv_zero_right, fdiv_zero_right]
      rfl
    · have hz2 : rt.sqrt (e_z.map fun x => x ^ 2).sum *
          (|k| * rt.sqrt (e_u.map fun x => x ^ 2).sum) ≠ 0 := by
        rw [mul_left_comm]
        exact mul_ne_zero hak hz
      rw [fdiv_of_ne _ hz, fdiv_of_ne _ hz2, Option.map_some']
      congr 1
      obtain ⟨ha, hb⟩ := mul_ne_zero_iff.mp hz
      by_cases hpos : 0 < k
      · rw [if_pos hpos, abs_of_pos hpos]
        field_simp
        ring
      · rw [if_neg hpos, abs_of_neg (lt_of_le_of_ne (not_lt.mp hpos) hk)]
        field_simp
        ring

/-- The embedder under a reference pattern scaled by `k ≠ 0`: the watermark added to
the image is multiplied by the sign of `k`. -/
theorem make_and_add_watermark_scale {F : Type} [LinearOrderedField F] (rt : Runtime F)
    (hsqrt : ∀ x : F, 0 ≤ x → 0 ≤ rt.sqrt x ∧ rt.sqrt x * rt.sqrt x = x)
    (obj : WatermarkFunctions F) (b : Bool) (k : F) (hk : k ≠ 0) :
    make_and_add_watermark rt (obj.with_pattern (obj.w.map fun x => k * x)) b =
      (make_and_add_watermark rt obj b).map fun Y =>
        ⟨Y.rows, Y.cols, fun i j => obj.image.coeff i j +
          (if 0 < k then 1 else -1) * (Y.coeff i j - obj.image.coeff i j)⟩ := by
  unfold make_and_add_watermark
  rw [watermark_pattern_scale]
  show ((watermark_pattern rt obj b).map (ArrayXX.map fun x => k * x)).bind (fun u =>
    (fdiv (u.map fun x => x ^ 2).sum ((obj.rows * obj.cols : Nat) : F)).bind fun q =>
    (fdiv 255 (rt.sqrt (rt.pow 10 (obj.psnr / 10)))).bind fun num =>
    (fdiv num (rt.sqrt q)).bind fun a =>
    obj.image.zipWith (fun x y => x + y) (u.map fun x => a * x)) = _
  cases watermark_pattern rt obj b with
  | none => rfl
  | some u =>
    simp only [Option.map_some', Option.some_bind]
    rw [sum_sq_scale]
    by_cases hN : ((obj.rows * obj.cols : Nat) : F) = 0
    · rw [hN, fdiv_zero_right, fdiv_zero_right]
      rfl
    rw [fdiv_of_ne _ hN, fdiv_of_ne _ hN]
    simp only [Option.some_bind]
    cases fdiv 255 (rt.sqrt (rt.pow 10 (obj.psnr / 10))) with
    | none => rfl
    | some num =>
      simp only [Option.some_bind]
      have hq : 0 ≤ (u.map fun x => x ^ 2).sum / ((obj.rows * obj.cols : Nat) : F) :=
        div_nonneg (sum_sq_nonneg u) (Nat.cast_nonneg _)
      rw [mul_div_assoc, sqrt_scale rt hsqrt k _ hq]
      have hak : |k| ≠ 0 := abs_ne_zero.mpr hk
      generalize rt.sqrt ((u.map fun x => x ^ 2).sum / ((obj.rows * obj.cols : Nat) : F)) = s
      by_cases hz : s = 0
      · rw [hz, mul_zero, fdiv_zero_right]
        rfl
      rw [fdiv_of_ne _ hz, fdiv_of_ne _ (mul_ne_zero hak hz)]
      simp only [Option.some_bind]
      unfold ArrayXX.zipWith ArrayXX.map
      dsimp only
      by_cases hd : obj.image.rows = u.rows ∧ obj.image.cols = u.cols
      swap
      · rw [if_neg hd, if_neg hd]
        rfl
      rw [if_pos hd, if_pos hd, Option.map_some']
      congr 2
      funext i j
      by_cases hpos : 0 < k
      · rw [if_pos hpos, abs_of_pos hpos]
        field_simp
        ring
      · rw [if_neg hpos, abs_of_neg (lt_of_le_of_ne (not_lt.mp hpos) hk)]
        field_simp
        ring

/-- C19: with the reference pattern `W` replaced by `k W`, `make_and_add_watermark`
returns for `k > 0` exactly what it returns with `W`, and for `k < 0` the image minus
the watermark it adds with `W`, under either model. -/
theorem make_and_add_watermark_scale_invariant {F : Type} [LinearOrderedField F]
    (rt : Runtime F)
    (hsqrt : ∀ x : F, 0 ≤ x → 0 ≤ rt.sqrt x ∧ rt.sqrt x * rt.sqrt x = x)
    (obj : WatermarkFunctions F) (is_custom_mask : Bool) (k : F) :
    (0 < k → make_and_add_watermark rt (obj.with_pattern (obj.w.map fun x => k * x))
        is_custom_mask = make_and_add_watermark rt obj is_custom_mask) ∧
    (k < 0 → make_and_add_watermark rt (obj.with_pattern (obj.w.map fun x => k * x))
        is_custom_mask = (make_and_add_watermark rt obj is_custom_mask).map fun Y =>
          ⟨Y.rows, Y.cols, fun i j =>
            obj.image.coeff i j - (Y.coeff i j - obj.image.coeff i j)⟩) := by
  constructor
  · intro hpos
    rw [make_and_add_watermark_scale rt hsqrt obj is_custom_mask k (ne_of_gt hpos)]
    cases make_and_add_watermark rt obj is_custom_mask with
    | none => rfl
    | some Y =>
      rw [Option.map_some', if_pos hpos]
      congr 1
      show (⟨Y.rows, Y.cols, fun i j => obj.image.coeff i j +
        1 * (Y.coeff i j - obj.image.coeff i j)⟩ : ArrayXX F) = ⟨Y.rows, Y.cols, Y.coeff⟩
      congr 1
      funext i j
      ring
  · intro hneg
    rw [make_and_add_watermark_scale rt hsqrt obj is_custom_mask k (ne_of_lt hneg)]
    cases make_and_add_watermark rt obj is_custom_mask with
    | none => rfl
    | some Y =>
      rw [Option.map_some', Option.map_some', if_neg (not_lt.mpr (le_of_lt hneg))]
      congr 2
      funext i j
      ring

/-- C19, witness: the `1 x 1` image of value 3, reference pattern 1 and `k = 2`, with
the real square root. -/
theorem make_and_add_watermark_scale_invariant_witness :
    (0 < (2 : ℝ) → make_and_add_watermark (Example.runtime Real.sqrt fun b e => b ^ e)
        ((Example.object 1 1 3 (fun _ _ => (3 : ℝ)) (fun _ _ => 1) 20).with_pattern
          ((Example.object 1 1 3 (fun _ _ => (3 : ℝ)) (fun _ _ => 1) 20).w.map
            fun x => 2 * x)) true =
      make_and_add_watermark (Example.runtime Real.sqrt fun b e => b ^ e)
        (Example.object 1 1 3 (fun _ _ => (3 : ℝ)) (fun _ _ => 1) 20) true) ∧
    ((2 : ℝ) < 0 → make_and_add_watermark (Example.runtime Real.sqrt fun b e => b ^ e)
        ((Example.object 1 1 3 (fun _ _ => (3 : ℝ)) (fun _ _ => 1) 20).with_pattern
          ((Example.object 1 1 3 (fun _ _ => (3 : ℝ)) (fun _ _ => 1) 20).w.map
            fun x => 2 * x)) true =
      (make_and_add_watermark (Example.runtime Real.sqrt fun b e => b ^ e)
        (Example.object 1 1 3 (fun _ _ => (3 : ℝ)) (fun _ _ => 1) 20) true).map fun Y =>
          ⟨Y.rows, Y.cols, fun i j =>
            (Example.object 1 1 3 (fun _ _ => (3 : ℝ)) (fun _ _ => 1) 20).image.coeff i j -
              (Y.coeff i j -
                (Example.object 1 1 3 (fun _ _ => (3 : ℝ)) (fun _ _ => 1) 20).image.coeff
                  i j)⟩) :=
  make_and_add_watermark_scale_invariant (Example.runtime Real.sqrt fun b e => b ^ e)
    real_sqrt_spec (Example.object 1 1 3 (fun _ _ => (3 : ℝ)) (fun _ _ => 1) 20) true 2

/-- C20: with the reference pattern `W` replaced by `k W`, `k ≠ 0`, the score of
`mask_detector` on every received image is the sign of `k` times the score with `W`,
under either model; it has no value with `k W` exactly when it has none with `W`. -/
theorem mask_detector_sign_homogeneous {F : Type} [LinearOrderedField F] (rt : Runtime F)
    (hsqrt : ∀ x : F, 0 ≤ x → 0 ≤ rt.sqrt x ∧ rt.sqrt x * rt.sqrt x = x)
    (obj : WatermarkFunctions F) (Z : ArrayXX F) (is_custom_mask : Bool) (k : F)
    (hk : k ≠ 0) :
    mask_detector rt (obj.with_pattern (obj.w.map fun x => k * x)) Z is_custom_mask =
      (mask_detector rt obj Z is_custom_mask).map fun s => (if 0 < k then 1 else -1) * s := by
  unfold mask_detector
  rw [detector_error_sequences_scale]
  cases detector_error_sequences rt obj Z is_custom_mask with
  | none => rfl
  | some e =>
    simp only [Option.map_some', Option.some_bind]
    exact correlation_scale rt hsqrt e.1 e.2 k hk

/-- C20, witness: the `1 x 1` image of value 3, reference pattern 1 and `k = -2`, with
the real square root. -/
theorem mask_detector_sign_homogeneous_witness :
    mask_detector (Example.runtime Real.sqrt fun b e => b ^ e)
        ((Example.object 1 1 3 (fun _ _ => (3 : ℝ)) (fun _ _ => 1) 20).with_pattern
          ((Example.object 1 1 3 (fun _ _ => (3 : ℝ)) (fun _ _ => 1) 20).w.map
            fun x => (-2) * x)) ⟨1, 1, fun _ _ => 3⟩ true =
      (mask_detector (Example.runtime Real.sqrt fun b e => b ^ e)
        (Example.object 1 1 3 (fun _ _ => (3 : ℝ)) (fun _ _ => 1) 20) ⟨1, 1, fun _ _ => 3⟩
        true).map fun s => (if 0 < (-2 : ℝ) then 1 else -1) * s :=
  mask_detector_sign_homogeneous (Example.runtime Real.sqrt fun b e => b ^ e)
    real_sqrt_spec (Example.object 1 1 3 (fun _ _ => (3 : ℝ)) (fun _ _ => 1) 20)
    ⟨1, 1, fun _ _ => 3⟩ true (-2) (by norm_num)

end Watermark
